import Mathlib

/-!
# Chunk streaming and viewport tracking of `TestScene`

A shallow embedding of `TerrainSolution/TerrainProj/TestScene.h`.

* The chunk list, the window and the events are settled on an embedding that reads
  `float` values as exact rationals (`ℚ`) and `int` values as unbounded integers (`Int`).
* The arithmetic on the camera position (the displacement of `updateScene`, the coordinate
  transforms, the draw origin of `drawScene`) is embedded a second time in binary32, every
  operation rounded: the functions with the suffix `F32`.
* A member function that mutates the scene becomes a function
  `TestScene → TestScene`; `checkChunkBoundaries`, which also returns a
  `bool`, becomes a function into `Bool × TestScene`.
* `std::vector<Chunk>` is a `List Chunk`, `emplace_back` appends at the end.
* `terrain/chunk.h` and `BaseScene` are not among the sources.  What the scene
  uses of them is modelled below and marked as such.
* Rendering (`drawScene` apart from its arithmetic), the overlay text and the unused
  thread and mutex members are left out.
* A division by a chunk size of zero, which no constructed scene has, follows the
  convention of `ℚ`.
-/

namespace TerrainProj

/-! ## Data model -/

/-- Pair of floats (`sf::Vector2f`). -/
structure Vector2f where
  x : ℚ
  y : ℚ
deriving DecidableEq

/-- Pair of ints (`sf::Vector2i`). -/
structure Vector2i where
  x : Int
  y : Int
deriving DecidableEq

/-- Modelled from the spec: the class `Chunk` of `terrain/chunk.h`, which is not
among the sources.  A chunk is identified by its integer column `x` and row `y`,
carries the shared `width`, `height` and `scale`, and a boolean highlight flag
(`drawBorder()` hands out a reference to it). -/
structure Chunk where
  x : Int
  y : Int
  width : Int
  height : Int
  scale : Int
  drawBorder : Bool
deriving DecidableEq

/-- Modelled from the spec: the constructor call `Chunk{ x, y, width, height, scale }`.
The value the constructor gives the highlight flag is stated nowhere; it is the
parameter `border0`. -/
def Chunk.create (border0 : Bool) (x y width height scale : Int) : Chunk :=
  { x := x, y := y, width := width, height := height, scale := scale, drawBorder := border0 }

/-- Modelled from the spec: `Chunk::inBounds` (`containsPoint`), the half-open unit
cell test `column ≤ x < column+1` and `row ≤ y < row+1` on a fractional
chunk-space coordinate. -/
def Chunk.inBounds (chunk : Chunk) (fx fy : ℚ) : Bool :=
  decide ((chunk.x : ℚ) ≤ fx ∧ fx < (chunk.x : ℚ) + 1 ∧ (chunk.y : ℚ) ≤ fy ∧ fy < (chunk.y : ℚ) + 1)

/-- The mutable members of `TestScene` (lines 13-32), together with the two members
`halfWidth` and `halfHeight` it inherits from `BaseScene`, and the position of
`_cameraShape`, the only part of the shape the update logic reads. -/
structure TestScene where
  _camera : Vector2f
  _cameraRadius : ℚ
  _cameraShapePosition : Vector2f
  _cameraSpeed : ℚ
  _isArrowKeyDown : Bool
  _isArrowKeyUp : Bool
  _isArrowKeyLeft : Bool
  _isArrowKeyRight : Bool
  _chunkWidth : Int
  _chunkHeight : Int
  _chunkScale : Int
  _chunks : List Chunk
  _minChunkColumn : Int
  _maxChunkColumn : Int
  _minChunkRow : Int
  _maxChunkRow : Int
  halfWidth : ℚ
  halfHeight : ℚ

/-! ## Loops -/

/-- Runs `body i` for `n` consecutive values of `i`, starting at `i`. -/
def forLoop {σ : Type} (body : Int → σ → σ) : Nat → Int → σ → σ
  | 0, _, s => s
  | n + 1, i, s => forLoop body n (i + 1) (body i s)

/-- The loop `for (int i = lo; i <= hi; ++i) body(i)`: it runs `hi - lo + 1` times
when `lo ≤ hi` and not at all otherwise. -/
def forInt {σ : Type} (lo hi : Int) (body : Int → σ → σ) (s : σ) : σ :=
  forLoop body (hi + 1 - lo).toNat lo s

/-! ## Operations of `TestScene` -/

/-- Lines 37-46: the outer loop runs over the rows, the inner one over the columns,
and every iteration appends one new chunk. -/
def createChunks (border0 : Bool) (minX maxX minY maxY : Int) (s : TestScene) : TestScene :=
  forInt minY maxY (fun y s1 =>
    forInt minX maxX (fun x s2 =>
      { s2 with _chunks := s2._chunks ++
          [Chunk.create border0 x y s2._chunkWidth s2._chunkHeight s2._chunkScale] }) s1) s

/-- Lines 49-62: the constructed scene.  `halfWidth` and `halfHeight` are what
`BaseScene{ width, height, title }` made of the window size. -/
def TestScene.new (border0 : Bool) (halfWidth halfHeight : ℚ) : TestScene :=
  let s0 : TestScene :=
    { _camera := ⟨0, 0⟩
      _cameraRadius := 25
      _cameraShapePosition := ⟨0, 0⟩
      _cameraSpeed := 1000
      _isArrowKeyDown := false
      _isArrowKeyUp := false
      _isArrowKeyLeft := false
      _isArrowKeyRight := false
      _chunkWidth := 64
      _chunkHeight := 64
      _chunkScale := 4
      _chunks := []
      _minChunkColumn := -1
      _maxChunkColumn := 1
      _minChunkRow := -1
      _maxChunkRow := 1
      halfWidth := halfWidth
      halfHeight := halfHeight }
  let s1 := createChunks border0 s0._minChunkColumn s0._maxChunkColumn s0._minChunkRow s0._maxChunkRow s0
  let s2 := { s1 with _camera := ⟨0, 0⟩ }
  { s2 with _cameraShapePosition := ⟨s2.halfWidth - s2._cameraRadius, s2.halfHeight - s2._cameraRadius⟩ }

/-- The keys the scene reacts to, and any other key. -/
inductive Key where
  | W
  | A
  | S
  | D
  | other
deriving DecidableEq

/-- The events `processSceneEvents` distinguishes. -/
inductive Event where
  | keyPressed (code : Key)
  | keyReleased (code : Key)
  | mouseButtonPressed (mx my : ℚ)
  | other
deriving DecidableEq

/-- Lines 64-104: key presses and releases set and clear the four direction flags; a
mouse press only prints coordinates. -/
def processSceneEvents (event : Event) (s : TestScene) : TestScene :=
  match event with
  | Event.keyPressed code =>
    let s := if code = Key.W then { s with _isArrowKeyUp := true } else s
    let s := if code = Key.S then { s with _isArrowKeyDown := true } else s
    let s := if code = Key.A then { s with _isArrowKeyLeft := true } else s
    let s := if code = Key.D then { s with _isArrowKeyRight := true } else s
    s
  | Event.keyReleased code =>
    let s := if code = Key.W then { s with _isArrowKeyUp := false } else s
    let s := if code = Key.S then { s with _isArrowKeyDown := false } else s
    let s := if code = Key.A then { s with _isArrowKeyLeft := false } else s
    let s := if code = Key.D then { s with _isArrowKeyRight := false } else s
    s
  | Event.mouseButtonPressed _ _ => s
  | Event.other => s

/-- Lines 107-113. -/
def getScreenCoords (s : TestScene) (screenX screenY : ℚ) : Vector2f :=
  ⟨screenX - s.halfWidth, screenY - s.halfHeight⟩

/-- Lines 115-121. -/
def getWorldCoords (s : TestScene) (screenX screenY : ℚ) : Vector2f :=
  ⟨s._camera.x + (screenX - s.halfWidth), s._camera.y + (screenY - s.halfHeight)⟩

/-- Lines 123-134. -/
def getChunkCoords (s : TestScene) (screenX screenY : ℚ) : Vector2f :=
  let world := getWorldCoords s screenX screenY
  let chunkWidth : ℚ := ((s._chunkWidth * s._chunkScale : Int) : ℚ)
  let chunkHeight : ℚ := ((s._chunkHeight * s._chunkScale : Int) : ℚ)
  let chunkX := (world.x + (chunkWidth / 2)) / chunkWidth
  let chunkY := (world.y + (chunkHeight / 2)) / chunkHeight
  ⟨chunkX, chunkY⟩

/-- Lines 136-142. -/
def getCameraChunkCoords (s : TestScene) : Vector2f :=
  getChunkCoords s (s._cameraShapePosition.x + s._cameraRadius)
    (s._cameraShapePosition.y + s._cameraRadius)

/-- Lines 144-155. -/
def getCurrentChunkCoords (s : TestScene) : Vector2i :=
  let coords := getChunkCoords s (s._cameraShapePosition.x + s._cameraRadius)
    (s._cameraShapePosition.y + s._cameraRadius)
  ⟨Int.floor coords.x, Int.floor coords.y⟩

/-- The predicate handed to `std::remove_if` on lines 160-163. -/
def outsideWindow (s : TestScene) (chunk : Chunk) : Bool :=
  decide (chunk.x < s._minChunkColumn) || decide (chunk.x > s._maxChunkColumn)
    || decide (chunk.y < s._minChunkRow) || decide (chunk.y > s._maxChunkRow)

/-- The erase-remove idiom: `v.erase(std::remove_if(v.begin(), v.end(), p), v.end())`
drops the elements `p` holds of and keeps the others in their order. -/
def eraseRemoveIf {α : Type} (p : α → Bool) : List α → List α
  | [] => []
  | a :: l => if p a then eraseRemoveIf p l else a :: eraseRemoveIf p l

/-- Lines 157-165. -/
def cleanupChunks (s : TestScene) : TestScene :=
  { s with _chunks := eraseRemoveIf (outsideWindow s) s._chunks }

/-- Lines 244-253. -/
def updateChunkBorder (s : TestScene) : TestScene :=
  let chunkCoords := getCameraChunkCoords s
  let chunks := s._chunks.map
    (fun chunk => { chunk with drawBorder := chunk.inBounds chunkCoords.x chunkCoords.y })
  { s with _chunks := chunks }

/-- Lines 186-242. -/
def checkChunkBoundaries (border0 : Bool) (s : TestScene) : Bool × TestScene :=
  let currentChunk := getCurrentChunkCoords s
  if currentChunk.x = s._minChunkColumn then
    let s1 := { s with _minChunkColumn := s._minChunkColumn - 1 }
    let s2 := createChunks border0 s1._minChunkColumn s1._minChunkColumn s1._minChunkRow s1._maxChunkRow s1
    let s3 := { s2 with _maxChunkColumn := s2._maxChunkColumn - 1 }
    (true, s3)
  else if currentChunk.x = s._maxChunkColumn then
    let s1 := { s with _maxChunkColumn := s._maxChunkColumn + 1 }
    let s2 := createChunks border0 s1._maxChunkColumn s1._maxChunkColumn s1._minChunkRow s1._maxChunkRow s1
    let s3 := { s2 with _minChunkColumn := s2._minChunkColumn + 1 }
    (true, s3)
  else if currentChunk.y = s._minChunkRow then
    let s1 := { s with _minChunkRow := s._minChunkRow - 1 }
    let s2 := createChunks border0 s1._minChunkColumn s1._maxChunkColumn s1._minChunkRow s1._minChunkRow s1
    let s3 := { s2 with _maxChunkRow := s2._maxChunkRow - 1 }
    (true, s3)
  else if currentChunk.y = s._maxChunkRow then
    let s1 := { s with _maxChunkRow := s._maxChunkRow + 1 }
    let s2 := createChunks border0 s1._minChunkColumn s1._maxChunkColumn s1._maxChunkRow s1._maxChunkRow s1
    let s3 := { s2 with _minChunkRow := s2._minChunkRow + 1 }
    (true, s3)
  else
    (false, s)

/-- Lines 169-175: the camera displacement of a tick. -/
def moveCamera (elapsed : ℚ) (s : TestScene) : TestScene :=
  if s._isArrowKeyUp || s._isArrowKeyDown || s._isArrowKeyLeft || s._isArrowKeyRight then
    let s := if s._isArrowKeyUp then
      { s with _camera := ⟨s._camera.x, s._camera.y - s._cameraSpeed * elapsed⟩ } else s
    let s := if s._isArrowKeyDown then
      { s with _camera := ⟨s._camera.x, s._camera.y + s._cameraSpeed * elapsed⟩ } else s
    let s := if s._isArrowKeyLeft then
      { s with _camera := ⟨s._camera.x - s._cameraSpeed * elapsed, s._camera.y⟩ } else s
    let s := if s._isArrowKeyRight then
      { s with _camera := ⟨s._camera.x + s._cameraSpeed * elapsed, s._camera.y⟩ } else s
    s
  else s

/-- Lines 167-184; `elapsed` is `elapsed.asSeconds()`. -/
def updateScene (border0 : Bool) (elapsed : ℚ) (s : TestScene) : TestScene :=
  let s1 := moveCamera elapsed s
  let s2 := updateChunkBorder s1
  let r := checkChunkBoundaries border0 s2
  if r.1 then cleanupChunks r.2 else r.2

/-- Lines 257-266: the draw origin `drawScene` computes for a chunk. -/
def drawOrigin (s : TestScene) (chunk : Chunk) : Vector2f :=
  let chunkWidth : ℚ := ((s._chunkWidth * s._chunkScale : Int) : ℚ)
  let chunkHeight : ℚ := ((s._chunkHeight * s._chunkScale : Int) : ℚ)
  let worldTranslateX := s.halfWidth - (chunkWidth / 2)
  let worldTranslateY := s.halfHeight - (chunkHeight / 2)
  let x := ((chunk.x : ℚ) * chunkWidth) + worldTranslateX - s._camera.x
  let y := ((chunk.y : ℚ) * chunkHeight) + worldTranslateY - s._camera.y
  ⟨x, y⟩

/-- Lines 255-271: the render calls of a frame, one per chunk in the order of the list,
each with the chunk and its draw origin.  Drawing the camera shape is left out. -/
def drawScene (s : TestScene) : List (Chunk × Vector2f) :=
  s._chunks.map (fun chunk => (chunk, drawOrigin s chunk))

/-! ## Runs of the scene -/

/-- What the host loop does to the scene: it hands over an event, or it calls
`updateScene` with the elapsed time of the frame. -/
inductive Step where
  | event (e : Event)
  | tick (elapsed : ℚ)
deriving DecidableEq

/-- One step of the host loop. -/
def step (border0 : Bool) (st : Step) (s : TestScene) : TestScene :=
  match st with
  | Step.event e => processSceneEvents e s
  | Step.tick elapsed => updateScene border0 elapsed s

/-- The scene after a sequence of steps, the first step of the list first. -/
def run (border0 : Bool) : List Step → TestScene → TestScene
  | [], s => s
  | st :: rest, s => run border0 rest (step border0 st s)

/-! ## Vocabulary of the specification -/

/-- The integers `i, i+1, ..., i+n-1`. -/
def intRangeFrom : Nat → Int → List Int
  | 0, _ => []
  | n + 1, i => i :: intRangeFrom n (i + 1)

/-- The integers of the inclusive range `[lo, hi]`, ascending; empty when `hi < lo`. -/
def intRange (lo hi : Int) : List Int :=
  intRangeFrom (hi + 1 - lo).toNat lo

/-- One new chunk for every integer point of the inclusive rectangle, in row-major
order: rows ascending, columns ascending within a row. -/
def rowMajor (border0 : Bool) (width height scale : Int) (minX maxX minY maxY : Int) : List Chunk :=
  (intRange minY maxY).flatMap (fun y =>
    (intRange minX maxX).map (fun x => Chunk.create border0 x y width height scale))

/-- The point `(x, y)` lies in the window `[minColumn, maxColumn] × [minRow, maxRow]`. -/
def inWindow (s : TestScene) (x y : Int) : Bool :=
  decide (s._minChunkColumn ≤ x ∧ x ≤ s._maxChunkColumn ∧ s._minChunkRow ≤ y ∧ y ≤ s._maxChunkRow)

/-- How many chunks of the list sit at column `x`, row `y`. -/
def chunkCount (chunks : List Chunk) (x y : Int) : Nat :=
  chunks.countP (fun chunk => decide (chunk.x = x ∧ chunk.y = y))

/-- The materialized chunks are exactly the points of the window, each once. -/
def Lattice (s : TestScene) : Prop :=
  ∀ x y : Int, chunkCount s._chunks x y = if inWindow s x y then 1 else 0

/-- Number of columns of the window. -/
def windowWidth (s : TestScene) : Int :=
  s._maxChunkColumn - s._minChunkColumn + 1

/-- Number of rows of the window. -/
def windowHeight (s : TestScene) : Int :=
  s._maxChunkRow - s._minChunkRow + 1

/-- The coordinates of the chunks of a list, in the order of the list. -/
def chunkCoords (chunks : List Chunk) : List (Int × Int) :=
  chunks.map (fun chunk => (chunk.x, chunk.y))

/-- The four bounds of a window. -/
structure Window where
  minColumn : Int
  maxColumn : Int
  minRow : Int
  maxRow : Int
deriving DecidableEq

/-- The window of a scene. -/
def window (s : TestScene) : Window :=
  ⟨s._minChunkColumn, s._maxChunkColumn, s._minChunkRow, s._maxChunkRow⟩

/-- The slide of the specification: the first of the edges left, right, top, bottom the
camera's chunk `c` sits on moves the two bounds of its axis one unit outward; no edge,
no slide. -/
def slideWindow (c : Vector2i) (w : Window) : Window :=
  if c.x = w.minColumn then { w with minColumn := w.minColumn - 1, maxColumn := w.maxColumn - 1 }
  else if c.x = w.maxColumn then { w with minColumn := w.minColumn + 1, maxColumn := w.maxColumn + 1 }
  else if c.y = w.minRow then { w with minRow := w.minRow - 1, maxRow := w.maxRow - 1 }
  else if c.y = w.maxRow then { w with minRow := w.minRow + 1, maxRow := w.maxRow + 1 }
  else w

/-- A direction flag as a number: 1 when set, 0 when clear. -/
def flagValue (flag : Bool) : ℚ :=
  if flag then 1 else 0

/-- The members `updateScene` and `processSceneEvents` only read: radius and speed of the
camera, position of its shape, size and scale of a chunk, half the size of the screen. -/
def constants (s : TestScene) : ℚ × Vector2f × ℚ × Int × Int × Int × ℚ × ℚ :=
  (s._cameraRadius, s._cameraShapePosition, s._cameraSpeed, s._chunkWidth, s._chunkHeight,
    s._chunkScale, s.halfWidth, s.halfHeight)

/-- The four direction flags: down, up, left, right. -/
def flags (s : TestScene) : Bool × Bool × Bool × Bool :=
  (s._isArrowKeyDown, s._isArrowKeyUp, s._isArrowKeyLeft, s._isArrowKeyRight)

/-- The camera's current chunk lies inside the window. -/
def cameraInWindow (s : TestScene) : Bool :=
  inWindow s (getCurrentChunkCoords s).x (getCurrentChunkCoords s).y

/-- The chunk coordinate moves from `a` to `b` by at most one column and at most one row. -/
def movesAtMostOne (a b : Vector2i) : Bool :=
  decide ((-1 ≤ b.x - a.x ∧ b.x - a.x ≤ 1) ∧ (-1 ≤ b.y - a.y ∧ b.y - a.y ≤ 1))

/-- The chunk coordinate moves from `a` to `b` on at most one axis, and there by at most one. -/
def movesOnOneAxis (a b : Vector2i) : Bool :=
  decide ((b.x = a.x ∧ -1 ≤ b.y - a.y ∧ b.y - a.y ≤ 1)
    ∨ (b.y = a.y ∧ -1 ≤ b.x - a.x ∧ b.x - a.x ≤ 1))

/-- Every tick of the run moves the camera's current chunk coordinate in a way `ok`
accepts; `ok` gets the coordinate before and after the tick. -/
def everyTick (border0 : Bool) (ok : Vector2i → Vector2i → Bool) : List Step → TestScene → Bool
  | [], _ => true
  | Step.event e :: rest, s => everyTick border0 ok rest (step border0 (Step.event e) s)
  | Step.tick elapsed :: rest, s =>
    ok (getCurrentChunkCoords s) (getCurrentChunkCoords (step border0 (Step.tick elapsed) s))
      && everyTick border0 ok rest (step border0 (Step.tick elapsed) s)

/-- The window is centred on the camera's current chunk. -/
def windowCentred (s : TestScene) : Bool :=
  decide (window s = ⟨(getCurrentChunkCoords s).x - 1, (getCurrentChunkCoords s).x + 1,
    (getCurrentChunkCoords s).y - 1, (getCurrentChunkCoords s).y + 1⟩)

/-! ## The scene without its chunk list

For a scene with the constants of the constructor (speed 1000, chunks of 64 * 4 = 256
units, camera shape centred on the screen) camera, flags and window evolve on their
own.  `viewStep` is that evolution; `view_step` below proves it is what the code does. -/

/-- Camera position, direction flags (down, up, left, right) and window of a scene. -/
structure View where
  camera : Vector2f
  flags : Bool × Bool × Bool × Bool
  window : Window
deriving DecidableEq

/-- The view of a scene. -/
def view (s : TestScene) : View :=
  ⟨s._camera, flags s, window s⟩

/-- The chunk coordinate of a camera position for chunks of 256 units:
`floor ((position + 128) / 256)` on both axes. -/
def cameraChunk (camera : Vector2f) : Vector2i :=
  ⟨Int.floor ((camera.x + 128) / 256), Int.floor ((camera.y + 128) / 256)⟩

/-- The direction flags (down, up, left, right) after an event. -/
def eventFlags : Event → Bool × Bool × Bool × Bool → Bool × Bool × Bool × Bool
  | Event.keyPressed Key.W, (d, _, l, r) => (d, true, l, r)
  | Event.keyPressed Key.S, (_, u, l, r) => (true, u, l, r)
  | Event.keyPressed Key.A, (d, u, _, r) => (d, u, true, r)
  | Event.keyPressed Key.D, (d, u, l, _) => (d, u, l, true)
  | Event.keyReleased Key.W, (d, _, l, r) => (d, false, l, r)
  | Event.keyReleased Key.S, (_, u, l, r) => (false, u, l, r)
  | Event.keyReleased Key.A, (d, u, _, r) => (d, u, false, r)
  | Event.keyReleased Key.D, (d, u, l, _) => (d, u, l, false)
  | _, f => f

/-- The camera position after the displacement of a tick at speed 1000. -/
def viewMove (elapsed : ℚ) (v : View) : Vector2f :=
  ⟨v.camera.x + 1000 * elapsed * (flagValue v.flags.2.2.2 - flagValue v.flags.2.2.1),
   v.camera.y + 1000 * elapsed * (flagValue v.flags.1 - flagValue v.flags.2.1)⟩

/-- One step on views. -/
def viewStep (st : Step) (v : View) : View :=
  match st with
  | Step.event e => { v with flags := eventFlags e v.flags }
  | Step.tick elapsed =>
    { v with camera := viewMove elapsed v
             window := slideWindow (cameraChunk (viewMove elapsed v)) v.window }

/-- A run on views. -/
def viewRun : List Step → View → View
  | [], v => v
  | st :: rest, v => viewRun rest (viewStep st v)

/-- The counterpart of `everyTick` on views. -/
def viewEveryTick (ok : Vector2i → Vector2i → Bool) : List Step → View → Bool
  | [], _ => true
  | Step.event e :: rest, v => viewEveryTick ok rest (viewStep (Step.event e) v)
  | Step.tick elapsed :: rest, v =>
    ok (cameraChunk v.camera) (cameraChunk (viewStep (Step.tick elapsed) v).camera)
      && viewEveryTick ok rest (viewStep (Step.tick elapsed) v)

/-- The view of the constructed scene: camera at the origin, no flag set, window
`[-1, 1] × [-1, 1]`. -/
def initialView : View :=
  ⟨⟨0, 0⟩, (false, false, false, false), ⟨-1, 1, -1, 1⟩⟩

/-- The camera's chunk `c` sits on one of the four edges of the window. -/
def onEdge (w : Window) (c : Vector2i) : Bool :=
  decide (c.x = w.minColumn ∨ c.x = w.maxColumn ∨ c.y = w.minRow ∨ c.y = w.maxRow)

/-- The chunk sits inside the window `w`. -/
def insideWindow (w : Window) (chunk : Chunk) : Bool :=
  decide (w.minColumn ≤ chunk.x ∧ chunk.x ≤ w.maxColumn ∧ w.minRow ≤ chunk.y ∧ chunk.y ≤ w.maxRow)

/-- The new chunk at column `x`, row `y` of a scene. -/
def newChunk (border0 : Bool) (s : TestScene) (x y : Int) : Chunk :=
  Chunk.create border0 x y s._chunkWidth s._chunkHeight s._chunkScale

/-- The edge the slide of the specification materializes for the camera's chunk `c`: the
column left of the window or right of it over the rows of the window, or the row above
it or below it over the columns of the window; nothing when `c` sits on no edge. -/
def createdBySlide (border0 : Bool) (s : TestScene) (c : Vector2i) : List Chunk :=
  if c.x = s._minChunkColumn then
    (intRange s._minChunkRow s._maxChunkRow).map (fun r => newChunk border0 s (s._minChunkColumn - 1) r)
  else if c.x = s._maxChunkColumn then
    (intRange s._minChunkRow s._maxChunkRow).map (fun r => newChunk border0 s (s._maxChunkColumn + 1) r)
  else if c.y = s._minChunkRow then
    (intRange s._minChunkColumn s._maxChunkColumn).map (fun x => newChunk border0 s x (s._minChunkRow - 1))
  else if c.y = s._maxChunkRow then
    (intRange s._minChunkColumn s._maxChunkColumn).map (fun x => newChunk border0 s x (s._maxChunkRow + 1))
  else []

/-- The highlight refresh of one chunk for the fractional chunk-space position `p`. -/
def refreshBorder (p : Vector2f) (chunk : Chunk) : Chunk :=
  { chunk with drawBorder := chunk.inBounds p.x p.y }

/-- How many chunks of the list have their highlight flag set. -/
def highlightCount (chunks : List Chunk) : Nat :=
  chunks.countP (fun chunk => chunk.drawBorder)

/-- The tick in the order the specification lists its steps: displacement, boundary check
and slide, cleanup, and the highlight refresh last. -/
def updateSceneRefreshLast (border0 : Bool) (elapsed : ℚ) (s : TestScene) : TestScene :=
  let s1 := moveCamera elapsed s
  let r := checkChunkBoundaries border0 s1
  let s2 := if r.1 then cleanupChunks r.2 else r.2
  updateChunkBorder s2

/-! ## Concrete runs -/

/-- Right and down held for a tick of 0.128 s (128 units on both axes, into chunk
`(1, 1)`), then down alone for a tick of 0.256 s (256 units, into chunk `(1, 2)`). -/
def diagonalThenDown : List Step :=
  [Step.event (Event.keyPressed Key.D), Step.event (Event.keyPressed Key.S), Step.tick (16 / 125),
   Step.event (Event.keyReleased Key.D), Step.tick (32 / 125)]

/-- Right held for two ticks of 0.128 s: into chunk `(1, 0)` and on inside it. -/
def rightTwice : List Step :=
  [Step.event (Event.keyPressed Key.D), Step.tick (16 / 125), Step.tick (16 / 125)]

/-- The right key is pressed in the constructed scene of an 800 by 600 screen. -/
def rightPressed (border0 : Bool) : TestScene :=
  processSceneEvents (Event.keyPressed Key.D) (TestScene.new border0 400 300)

/-- Right and down held for a tick of 0.128 s, into chunk `(1, 1)`. -/
def diagonalTick : List Step :=
  [Step.event (Event.keyPressed Key.D), Step.event (Event.keyPressed Key.S), Step.tick (16 / 125)]

/-- The run `diagonalTick` followed by a tick in which the camera stays where it is. -/
def diagonalTickThenRest : List Step :=
  [Step.event (Event.keyPressed Key.D), Step.event (Event.keyPressed Key.S), Step.tick (16 / 125),
   Step.tick 0]

/-- The two key presses `diagonalTick` starts with. -/
def rightAndDownPressed : List Step :=
  [Step.event (Event.keyPressed Key.D), Step.event (Event.keyPressed Key.S)]

/-- Row-major order on chunks: an earlier row, or the same row and an earlier column. -/
def rowMajorBefore (a b : Chunk) : Prop :=
  a.y < b.y ∨ (a.y = b.y ∧ a.x < b.x)

/-- The tick of a variant of the scene that calls `cleanupChunks` on every tick, whatever
the boundary check returned. -/
def updateSceneAlwaysCleanup (border0 : Bool) (elapsed : ℚ) (s : TestScene) : TestScene :=
  let s1 := moveCamera elapsed s
  let s2 := updateChunkBorder s1
  let r := checkChunkBoundaries border0 s2
  cleanupChunks r.2

/-- The scene as `checkChunkBoundaries` finds it in a tick that follows a run from the
constructed scene: the camera displaced, the highlight refreshed. -/
def atCheck (border0 : Bool) (halfWidth halfHeight : ℚ) (steps : List Step) (elapsed : ℚ) :
    TestScene :=
  updateChunkBorder (moveCamera elapsed (run border0 steps (TestScene.new border0 halfWidth halfHeight)))

/-- After every tick of the run the camera's current chunk coordinate is one `ok` accepts. -/
def everyTickAt (border0 : Bool) (ok : Vector2i → Bool) : List Step → TestScene → Bool
  | [], _ => true
  | Step.event e :: rest, s => everyTickAt border0 ok rest (step border0 (Step.event e) s)
  | Step.tick elapsed :: rest, s =>
    ok (getCurrentChunkCoords (step border0 (Step.tick elapsed) s))
      && everyTickAt border0 ok rest (step border0 (Step.tick elapsed) s)

/-- The column of a chunk coordinate lies strictly outside `[lo, hi]`. -/
def columnOutside (lo hi : Int) (c : Vector2i) : Bool :=
  decide (c.x < lo ∨ hi < c.x)

/-- The row of a chunk coordinate lies strictly outside `[lo, hi]`. -/
def rowOutside (lo hi : Int) (c : Vector2i) : Bool :=
  decide (c.y < lo ∨ hi < c.y)

/-- Right held for a tick of 0.128 s, into chunk `(1, 0)`, then down alone for a tick of
0.256 s, into chunk `(1, 1)`. -/
def rightThenDown : List Step :=
  [Step.event (Event.keyPressed Key.D), Step.tick (16 / 125),
   Step.event (Event.keyReleased Key.D), Step.event (Event.keyPressed Key.S), Step.tick (32 / 125)]

/-- The right key is pressed. -/
def pressRight : List Step :=
  [Step.event (Event.keyPressed Key.D)]

/-- Right held for a tick of one second: 1000 units, from chunk `(0, 0)` into chunk `(4, 0)`. -/
def rightFar : List Step :=
  [Step.event (Event.keyPressed Key.D), Step.tick 1]

/-- The run `rightFar` and a further tick of 0.1 s, which leaves the camera in chunk `(4, 0)`. -/
def rightFarThenOn : List Step :=
  [Step.event (Event.keyPressed Key.D), Step.tick 1, Step.tick (1 / 10)]

/-! ## The arithmetic in binary32

The operations above read `float` as `ℚ`.  The functions that compute with the camera
position are embedded here a second time, with every `float` operation rounded to
binary32 on its own: round to nearest, ties to even, no operation contracted with
another and none carried out in a wider format.  A finite `float` is the rational it
stands for, and the two zeros are one value.  A result that is not finite, a division
by zero, and an `int` product or a conversion to `int` outside the range of a 32-bit
`int` end the computation with `none`. -/

/-- The integer nearest to `x`, the even one of the two when `x` lies half way between
two integers. -/
def roundHalfEven (x : ℚ) : Int :=
  if x - Int.floor x < 1 / 2 then Int.floor x
  else if 1 / 2 < x - Int.floor x then Int.floor x + 1
  else if Int.floor x % 2 = 0 then Int.floor x
  else Int.floor x + 1

/-- The exponent of the unit in the last place that binary32 has at `x`: 23 below the
binary exponent of `x` for a normal magnitude, and -149 throughout the subnormal range. -/
def ulpExponent (x : ℚ) : Int :=
  max (Int.log 2 |x|) (-126) - 23

/-- The multiple of the unit in the last place nearest to `x`, ties to even. -/
def roundNearest (x : ℚ) : ℚ :=
  (roundHalfEven (x / 2 ^ ulpExponent x) : ℚ) * 2 ^ ulpExponent x

/-- The binary32 result of an operation whose exact result is `x`; `none` when the
rounded magnitude is beyond the largest finite binary32 value. -/
def roundToFloat (x : ℚ) : Option ℚ :=
  if |roundNearest x| < 2 ^ 128 then some (roundNearest x) else none

/-- The rational `q` is a finite binary32 value: rounding leaves it as it is. -/
def IsBinary32 (q : ℚ) : Prop :=
  roundToFloat q = some q

/-- The `float` sum `a + b`. -/
def addFloat (a b : ℚ) : Option ℚ :=
  roundToFloat (a + b)

/-- The `float` difference `a - b`. -/
def subFloat (a b : ℚ) : Option ℚ :=
  roundToFloat (a - b)

/-- The `float` product `a * b`. -/
def mulFloat (a b : ℚ) : Option ℚ :=
  roundToFloat (a * b)

/-- The `float` quotient `a / b`. -/
def divFloat (a b : ℚ) : Option ℚ :=
  if b = 0 then none else roundToFloat (a / b)

/-- The `int` product `a * b`; signed overflow is undefined. -/
def mulInt (a b : Int) : Option Int :=
  if -2 ^ 31 ≤ a * b ∧ a * b < 2 ^ 31 then some (a * b) else none

/-- The conversion of an `int` to `float`. -/
def intToFloat (n : Int) : Option ℚ :=
  roundToFloat (n : ℚ)

/-- The expression `(int)std::floor(x)`: `std::floor` of a `float` is exact, and the
conversion to `int` is defined when the value fits a 32-bit `int`. -/
def floorToInt (x : ℚ) : Option Int :=
  if -2 ^ 31 ≤ Int.floor x ∧ Int.floor x < 2 ^ 31 then some (Int.floor x) else none

/-- Lines 115-121 in binary32. -/
def getWorldCoordsF32 (s : TestScene) (screenX screenY : ℚ) : Option Vector2f := do
  let dx ← subFloat screenX s.halfWidth
  let x ← addFloat s._camera.x dx
  let dy ← subFloat screenY s.halfHeight
  let y ← addFloat s._camera.y dy
  pure ⟨x, y⟩

/-- Lines 123-134 in binary32. -/
def getChunkCoordsF32 (s : TestScene) (screenX screenY : ℚ) : Option Vector2f := do
  let world ← getWorldCoordsF32 s screenX screenY
  let chunkWidth ← (mulInt s._chunkWidth s._chunkScale).bind intToFloat
  let chunkHeight ← (mulInt s._chunkHeight s._chunkScale).bind intToFloat
  let halfChunkWidth ← divFloat chunkWidth 2
  let sumX ← addFloat world.x halfChunkWidth
  let chunkX ← divFloat sumX chunkWidth
  let halfChunkHeight ← divFloat chunkHeight 2
  let sumY ← addFloat world.y halfChunkHeight
  let chunkY ← divFloat sumY chunkHeight
  pure ⟨chunkX, chunkY⟩

/-- Lines 136-142 in binary32. -/
def getCameraChunkCoordsF32 (s : TestScene) : Option Vector2f := do
  let screenX ← addFloat s._cameraShapePosition.x s._cameraRadius
  let screenY ← addFloat s._cameraShapePosition.y s._cameraRadius
  getChunkCoordsF32 s screenX screenY

/-- Lines 144-155 in binary32. -/
def getCurrentChunkCoordsF32 (s : TestScene) : Option Vector2i := do
  let screenX ← addFloat s._cameraShapePosition.x s._cameraRadius
  let screenY ← addFloat s._cameraShapePosition.y s._cameraRadius
  let coords ← getChunkCoordsF32 s screenX screenY
  let x ← floorToInt coords.x
  let y ← floorToInt coords.y
  pure ⟨x, y⟩

/-- Lines 244-253 in binary32. -/
def updateChunkBorderF32 (s : TestScene) : Option TestScene := do
  let chunkCoords ← getCameraChunkCoordsF32 s
  let chunks := s._chunks.map
    (fun chunk => { chunk with drawBorder := chunk.inBounds chunkCoords.x chunkCoords.y })
  pure { s with _chunks := chunks }

/-- Lines 186-242 in binary32: the camera's current chunk is computed in binary32, the
slide is the one of `checkChunkBoundaries`. -/
def checkChunkBoundariesF32 (border0 : Bool) (s : TestScene) : Option (Bool × TestScene) := do
  let currentChunk ← getCurrentChunkCoordsF32 s
  if currentChunk.x = s._minChunkColumn then
    let s1 := { s with _minChunkColumn := s._minChunkColumn - 1 }
    let s2 := createChunks border0 s1._minChunkColumn s1._minChunkColumn s1._minChunkRow s1._maxChunkRow s1
    let s3 := { s2 with _maxChunkColumn := s2._maxChunkColumn - 1 }
    pure (true, s3)
  else if currentChunk.x = s._maxChunkColumn then
    let s1 := { s with _maxChunkColumn := s._maxChunkColumn + 1 }
    let s2 := createChunks border0 s1._maxChunkColumn s1._maxChunkColumn s1._minChunkRow s1._maxChunkRow s1
    let s3 := { s2 with _minChunkColumn := s2._minChunkColumn + 1 }
    pure (true, s3)
  else if currentChunk.y = s._minChunkRow then
    let s1 := { s with _minChunkRow := s._minChunkRow - 1 }
    let s2 := createChunks border0 s1._minChunkColumn s1._maxChunkColumn s1._minChunkRow s1._minChunkRow s1
    let s3 := { s2 with _maxChunkRow := s2._maxChunkRow - 1 }
    pure (true, s3)
  else if currentChunk.y = s._maxChunkRow then
    let s1 := { s with _maxChunkRow := s._maxChunkRow + 1 }
    let s2 := createChunks border0 s1._minChunkColumn s1._maxChunkColumn s1._maxChunkRow s1._maxChunkRow s1
    let s3 := { s2 with _minChunkRow := s2._minChunkRow + 1 }
    pure (true, s3)
  else
    pure (false, s)

/-- Lines 169-175 in binary32: each of the four statements multiplies and then subtracts
or adds, every operation rounded. -/
def moveCameraF32 (elapsed : ℚ) (s : TestScene) : Option TestScene :=
  if s._isArrowKeyUp || s._isArrowKeyDown || s._isArrowKeyLeft || s._isArrowKeyRight then do
    let s ← if s._isArrowKeyUp then do
        let d ← mulFloat s._cameraSpeed elapsed
        let y ← subFloat s._camera.y d
        pure { s with _camera := ⟨s._camera.x, y⟩ }
      else pure s
    let s ← if s._isArrowKeyDown then do
        let d ← mulFloat s._cameraSpeed elapsed
        let y ← addFloat s._camera.y d
        pure { s with _camera := ⟨s._camera.x, y⟩ }
      else pure s
    let s ← if s._isArrowKeyLeft then do
        let d ← mulFloat s._cameraSpeed elapsed
        let x ← subFloat s._camera.x d
        pure { s with _camera := ⟨x, s._camera.y⟩ }
      else pure s
    let s ← if s._isArrowKeyRight then do
        let d ← mulFloat s._cameraSpeed elapsed
        let x ← addFloat s._camera.x d
        pure { s with _camera := ⟨x, s._camera.y⟩ }
      else pure s
    pure s
  else pure s

/-- Lines 167-184 in binary32; `elapsed` is the `float` that `elapsed.asSeconds()`
returns. -/
def updateSceneF32 (border0 : Bool) (elapsed : ℚ) (s : TestScene) : Option TestScene := do
  let s1 ← moveCameraF32 elapsed s
  let s2 ← updateChunkBorderF32 s1
  let r ← checkChunkBoundariesF32 border0 s2
  pure (if r.1 then cleanupChunks r.2 else r.2)

/-- The coordinate `c` after the two statements of one axis: `c -= d` when the flag
`minus` is set, then `c += d` when the flag `plus` is set, each rounded to binary32. -/
def displaceF32 (minus plus : Bool) (c d : ℚ) : Option ℚ := do
  let c ← if minus then subFloat c d else pure c
  if plus then addFloat c d else pure c

/-- One step of the host loop in binary32: an event is handed over as it is, a tick calls
`updateScene` with the `float` that `elapsed.asSeconds()` returns. -/
def stepF32 (border0 : Bool) (st : Step) (s : TestScene) : Option TestScene :=
  match st with
  | Step.event e => some (processSceneEvents e s)
  | Step.tick elapsed => updateSceneF32 border0 elapsed s

/-- The scene after a sequence of steps in binary32, the first step of the list first. -/
def runF32 (border0 : Bool) : List Step → TestScene → Option TestScene
  | [], s => some s
  | st :: rest, s => (stepF32 border0 st s).bind (runF32 border0 rest)

/-- Right held for two ticks of 14839 and 113161 microseconds, whose lengths in seconds are
the binary32 values `15933255 / 2^30` and `3797053 / 2^25`. -/
def rightToBorder : List Step :=
  [Step.event (Event.keyPressed Key.D), Step.tick (15933255 / 1073741824),
   Step.tick (3797053 / 33554432)]

/-- Down held for a tick of 100 microseconds, whose length in seconds is the binary32
value `13743895 / 2^37`; then the up key is pressed as well. -/
def downThenUpAndDown : List Step :=
  [Step.event (Event.keyPressed Key.S), Step.tick (13743895 / 137438953472),
   Step.event (Event.keyPressed Key.W)]

/-- The constructed scene of an 800 by 600 screen with the camera at `(x, y)`. -/
def cameraAt (x y : ℚ) : TestScene :=
  { TestScene.new false 400 300 with _camera := ⟨x, y⟩ }

/-- The constructed scene of an 800 by 600 screen with the right and the down key held. -/
def rightAndDownHeld : TestScene :=
  { cameraAt 0 0 with _isArrowKeyRight := true, _isArrowKeyDown := true }

/-! ## Loops and the chunk list -/

theorem mem_intRangeFrom (n : Nat) (i x : Int) :
    x ∈ intRangeFrom n i ↔ i ≤ x ∧ x < i + n := by
  induction n generalizing i with
  | zero => simp [intRangeFrom]
  | succ n ih =>
    simp only [intRangeFrom, List.mem_cons, ih, Nat.cast_succ]
    omega

theorem mem_intRange (lo hi x : Int) : x ∈ intRange lo hi ↔ lo ≤ x ∧ x ≤ hi := by
  unfold intRange
  rw [mem_intRangeFrom]
  omega

theorem length_intRangeFrom (n : Nat) (i : Int) : (intRangeFrom n i).length = n := by
  induction n generalizing i with
  | zero => rfl
  | succ n ih => simp [intRangeFrom, ih]

theorem forLoop_append_row (border0 : Bool) (y : Int) (n : Nat) (i : Int) (s : TestScene) :
    forLoop (fun x s2 => { s2 with _chunks := s2._chunks ++
        [Chunk.create border0 x y s2._chunkWidth s2._chunkHeight s2._chunkScale] }) n i s
      = { s with _chunks := s._chunks ++
            (intRangeFrom n i).map (Chunk.create border0 · y s._chunkWidth s._chunkHeight s._chunkScale) } := by
  induction n generalizing i s with
  | zero => simp [forLoop, intRangeFrom]
  | succ n ih => simp [forLoop, intRangeFrom, ih]

theorem forLoop_append_rows (border0 : Bool) (minX maxX : Int) (n : Nat) (j : Int) (s : TestScene) :
    forLoop (fun y s1 => forInt minX maxX (fun x s2 => { s2 with _chunks := s2._chunks ++
        [Chunk.create border0 x y s2._chunkWidth s2._chunkHeight s2._chunkScale] }) s1) n j s
      = { s with _chunks := s._chunks ++
            (intRangeFrom n j).flatMap fun y =>
              (intRange minX maxX).map (Chunk.create border0 · y s._chunkWidth s._chunkHeight s._chunkScale) } := by
  induction n generalizing j s with
  | zero => simp [forLoop, intRangeFrom]
  | succ n ih =>
    rw [forLoop, ih, forInt, forLoop_append_row]
    simp [intRangeFrom, intRange]

/-- The two nested loops of `createChunks` append the row-major list of the rectangle
and touch nothing else. -/
theorem createChunks_eq (border0 : Bool) (minX maxX minY maxY : Int) (s : TestScene) :
    createChunks border0 minX maxX minY maxY s
      = { s with _chunks := s._chunks ++
          rowMajor border0 s._chunkWidth s._chunkHeight s._chunkScale minX maxX minY maxY } := by
  unfold createChunks rowMajor
  rw [forInt, forLoop_append_rows]
  rfl

theorem chunkCount_row (border0 : Bool) (w h sc : Int) (y : Int) (n : Nat) (i : Int) (x y1 : Int) :
    chunkCount ((intRangeFrom n i).map (fun x => Chunk.create border0 x y w h sc)) x y1
      = if i ≤ x ∧ x < i + n ∧ y = y1 then 1 else 0 := by
  induction n generalizing i with
  | zero =>
    simp only [intRangeFrom, chunkCount, List.map_nil, List.countP_nil, Nat.cast_zero]
    split_ifs <;> omega
  | succ n ih =>
    have h1 := ih (i + 1)
    simp only [chunkCount, intRangeFrom, List.map_cons, List.countP_cons, Chunk.create,
      Nat.cast_succ] at h1 ⊢
    rw [h1]
    simp only [decide_eq_true_eq]
    split_ifs <;> omega

theorem chunkCount_rows (border0 : Bool) (w h sc : Int) (minX maxX : Int) (n : Nat) (j : Int)
    (x y1 : Int) :
    chunkCount ((intRangeFrom n j).flatMap (fun y =>
        (intRange minX maxX).map (fun x => Chunk.create border0 x y w h sc))) x y1
      = if minX ≤ x ∧ x ≤ maxX ∧ j ≤ y1 ∧ y1 < j + n then 1 else 0 := by
  induction n generalizing j with
  | zero =>
    simp only [intRangeFrom, chunkCount, List.flatMap_nil, List.countP_nil, Nat.cast_zero]
    split_ifs <;> omega
  | succ n ih =>
    have h1 := ih (j + 1)
    have hr := chunkCount_row border0 w h sc j (maxX + 1 - minX).toNat minX x y1
    simp only [chunkCount, intRangeFrom, List.flatMap_cons, List.countP_append, intRange,
      Nat.cast_succ] at h1 hr ⊢
    rw [h1, hr]
    split_ifs <;> omega

/-- Every point of the rectangle is created once, no other point is. -/
theorem chunkCount_rowMajor (border0 : Bool) (w h sc : Int) (minX maxX minY maxY : Int)
    (x y : Int) :
    chunkCount (rowMajor border0 w h sc minX maxX minY maxY) x y
      = if minX ≤ x ∧ x ≤ maxX ∧ minY ≤ y ∧ y ≤ maxY then 1 else 0 := by
  unfold rowMajor
  rw [intRange, chunkCount_rows]
  split_ifs <;> omega

theorem eraseRemoveIf_eq_filter {α : Type} (p : α → Bool) (l : List α) :
    eraseRemoveIf p l = l.filter (fun a => !p a) := by
  induction l with
  | nil => rfl
  | cons a l ih =>
    by_cases h : p a <;> simp [eraseRemoveIf, h, ih]

/-! ## The chunk list under the operations -/

theorem chunkCount_append (l1 l2 : List Chunk) (x y : Int) :
    chunkCount (l1 ++ l2) x y = chunkCount l1 x y + chunkCount l2 x y := by
  simp [chunkCount, List.countP_append]

theorem chunkCount_cleanupChunks (s : TestScene) (x y : Int) :
    chunkCount (cleanupChunks s)._chunks x y
      = if inWindow s x y then chunkCount s._chunks x y else 0 := by
  simp only [cleanupChunks, eraseRemoveIf_eq_filter, chunkCount, List.countP_filter]
  by_cases hw : inWindow s x y = true
  · rw [if_pos hw]
    apply List.countP_congr
    intro ch _
    simp only [inWindow, decide_eq_true_eq] at hw
    simp only [outsideWindow, Bool.and_eq_true, decide_eq_true_eq, Bool.not_eq_true',
      Bool.or_eq_false_iff, decide_eq_false_iff_not]
    constructor
    · rintro ⟨h, _⟩
      exact h
    · rintro ⟨h1, h2⟩
      subst h1 h2
      refine ⟨⟨rfl, rfl⟩, ?_⟩
      omega
  · rw [if_neg hw]
    rw [List.countP_eq_zero]
    intro ch _
    simp only [inWindow, decide_eq_true_eq] at hw
    simp only [outsideWindow, Bool.and_eq_true, decide_eq_true_eq, Bool.not_eq_true',
      Bool.or_eq_false_iff, decide_eq_false_iff_not]
    rintro ⟨⟨h1, h2⟩, h3⟩
    subst h1 h2
    omega

theorem chunkCount_updateChunkBorder (s : TestScene) (x y : Int) :
    chunkCount (updateChunkBorder s)._chunks x y = chunkCount s._chunks x y := by
  simp only [updateChunkBorder, chunkCount, List.countP_map]
  rfl

/-- The displacement step changes the camera position and nothing else. -/
theorem moveCamera_frame (elapsed : ℚ) (s : TestScene) :
    ∃ c : Vector2f, moveCamera elapsed s = { s with _camera := c } := by
  obtain ⟨cam, rad, pos, speed, kd, ku, kl, kr, cw, chh, cs, chunks, c0, c1, r0, r1, hw, hh⟩ := s
  cases kd <;> cases ku <;> cases kl <;> cases kr <;> exact ⟨_, rfl⟩

theorem moveCamera_chunks (elapsed : ℚ) (s : TestScene) :
    (moveCamera elapsed s)._chunks = s._chunks := by
  obtain ⟨c, hc⟩ := moveCamera_frame elapsed s
  rw [hc]

theorem checkChunkBoundaries_left (border0 : Bool) (s : TestScene)
    (h1 : (getCurrentChunkCoords s).x = s._minChunkColumn) :
    checkChunkBoundaries border0 s = (true,
      { s with
        _minChunkColumn := s._minChunkColumn - 1
        _maxChunkColumn := s._maxChunkColumn - 1
        _chunks := s._chunks ++ rowMajor border0 s._chunkWidth s._chunkHeight s._chunkScale
          (s._minChunkColumn - 1) (s._minChunkColumn - 1) s._minChunkRow s._maxChunkRow }) := by
  simp only [checkChunkBoundaries, createChunks_eq, h1, if_true]

theorem checkChunkBoundaries_right (border0 : Bool) (s : TestScene)
    (h1 : ¬ (getCurrentChunkCoords s).x = s._minChunkColumn)
    (h2 : (getCurrentChunkCoords s).x = s._maxChunkColumn) :
    checkChunkBoundaries border0 s = (true,
      { s with
        _minChunkColumn := s._minChunkColumn + 1
        _maxChunkColumn := s._maxChunkColumn + 1
        _chunks := s._chunks ++ rowMajor border0 s._chunkWidth s._chunkHeight s._chunkScale
          (s._maxChunkColumn + 1) (s._maxChunkColumn + 1) s._minChunkRow s._maxChunkRow }) := by
  simp only [checkChunkBoundaries, createChunks_eq, if_neg h1, if_pos h2]

theorem checkChunkBoundaries_top (border0 : Bool) (s : TestScene)
    (h1 : ¬ (getCurrentChunkCoords s).x = s._minChunkColumn)
    (h2 : ¬ (getCurrentChunkCoords s).x = s._maxChunkColumn)
    (h3 : (getCurrentChunkCoords s).y = s._minChunkRow) :
    checkChunkBoundaries border0 s = (true,
      { s with
        _minChunkRow := s._minChunkRow - 1
        _maxChunkRow := s._maxChunkRow - 1
        _chunks := s._chunks ++ rowMajor border0 s._chunkWidth s._chunkHeight s._chunkScale
          s._minChunkColumn s._maxChunkColumn (s._minChunkRow - 1) (s._minChunkRow - 1) }) := by
  simp only [checkChunkBoundaries, createChunks_eq, if_neg h1, if_neg h2, if_pos h3]

theorem checkChunkBoundaries_bottom (border0 : Bool) (s : TestScene)
    (h1 : ¬ (getCurrentChunkCoords s).x = s._minChunkColumn)
    (h2 : ¬ (getCurrentChunkCoords s).x = s._maxChunkColumn)
    (h3 : ¬ (getCurrentChunkCoords s).y = s._minChunkRow)
    (h4 : (getCurrentChunkCoords s).y = s._maxChunkRow) :
    checkChunkBoundaries border0 s = (true,
      { s with
        _minChunkRow := s._minChunkRow + 1
        _maxChunkRow := s._maxChunkRow + 1
        _chunks := s._chunks ++ rowMajor border0 s._chunkWidth s._chunkHeight s._chunkScale
          s._minChunkColumn s._maxChunkColumn (s._maxChunkRow + 1) (s._maxChunkRow + 1) }) := by
  simp only [checkChunkBoundaries, createChunks_eq, if_neg h1, if_neg h2, if_neg h3, if_pos h4]

theorem checkChunkBoundaries_none (border0 : Bool) (s : TestScene)
    (h1 : ¬ (getCurrentChunkCoords s).x = s._minChunkColumn)
    (h2 : ¬ (getCurrentChunkCoords s).x = s._maxChunkColumn)
    (h3 : ¬ (getCurrentChunkCoords s).y = s._minChunkRow)
    (h4 : ¬ (getCurrentChunkCoords s).y = s._maxChunkRow) :
    checkChunkBoundaries border0 s = (false, s) := by
  simp only [checkChunkBoundaries, if_neg h1, if_neg h2, if_neg h3, if_neg h4]

theorem inWindow_cleanupChunks (s : TestScene) (x y : Int) :
    inWindow (cleanupChunks s) x y = inWindow s x y := rfl

/-- The boundary check followed by the cleanup it asks for keeps the lattice. -/
theorem Lattice_slide (border0 : Bool) (s : TestScene) (h : Lattice s) :
    Lattice (if (checkChunkBoundaries border0 s).1 then
      cleanupChunks (checkChunkBoundaries border0 s).2 else (checkChunkBoundaries border0 s).2) := by
  intro x y
  have hxy := h x y
  simp only [inWindow, decide_eq_true_eq] at hxy
  have hcases : (chunkCount s._chunks x y = 1 ∧ (s._minChunkColumn ≤ x ∧ x ≤ s._maxChunkColumn
        ∧ s._minChunkRow ≤ y ∧ y ≤ s._maxChunkRow))
      ∨ (chunkCount s._chunks x y = 0 ∧ ¬ (s._minChunkColumn ≤ x ∧ x ≤ s._maxChunkColumn
        ∧ s._minChunkRow ≤ y ∧ y ≤ s._maxChunkRow)) := by
    by_cases hin : s._minChunkColumn ≤ x ∧ x ≤ s._maxChunkColumn ∧ s._minChunkRow ≤ y ∧ y ≤ s._maxChunkRow
    · left
      rw [if_pos hin] at hxy
      exact ⟨hxy, hin⟩
    · right
      rw [if_neg hin] at hxy
      exact ⟨hxy, hin⟩
  clear hxy
  by_cases h1 : (getCurrentChunkCoords s).x = s._minChunkColumn
  · rw [checkChunkBoundaries_left border0 s h1]
    simp only [if_true, inWindow_cleanupChunks, chunkCount_cleanupChunks, chunkCount_append,
      chunkCount_rowMajor]
    simp only [inWindow, decide_eq_true_eq]
    rcases hcases with ⟨hc, hin⟩ | ⟨hc, hin⟩ <;> rw [hc] <;> split_ifs <;> omega
  by_cases h2 : (getCurrentChunkCoords s).x = s._maxChunkColumn
  · rw [checkChunkBoundaries_right border0 s h1 h2]
    simp only [if_true, inWindow_cleanupChunks, chunkCount_cleanupChunks, chunkCount_append,
      chunkCount_rowMajor]
    simp only [inWindow, decide_eq_true_eq]
    rcases hcases with ⟨hc, hin⟩ | ⟨hc, hin⟩ <;> rw [hc] <;> split_ifs <;> omega
  by_cases h3 : (getCurrentChunkCoords s).y = s._minChunkRow
  · rw [checkChunkBoundaries_top border0 s h1 h2 h3]
    simp only [if_true, inWindow_cleanupChunks, chunkCount_cleanupChunks, chunkCount_append,
      chunkCount_rowMajor]
    simp only [inWindow, decide_eq_true_eq]
    rcases hcases with ⟨hc, hin⟩ | ⟨hc, hin⟩ <;> rw [hc] <;> split_ifs <;> omega
  by_cases h4 : (getCurrentChunkCoords s).y = s._maxChunkRow
  · rw [checkChunkBoundaries_bottom border0 s h1 h2 h3 h4]
    simp only [if_true, inWindow_cleanupChunks, chunkCount_cleanupChunks, chunkCount_append,
      chunkCount_rowMajor]
    simp only [inWindow, decide_eq_true_eq]
    rcases hcases with ⟨hc, hin⟩ | ⟨hc, hin⟩ <;> rw [hc] <;> split_ifs <;> omega
  · rw [checkChunkBoundaries_none border0 s h1 h2 h3 h4]
    exact h x y

theorem Lattice_updateScene (border0 : Bool) (elapsed : ℚ) (s : TestScene) (h : Lattice s) :
    Lattice (updateScene border0 elapsed s) := by
  unfold updateScene
  apply Lattice_slide
  intro x y
  obtain ⟨c, hc⟩ := moveCamera_frame elapsed s
  rw [chunkCount_updateChunkBorder, hc]
  exact h x y

theorem length_rows (border0 : Bool) (w h sc : Int) (minX maxX : Int) (n : Nat) (j : Int) :
    ((intRangeFrom n j).flatMap (fun y =>
        (intRange minX maxX).map (fun x => Chunk.create border0 x y w h sc))).length
      = n * (maxX + 1 - minX).toNat := by
  induction n generalizing j with
  | zero => simp [intRangeFrom]
  | succ n ih =>
    have h1 := ih (j + 1)
    simp only [intRange] at h1
    simp only [intRangeFrom, List.flatMap_cons, List.length_append, List.length_map, intRange,
      length_intRangeFrom, h1]
    ring

theorem length_rowMajor (border0 : Bool) (w h sc : Int) (minX maxX minY maxY : Int) :
    (rowMajor border0 w h sc minX maxX minY maxY).length
      = (maxY + 1 - minY).toNat * (maxX + 1 - minX).toNat := by
  unfold rowMajor
  rw [intRange, length_rows]

/-- Lists of chunks with the same count at every point have coordinate lists that are
permutations of each other. -/
theorem chunkCoords_perm (l1 l2 : List Chunk)
    (h : ∀ x y : Int, chunkCount l1 x y = chunkCount l2 x y) :
    (chunkCoords l1).Perm (chunkCoords l2) := by
  rw [List.perm_iff_count]
  rintro ⟨x, y⟩
  simp only [chunkCoords, List.count, List.countP_map]
  have e : ∀ ch : Chunk,
      decide ((ch.x, ch.y) = (x, y)) = true ↔ decide (ch.x = x ∧ ch.y = y) = true := by
    intro ch
    rw [decide_eq_true_eq, decide_eq_true_eq, Prod.mk.injEq]
  exact (List.countP_congr (fun ch _ => e ch)).trans
    ((h x y).trans (List.countP_congr (fun ch _ => (e ch).symm)))

/-- A scene whose chunks form the lattice of its window holds width times height chunks. -/
theorem Lattice.length_eq (s : TestScene) (h : Lattice s) :
    s._chunks.length = (windowHeight s).toNat * (windowWidth s).toNat := by
  have hp := chunkCoords_perm s._chunks (rowMajor false 0 0 0
      s._minChunkColumn s._maxChunkColumn s._minChunkRow s._maxChunkRow) (by
    intro x y
    rw [h x y, chunkCount_rowMajor]
    simp [inWindow])
  have hl := hp.length_eq
  simp only [chunkCoords, List.length_map, length_rowMajor] at hl
  rw [hl, windowHeight, windowWidth]
  congr 2 <;> omega

theorem Lattice_new (border0 : Bool) (halfWidth halfHeight : ℚ) :
    Lattice (TestScene.new border0 halfWidth halfHeight) := by
  intro x y
  simp only [TestScene.new, createChunks_eq, List.nil_append, chunkCount_rowMajor, inWindow,
    decide_eq_true_eq]

/-- An event changes the four direction flags and nothing else. -/
theorem processSceneEvents_frame (e : Event) (s : TestScene) :
    ∃ kd ku kl kr : Bool, processSceneEvents e s = { s with
      _isArrowKeyDown := kd, _isArrowKeyUp := ku, _isArrowKeyLeft := kl, _isArrowKeyRight := kr } := by
  cases e with
  | keyPressed code => cases code <;> exact ⟨_, _, _, _, rfl⟩
  | keyReleased code => cases code <;> exact ⟨_, _, _, _, rfl⟩
  | mouseButtonPressed mx my => exact ⟨_, _, _, _, rfl⟩
  | other => exact ⟨_, _, _, _, rfl⟩

theorem Lattice_step (border0 : Bool) (st : Step) (s : TestScene) (h : Lattice s) :
    Lattice (step border0 st s) := by
  cases st with
  | event e =>
    obtain ⟨kd, ku, kl, kr, he⟩ := processSceneEvents_frame e s
    simp only [step, he]
    exact h
  | tick elapsed => exact Lattice_updateScene border0 elapsed s h

theorem Lattice_run (border0 : Bool) (steps : List Step) (s : TestScene) (h : Lattice s) :
    Lattice (run border0 steps s) := by
  induction steps generalizing s with
  | nil => exact h
  | cons st rest ih => exact ih _ (Lattice_step border0 st s h)

/-- The boundary check moves both bounds of an axis by the same unit, so the cleanup
that may follow leaves the size of the window as it was. -/
theorem windowSize_slide (border0 : Bool) (s : TestScene) :
    windowWidth (if (checkChunkBoundaries border0 s).1 then
        cleanupChunks (checkChunkBoundaries border0 s).2 else (checkChunkBoundaries border0 s).2)
      = windowWidth s
    ∧ windowHeight (if (checkChunkBoundaries border0 s).1 then
        cleanupChunks (checkChunkBoundaries border0 s).2 else (checkChunkBoundaries border0 s).2)
      = windowHeight s := by
  by_cases h1 : (getCurrentChunkCoords s).x = s._minChunkColumn
  · rw [checkChunkBoundaries_left border0 s h1]
    constructor <;> simp only [if_true, cleanupChunks, windowWidth, windowHeight]; omega
  by_cases h2 : (getCurrentChunkCoords s).x = s._maxChunkColumn
  · rw [checkChunkBoundaries_right border0 s h1 h2]
    constructor <;> simp only [if_true, cleanupChunks, windowWidth, windowHeight]; omega
  by_cases h3 : (getCurrentChunkCoords s).y = s._minChunkRow
  · rw [checkChunkBoundaries_top border0 s h1 h2 h3]
    constructor <;> simp only [if_true, cleanupChunks, windowWidth, windowHeight]; omega
  by_cases h4 : (getCurrentChunkCoords s).y = s._maxChunkRow
  · rw [checkChunkBoundaries_bottom border0 s h1 h2 h3 h4]
    constructor <;> simp only [if_true, cleanupChunks, windowWidth, windowHeight]; omega
  · rw [checkChunkBoundaries_none border0 s h1 h2 h3 h4]
    simp

theorem windowSize_updateScene (border0 : Bool) (elapsed : ℚ) (s : TestScene) :
    windowWidth (updateScene border0 elapsed s) = windowWidth s
    ∧ windowHeight (updateScene border0 elapsed s) = windowHeight s := by
  have h := windowSize_slide border0 (updateChunkBorder (moveCamera elapsed s))
  obtain ⟨c, hc⟩ := moveCamera_frame elapsed s
  unfold updateScene
  rw [h.1, h.2, hc]
  exact ⟨rfl, rfl⟩

theorem windowSize_step (border0 : Bool) (st : Step) (s : TestScene) :
    windowWidth (step border0 st s) = windowWidth s
    ∧ windowHeight (step border0 st s) = windowHeight s := by
  cases st with
  | event e =>
    obtain ⟨kd, ku, kl, kr, he⟩ := processSceneEvents_frame e s
    simp only [step, he]
    exact ⟨rfl, rfl⟩
  | tick elapsed => exact windowSize_updateScene border0 elapsed s

theorem windowSize_run (border0 : Bool) (steps : List Step) (s : TestScene) :
    windowWidth (run border0 steps s) = windowWidth s
    ∧ windowHeight (run border0 steps s) = windowHeight s := by
  induction steps generalizing s with
  | nil => exact ⟨rfl, rfl⟩
  | cons st rest ih =>
    have h1 := ih (step border0 st s)
    have h2 := windowSize_step border0 st s
    exact ⟨h1.1.trans h2.1, h1.2.trans h2.2⟩

theorem windowSize_new (border0 : Bool) (halfWidth halfHeight : ℚ) :
    windowWidth (TestScene.new border0 halfWidth halfHeight) = 3
    ∧ windowHeight (TestScene.new border0 halfWidth halfHeight) = 3 := by
  simp only [TestScene.new, createChunks_eq, windowWidth, windowHeight]
  constructor <;> norm_num

theorem pairwise_intRangeFrom (n : Nat) (i : Int) :
    (intRangeFrom n i).Pairwise (fun a b => a < b) := by
  induction n generalizing i with
  | zero => exact List.Pairwise.nil
  | succ n ih =>
    rw [intRangeFrom, List.pairwise_cons]
    refine ⟨?_, ih (i + 1)⟩
    intro a ha
    rw [mem_intRangeFrom] at ha
    omega

theorem pairwise_rows (border0 : Bool) (w h sc : Int) (minX maxX : Int) (n : Nat) (j : Int) :
    ((intRangeFrom n j).flatMap (fun y =>
        (intRange minX maxX).map (fun x => Chunk.create border0 x y w h sc))).Pairwise
      rowMajorBefore := by
  induction n generalizing j with
  | zero => exact List.Pairwise.nil
  | succ n ih =>
    rw [intRangeFrom, List.flatMap_cons, List.pairwise_append]
    refine ⟨?_, ih (j + 1), ?_⟩
    · rw [List.pairwise_map]
      exact (pairwise_intRangeFrom _ _).imp (fun hab => Or.inr ⟨rfl, hab⟩)
    · intro a ha b hb
      obtain ⟨x, _, rfl⟩ := List.mem_map.mp ha
      obtain ⟨y, hy, hb⟩ := List.mem_flatMap.mp hb
      obtain ⟨x2, _, rfl⟩ := List.mem_map.mp hb
      rw [mem_intRangeFrom] at hy
      left
      simp only [Chunk.create]
      omega

/-- The row-major list is in row-major order. -/
theorem pairwise_rowMajor (border0 : Bool) (w h sc : Int) (minX maxX minY maxY : Int) :
    (rowMajor border0 w h sc minX maxX minY maxY).Pairwise rowMajorBefore := by
  unfold rowMajor
  rw [intRange]
  exact pairwise_rows border0 w h sc minX maxX _ minY

/-! ## The boundary check in closed form -/

theorem intRange_self (x : Int) : intRange x x = [x] := by
  have h : (x + 1 - x).toNat = 1 := by
    have h1 : x + 1 - x = 1 := by ring
    rw [h1]
    rfl
  simp only [intRange, h, intRangeFrom]

theorem rowMajor_column (border0 : Bool) (w h sc x minY maxY : Int) :
    rowMajor border0 w h sc x x minY maxY
      = (intRange minY maxY).map (fun r => Chunk.create border0 x r w h sc) := by
  simp only [rowMajor, intRange_self, List.map_cons, List.map_nil]
  induction intRange minY maxY with
  | nil => rfl
  | cons a l ih => simp only [List.flatMap_cons, List.map_cons, ih, List.singleton_append]

theorem rowMajor_row (border0 : Bool) (w h sc minX maxX y : Int) :
    rowMajor border0 w h sc minX maxX y y
      = (intRange minX maxX).map (fun x => Chunk.create border0 x y w h sc) := by
  simp only [rowMajor, intRange_self, List.flatMap_cons, List.flatMap_nil, List.append_nil]

/-- The boundary check in one equation: it reports whether the camera's chunk sits on an
edge, appends the edge the slide materializes and slides the window. -/
theorem checkChunkBoundaries_eq (border0 : Bool) (s : TestScene) :
    checkChunkBoundaries border0 s = (onEdge (window s) (getCurrentChunkCoords s),
      { s with
        _chunks := s._chunks ++ createdBySlide border0 s (getCurrentChunkCoords s)
        _minChunkColumn := (slideWindow (getCurrentChunkCoords s) (window s)).minColumn
        _maxChunkColumn := (slideWindow (getCurrentChunkCoords s) (window s)).maxColumn
        _minChunkRow := (slideWindow (getCurrentChunkCoords s) (window s)).minRow
        _maxChunkRow := (slideWindow (getCurrentChunkCoords s) (window s)).maxRow }) := by
  by_cases h1 : (getCurrentChunkCoords s).x = s._minChunkColumn
  · rw [checkChunkBoundaries_left border0 s h1]
    simp [onEdge, window, slideWindow, createdBySlide, newChunk, h1, rowMajor_column]
  by_cases h2 : (getCurrentChunkCoords s).x = s._maxChunkColumn
  · rw [checkChunkBoundaries_right border0 s h1 h2]
    rw [h2] at h1
    simp [onEdge, window, slideWindow, createdBySlide, newChunk, h1, h2, rowMajor_column]
  by_cases h3 : (getCurrentChunkCoords s).y = s._minChunkRow
  · rw [checkChunkBoundaries_top border0 s h1 h2 h3]
    simp [onEdge, window, slideWindow, createdBySlide, newChunk, h1, h2, h3, rowMajor_row]
  by_cases h4 : (getCurrentChunkCoords s).y = s._maxChunkRow
  · rw [checkChunkBoundaries_bottom border0 s h1 h2 h3 h4]
    rw [h4] at h3
    simp [onEdge, window, slideWindow, createdBySlide, newChunk, h1, h2, h3, h4, rowMajor_row]
  · rw [checkChunkBoundaries_none border0 s h1 h2 h3 h4]
    simp [onEdge, window, slideWindow, createdBySlide, h1, h2, h3, h4]

theorem not_outsideWindow (s : TestScene) (chunk : Chunk) :
    (!outsideWindow s chunk) = insideWindow (window s) chunk := by
  rw [Bool.eq_iff_iff]
  simp only [outsideWindow, insideWindow, window, Bool.not_eq_true', Bool.or_eq_false_iff,
    decide_eq_false_iff_not, decide_eq_true_eq]
  omega

/-- The cleanup keeps the chunks inside the window, in their order. -/
theorem cleanupChunks_eq (s : TestScene) :
    cleanupChunks s = { s with _chunks := s._chunks.filter (insideWindow (window s)) } := by
  simp only [cleanupChunks, eraseRemoveIf_eq_filter]
  congr 1
  apply List.filter_congr
  intro chunk _
  exact not_outsideWindow s chunk

theorem createdBySlide_of_not_onEdge (border0 : Bool) (s : TestScene) (c : Vector2i)
    (h : ¬ onEdge (window s) c = true) : createdBySlide border0 s c = [] := by
  simp only [onEdge, window, decide_eq_true_eq, not_or] at h
  simp only [createdBySlide, if_neg h.1, if_neg h.2.1, if_neg h.2.2.1, if_neg h.2.2.2]

theorem slideWindow_of_not_onEdge (w : Window) (c : Vector2i)
    (h : ¬ onEdge w c = true) : slideWindow c w = w := by
  simp only [onEdge, decide_eq_true_eq, not_or] at h
  simp only [slideWindow, if_neg h.1, if_neg h.2.1, if_neg h.2.2.1, if_neg h.2.2.2]

/-- The chunk list after a tick: every chunk is refreshed for the displaced camera; when
the camera's chunk sits on an edge the new edge is appended, unrefreshed, and the
chunks outside the slid window are dropped. -/
theorem updateScene_chunks (border0 : Bool) (elapsed : ℚ) (s : TestScene) :
    (updateScene border0 elapsed s)._chunks
      = if onEdge (window (moveCamera elapsed s)) (getCurrentChunkCoords (moveCamera elapsed s)) then
          ((moveCamera elapsed s)._chunks.map (refreshBorder (getCameraChunkCoords (moveCamera elapsed s)))
            ++ createdBySlide border0 (moveCamera elapsed s)
                (getCurrentChunkCoords (moveCamera elapsed s))).filter
            (insideWindow (slideWindow (getCurrentChunkCoords (moveCamera elapsed s))
              (window (moveCamera elapsed s))))
        else (moveCamera elapsed s)._chunks.map
          (refreshBorder (getCameraChunkCoords (moveCamera elapsed s))) := by
  unfold updateScene
  simp only [checkChunkBoundaries_eq]
  by_cases h : onEdge (window (moveCamera elapsed s)) (getCurrentChunkCoords (moveCamera elapsed s)) = true
  · have h2 : onEdge (window (updateChunkBorder (moveCamera elapsed s)))
        (getCurrentChunkCoords (updateChunkBorder (moveCamera elapsed s))) = true := h
    rw [if_pos h2, if_pos h, cleanupChunks_eq]
    rfl
  · have h2 : ¬ onEdge (window (updateChunkBorder (moveCamera elapsed s)))
        (getCurrentChunkCoords (updateChunkBorder (moveCamera elapsed s))) = true := h
    rw [if_neg h2, if_neg h]
    show (updateChunkBorder (moveCamera elapsed s))._chunks
      ++ createdBySlide border0 (moveCamera elapsed s) (getCurrentChunkCoords (moveCamera elapsed s)) = _
    rw [createdBySlide_of_not_onEdge border0 _ _ h, List.append_nil]
    rfl

/-- The chunk list after a tick in the order of the specification: the refresh reaches
the new edge too. -/
theorem updateSceneRefreshLast_chunks (border0 : Bool) (elapsed : ℚ) (s : TestScene) :
    (updateSceneRefreshLast border0 elapsed s)._chunks
      = if onEdge (window (moveCamera elapsed s)) (getCurrentChunkCoords (moveCamera elapsed s)) then
          (((moveCamera elapsed s)._chunks
            ++ createdBySlide border0 (moveCamera elapsed s)
                (getCurrentChunkCoords (moveCamera elapsed s))).filter
            (insideWindow (slideWindow (getCurrentChunkCoords (moveCamera elapsed s))
              (window (moveCamera elapsed s))))).map
            (refreshBorder (getCameraChunkCoords (moveCamera elapsed s)))
        else (moveCamera elapsed s)._chunks.map
          (refreshBorder (getCameraChunkCoords (moveCamera elapsed s))) := by
  unfold updateSceneRefreshLast
  simp only [checkChunkBoundaries_eq]
  by_cases h : onEdge (window (moveCamera elapsed s)) (getCurrentChunkCoords (moveCamera elapsed s)) = true
  · rw [if_pos h, if_pos h, cleanupChunks_eq]
    rfl
  · rw [if_neg h, if_neg h]
    show List.map _ ((moveCamera elapsed s)._chunks
      ++ createdBySlide border0 (moveCamera elapsed s) (getCurrentChunkCoords (moveCamera elapsed s))) = _
    rw [createdBySlide_of_not_onEdge border0 _ _ h, List.append_nil]
    rfl

/-! ## What a step changes -/

/-- The displacement of a tick in closed form. -/
theorem moveCamera_eq (elapsed : ℚ) (s : TestScene) :
    moveCamera elapsed s = { s with _camera :=
      ⟨s._camera.x + s._cameraSpeed * elapsed * (flagValue s._isArrowKeyRight - flagValue s._isArrowKeyLeft),
       s._camera.y + s._cameraSpeed * elapsed * (flagValue s._isArrowKeyDown - flagValue s._isArrowKeyUp)⟩ } := by
  obtain ⟨⟨cx, cy⟩, rad, pos, speed, kd, ku, kl, kr, cw, chh, cs, chunks, c0, c1, r0, r1, hw, hh⟩ := s
  cases kd <;> cases ku <;> cases kl <;> cases kr <;>
    simp [moveCamera, flagValue] <;> first | ring1 | (constructor <;> ring1)

/-- Boundary check and cleanup change the chunk list and the window and nothing else. -/
theorem slide_frame (border0 : Bool) (s : TestScene) :
    ∃ (l : List Chunk) (w : Window),
      (if (checkChunkBoundaries border0 s).1 then
        cleanupChunks (checkChunkBoundaries border0 s).2 else (checkChunkBoundaries border0 s).2)
      = { s with _chunks := l, _minChunkColumn := w.minColumn, _maxChunkColumn := w.maxColumn,
                 _minChunkRow := w.minRow, _maxChunkRow := w.maxRow }
      ∧ w = slideWindow (getCurrentChunkCoords s) (window s) := by
  by_cases h1 : (getCurrentChunkCoords s).x = s._minChunkColumn
  · rw [checkChunkBoundaries_left border0 s h1]
    exact ⟨_, ⟨_, _, _, _⟩, rfl, by simp only [slideWindow, window, if_pos h1]⟩
  by_cases h2 : (getCurrentChunkCoords s).x = s._maxChunkColumn
  · rw [checkChunkBoundaries_right border0 s h1 h2]
    exact ⟨_, ⟨_, _, _, _⟩, rfl, by simp only [slideWindow, window, if_neg h1, if_pos h2]⟩
  by_cases h3 : (getCurrentChunkCoords s).y = s._minChunkRow
  · rw [checkChunkBoundaries_top border0 s h1 h2 h3]
    exact ⟨_, ⟨_, _, _, _⟩, rfl, by simp only [slideWindow, window, if_neg h1, if_neg h2, if_pos h3]⟩
  by_cases h4 : (getCurrentChunkCoords s).y = s._maxChunkRow
  · rw [checkChunkBoundaries_bottom border0 s h1 h2 h3 h4]
    exact ⟨_, ⟨_, _, _, _⟩, rfl,
      by simp only [slideWindow, window, if_neg h1, if_neg h2, if_neg h3, if_pos h4]⟩
  · rw [checkChunkBoundaries_none border0 s h1 h2 h3 h4]
    exact ⟨_, ⟨_, _, _, _⟩, rfl,
      by simp only [slideWindow, window, if_neg h1, if_neg h2, if_neg h3, if_neg h4]⟩

/-- A tick in terms of what it changes: the camera by the displacement, the window by
the slide for the displaced camera, and the chunk list. -/
theorem updateScene_frame (border0 : Bool) (elapsed : ℚ) (s : TestScene) :
    ∃ l : List Chunk, updateScene border0 elapsed s = { s with
        _camera := (moveCamera elapsed s)._camera
        _chunks := l
        _minChunkColumn := (slideWindow (getCurrentChunkCoords (moveCamera elapsed s)) (window s)).minColumn
        _maxChunkColumn := (slideWindow (getCurrentChunkCoords (moveCamera elapsed s)) (window s)).maxColumn
        _minChunkRow := (slideWindow (getCurrentChunkCoords (moveCamera elapsed s)) (window s)).minRow
        _maxChunkRow := (slideWindow (getCurrentChunkCoords (moveCamera elapsed s)) (window s)).maxRow } := by
  obtain ⟨l, w, h, hw⟩ := slide_frame border0 (updateChunkBorder (moveCamera elapsed s))
  obtain ⟨c, hc⟩ := moveCamera_frame elapsed s
  refine ⟨l, ?_⟩
  unfold updateScene
  rw [h, hw, hc]
  rfl

theorem updateScene_window (border0 : Bool) (elapsed : ℚ) (s : TestScene) :
    window (updateScene border0 elapsed s)
      = slideWindow (getCurrentChunkCoords (moveCamera elapsed s)) (window s) := by
  obtain ⟨l, h⟩ := updateScene_frame border0 elapsed s
  rw [h]
  rfl

theorem updateScene_chunkCoords (border0 : Bool) (elapsed : ℚ) (s : TestScene) :
    getCurrentChunkCoords (updateScene border0 elapsed s)
      = getCurrentChunkCoords (moveCamera elapsed s) := by
  obtain ⟨l, h⟩ := updateScene_frame border0 elapsed s
  obtain ⟨c, hc⟩ := moveCamera_frame elapsed s
  rw [h, hc]
  rfl

theorem updateScene_constants (border0 : Bool) (elapsed : ℚ) (s : TestScene) :
    constants (updateScene border0 elapsed s) = constants s := by
  obtain ⟨l, h⟩ := updateScene_frame border0 elapsed s
  rw [h]
  rfl

theorem updateScene_flags (border0 : Bool) (elapsed : ℚ) (s : TestScene) :
    flags (updateScene border0 elapsed s) = flags s := by
  obtain ⟨l, h⟩ := updateScene_frame border0 elapsed s
  rw [h]
  rfl

theorem updateScene_camera (border0 : Bool) (elapsed : ℚ) (s : TestScene) :
    (updateScene border0 elapsed s)._camera = (moveCamera elapsed s)._camera := by
  obtain ⟨l, h⟩ := updateScene_frame border0 elapsed s
  rw [h]

/-! ## Runs seen through the view -/

theorem constants_new (border0 : Bool) (halfWidth halfHeight : ℚ) :
    constants (TestScene.new border0 halfWidth halfHeight)
      = (25, ⟨halfWidth - 25, halfHeight - 25⟩, 1000, 64, 64, 4, halfWidth, halfHeight) := by
  simp only [TestScene.new, createChunks_eq, constants]

theorem view_new (border0 : Bool) (halfWidth halfHeight : ℚ) :
    view (TestScene.new border0 halfWidth halfHeight) = initialView := by
  simp only [TestScene.new, createChunks_eq, view, initialView, flags, window]

theorem step_constants (border0 : Bool) (st : Step) (s : TestScene) :
    constants (step border0 st s) = constants s := by
  cases st with
  | event e =>
    obtain ⟨kd, ku, kl, kr, he⟩ := processSceneEvents_frame e s
    simp only [step, he]
    rfl
  | tick elapsed => exact updateScene_constants border0 elapsed s

theorem run_constants (border0 : Bool) (steps : List Step) (s : TestScene) :
    constants (run border0 steps s) = constants s := by
  induction steps generalizing s with
  | nil => rfl
  | cons st rest ih => exact (ih _).trans (step_constants border0 st s)

/-- With the constants of the constructor the camera's current chunk is
`floor ((camera + 128) / 256)` on both axes, whatever the size of the screen. -/
theorem getCurrentChunkCoords_eq (s : TestScene) (halfWidth halfHeight : ℚ)
    (h : constants s
      = (25, ⟨halfWidth - 25, halfHeight - 25⟩, 1000, 64, 64, 4, halfWidth, halfHeight)) :
    getCurrentChunkCoords s = cameraChunk s._camera := by
  simp only [constants, Prod.mk.injEq] at h
  obtain ⟨h1, h2, h3, h4, h5, h6, h7, h8⟩ := h
  simp only [getCurrentChunkCoords, getChunkCoords, getWorldCoords, cameraChunk, h1, h2, h4, h5,
    h6, h7, h8]
  congr 2 <;> norm_num

theorem flags_processSceneEvents (e : Event) (s : TestScene) :
    flags (processSceneEvents e s) = eventFlags e (flags s) := by
  cases e with
  | keyPressed code => cases code <;> rfl
  | keyReleased code => cases code <;> rfl
  | mouseButtonPressed mx my => rfl
  | other => rfl

/-- The code moves camera, flags and window the way `viewStep` does. -/
theorem view_step (border0 : Bool) (st : Step) (s : TestScene) (halfWidth halfHeight : ℚ)
    (h : constants s
      = (25, ⟨halfWidth - 25, halfHeight - 25⟩, 1000, 64, 64, 4, halfWidth, halfHeight)) :
    view (step border0 st s) = viewStep st (view s) := by
  cases st with
  | event e =>
    obtain ⟨kd, ku, kl, kr, he⟩ := processSceneEvents_frame e s
    have hf := flags_processSceneEvents e s
    simp only [step, view, viewStep] at hf ⊢
    rw [hf, he]
    rfl
  | tick elapsed =>
    have hspeed : s._cameraSpeed = 1000 := by
      simp only [constants, Prod.mk.injEq] at h
      exact h.2.2.1
    have hcam : (moveCamera elapsed s)._camera = viewMove elapsed (view s) := by
      rw [moveCamera_eq]
      simp only [viewMove, view, flags, hspeed]
    have hm : constants (moveCamera elapsed s) = constants s := by
      obtain ⟨c, hc⟩ := moveCamera_frame elapsed s
      rw [hc]
      rfl
    have hchunk := getCurrentChunkCoords_eq (moveCamera elapsed s) halfWidth halfHeight (hm.trans h)
    simp only [step, view, viewStep, updateScene_window, updateScene_flags, updateScene_camera,
      hchunk, hcam]

theorem view_run (border0 : Bool) (steps : List Step) (s : TestScene) (halfWidth halfHeight : ℚ)
    (h : constants s
      = (25, ⟨halfWidth - 25, halfHeight - 25⟩, 1000, 64, 64, 4, halfWidth, halfHeight)) :
    view (run border0 steps s) = viewRun steps (view s) := by
  induction steps generalizing s with
  | nil => rfl
  | cons st rest ih =>
    simp only [run, viewRun]
    rw [ih _ ((step_constants border0 st s).trans h), view_step border0 st s halfWidth halfHeight h]

theorem everyTick_view (border0 : Bool) (ok : Vector2i → Vector2i → Bool) (steps : List Step)
    (s : TestScene) (halfWidth halfHeight : ℚ)
    (h : constants s
      = (25, ⟨halfWidth - 25, halfHeight - 25⟩, 1000, 64, 64, 4, halfWidth, halfHeight)) :
    everyTick border0 ok steps s = viewEveryTick ok steps (view s) := by
  induction steps generalizing s with
  | nil => rfl
  | cons st rest ih =>
    have hs := (step_constants border0 st s).trans h
    have hv := view_step border0 st s halfWidth halfHeight h
    cases st with
    | event e =>
      simp only [everyTick, viewEveryTick]
      rw [ih _ hs, hv]
    | tick elapsed =>
      simp only [everyTick, viewEveryTick]
      rw [ih _ hs, hv, getCurrentChunkCoords_eq s halfWidth halfHeight h,
        getCurrentChunkCoords_eq _ halfWidth halfHeight hs, ← hv]
      rfl

/-- Runs from the constructed scene, through the view. -/
theorem view_run_new (border0 : Bool) (halfWidth halfHeight : ℚ) (steps : List Step) :
    view (run border0 steps (TestScene.new border0 halfWidth halfHeight)) = viewRun steps initialView
    ∧ getCurrentChunkCoords (run border0 steps (TestScene.new border0 halfWidth halfHeight))
        = cameraChunk (viewRun steps initialView).camera := by
  have hc := constants_new border0 halfWidth halfHeight
  have hv := view_run border0 steps _ halfWidth halfHeight hc
  rw [view_new] at hv
  refine ⟨hv, ?_⟩
  rw [getCurrentChunkCoords_eq _ halfWidth halfHeight ((run_constants border0 steps _).trans hc),
    ← hv]
  rfl

theorem cameraInWindow_eq (s : TestScene) :
    cameraInWindow s = decide ((window s).minColumn ≤ (getCurrentChunkCoords s).x
      ∧ (getCurrentChunkCoords s).x ≤ (window s).maxColumn
      ∧ (window s).minRow ≤ (getCurrentChunkCoords s).y
      ∧ (getCurrentChunkCoords s).y ≤ (window s).maxRow) := rfl

theorem viewRun_diagonalThenDown :
    viewRun diagonalThenDown initialView
      = ⟨⟨128, 384⟩, (true, false, false, false), ⟨0, 2, -1, 1⟩⟩ := by
  norm_num [diagonalThenDown, viewRun, viewStep, viewMove, eventFlags, initialView, flagValue,
    slideWindow, cameraChunk]

/-! ## The highlight flag -/

/-- The half-open unit cell test picks the chunk at the floor of the position. -/
theorem inBounds_iff (chunk : Chunk) (fx fy : ℚ) :
    chunk.inBounds fx fy = true ↔ chunk.x = Int.floor fx ∧ chunk.y = Int.floor fy := by
  simp only [Chunk.inBounds, decide_eq_true_eq]
  constructor
  · rintro ⟨h1, h2, h3, h4⟩
    exact ⟨(Int.floor_eq_iff.mpr ⟨h1, h2⟩).symm, (Int.floor_eq_iff.mpr ⟨h3, h4⟩).symm⟩
  · rintro ⟨h1, h2⟩
    obtain ⟨a, b⟩ := Int.floor_eq_iff.mp h1.symm
    obtain ⟨c, d⟩ := Int.floor_eq_iff.mp h2.symm
    exact ⟨a, b, c, d⟩

theorem getCurrentChunkCoords_floor (s : TestScene) :
    getCurrentChunkCoords s
      = ⟨Int.floor (getCameraChunkCoords s).x, Int.floor (getCameraChunkCoords s).y⟩ := rfl

/-- A refreshed chunk is highlighted exactly when it is the camera's current chunk. -/
theorem refreshBorder_drawBorder (s : TestScene) (chunk : Chunk) :
    (refreshBorder (getCameraChunkCoords s) chunk).drawBorder = true
      ↔ chunk.x = (getCurrentChunkCoords s).x ∧ chunk.y = (getCurrentChunkCoords s).y := by
  simp only [refreshBorder, inBounds_iff, getCurrentChunkCoords_floor]

/-- The chunks a slide creates carry the flag of the constructor, and none of them is
the camera's current chunk. -/
theorem createdBySlide_mem (border0 : Bool) (s : TestScene) (c : Vector2i) (chunk : Chunk)
    (h : chunk ∈ createdBySlide border0 s c) :
    chunk.drawBorder = border0 ∧ ¬ (chunk.x = c.x ∧ chunk.y = c.y) := by
  simp only [createdBySlide] at h
  split_ifs at h with h1 h2 h3 h4
  · obtain ⟨r, _, rfl⟩ := List.mem_map.mp h
    exact ⟨rfl, fun hc => by simp only [newChunk, Chunk.create] at hc; omega⟩
  · obtain ⟨r, _, rfl⟩ := List.mem_map.mp h
    exact ⟨rfl, fun hc => by simp only [newChunk, Chunk.create] at hc; omega⟩
  · obtain ⟨r, _, rfl⟩ := List.mem_map.mp h
    exact ⟨rfl, fun hc => by simp only [newChunk, Chunk.create] at hc; omega⟩
  · obtain ⟨r, _, rfl⟩ := List.mem_map.mp h
    exact ⟨rfl, fun hc => by simp only [newChunk, Chunk.create] at hc; omega⟩
  · simp at h

/-- A constructor that clears the flag makes the refresh of a new edge a no-op. -/
theorem map_refreshBorder_createdBySlide (s : TestScene) :
    (createdBySlide false s (getCurrentChunkCoords s)).map (refreshBorder (getCameraChunkCoords s))
      = createdBySlide false s (getCurrentChunkCoords s) := by
  have h : ∀ chunk ∈ createdBySlide false s (getCurrentChunkCoords s),
      refreshBorder (getCameraChunkCoords s) chunk = id chunk := by
    intro chunk hmem
    obtain ⟨hb, hc⟩ := createdBySlide_mem false s _ chunk hmem
    have hr := refreshBorder_drawBorder s chunk
    have hf : (refreshBorder (getCameraChunkCoords s) chunk).drawBorder = false := by
      rw [← Bool.not_eq_true]
      exact fun ht => hc (hr.mp ht)
    obtain ⟨x, y, w, hh, sc, b⟩ := chunk
    simp only [refreshBorder, id] at hf hb ⊢
    rw [hf, hb]
  rw [List.map_congr_left h, List.map_id]

theorem insideWindow_refreshBorder (w : Window) (p : Vector2f) :
    insideWindow w ∘ refreshBorder p = insideWindow w := rfl

theorem updateSceneRefreshLast_frame (border0 : Bool) (elapsed : ℚ) (s : TestScene) :
    ∃ l : List Chunk, updateSceneRefreshLast border0 elapsed s = { s with
        _camera := (moveCamera elapsed s)._camera
        _chunks := l
        _minChunkColumn := (slideWindow (getCurrentChunkCoords (moveCamera elapsed s)) (window s)).minColumn
        _maxChunkColumn := (slideWindow (getCurrentChunkCoords (moveCamera elapsed s)) (window s)).maxColumn
        _minChunkRow := (slideWindow (getCurrentChunkCoords (moveCamera elapsed s)) (window s)).minRow
        _maxChunkRow := (slideWindow (getCurrentChunkCoords (moveCamera elapsed s)) (window s)).maxRow } := by
  obtain ⟨l, w, h, hw⟩ := slide_frame border0 (moveCamera elapsed s)
  obtain ⟨c, hc⟩ := moveCamera_frame elapsed s
  refine ⟨l.map (refreshBorder (getCameraChunkCoords (moveCamera elapsed s))), ?_⟩
  unfold updateSceneRefreshLast
  simp only
  rw [h, hw, hc]
  rfl

/-- The two orders of the tick agree on everything but, possibly, the chunk list. -/
theorem updateScene_eq_refreshLast_of_chunks (border0 : Bool) (elapsed : ℚ) (s : TestScene)
    (h : (updateScene border0 elapsed s)._chunks
      = (updateSceneRefreshLast border0 elapsed s)._chunks) :
    updateScene border0 elapsed s = updateSceneRefreshLast border0 elapsed s := by
  obtain ⟨l1, h1⟩ := updateScene_frame border0 elapsed s
  obtain ⟨l2, h2⟩ := updateSceneRefreshLast_frame border0 elapsed s
  rw [h1, h2] at h ⊢
  simp only at h
  rw [h]

/-- With a constructor that clears the flag the refresh may as well come last. -/
theorem updateScene_false_eq_refreshLast (elapsed : ℚ) (s : TestScene) :
    updateScene false elapsed s = updateSceneRefreshLast false elapsed s := by
  apply updateScene_eq_refreshLast_of_chunks
  rw [updateScene_chunks, updateSceneRefreshLast_chunks]
  split_ifs with h
  · have hf := List.filter_map
      (p := insideWindow (slideWindow (getCurrentChunkCoords (moveCamera elapsed s))
        (window (moveCamera elapsed s))))
      (refreshBorder (getCameraChunkCoords (moveCamera elapsed s)))
      ((moveCamera elapsed s)._chunks
        ++ createdBySlide false (moveCamera elapsed s) (getCurrentChunkCoords (moveCamera elapsed s)))
    rw [insideWindow_refreshBorder, List.map_append, map_refreshBorder_createdBySlide] at hf
    exact hf
  · rfl

/-- After the tick in the order of the specification every flag is what the unit cell
test says at the displaced camera. -/
theorem updateSceneRefreshLast_drawBorder (border0 : Bool) (elapsed : ℚ) (s : TestScene)
    (chunk : Chunk) (h : chunk ∈ (updateSceneRefreshLast border0 elapsed s)._chunks) :
    chunk.drawBorder = chunk.inBounds
      (getCameraChunkCoords (updateSceneRefreshLast border0 elapsed s)).x
      (getCameraChunkCoords (updateSceneRefreshLast border0 elapsed s)).y := by
  have hp : getCameraChunkCoords (updateSceneRefreshLast border0 elapsed s)
      = getCameraChunkCoords (moveCamera elapsed s) := by
    obtain ⟨l, hl⟩ := updateSceneRefreshLast_frame border0 elapsed s
    obtain ⟨c, hc⟩ := moveCamera_frame elapsed s
    rw [hl, hc]
    rfl
  rw [hp]
  rw [updateSceneRefreshLast_chunks] at h
  split_ifs at h
  · obtain ⟨a, _, rfl⟩ := List.mem_map.mp h
    rfl
  · obtain ⟨a, _, rfl⟩ := List.mem_map.mp h
    rfl

/-- A scene whose chunks form the lattice of its window has, after a tick with a
constructor that clears the flag, one highlighted chunk when the camera's chunk lies
inside the window and none when it lies outside. -/
theorem highlightCount_updateScene_false (elapsed : ℚ) (s : TestScene) (h : Lattice s) :
    (∀ chunk ∈ (updateScene false elapsed s)._chunks, (chunk.drawBorder = true
        ↔ chunk.x = (getCurrentChunkCoords (updateScene false elapsed s)).x
          ∧ chunk.y = (getCurrentChunkCoords (updateScene false elapsed s)).y))
    ∧ highlightCount (updateScene false elapsed s)._chunks
        = if cameraInWindow (updateScene false elapsed s) then 1 else 0 := by
  have hl := Lattice_updateScene false elapsed s h
  have hall : ∀ chunk ∈ (updateScene false elapsed s)._chunks, (chunk.drawBorder = true
      ↔ chunk.x = (getCurrentChunkCoords (updateScene false elapsed s)).x
        ∧ chunk.y = (getCurrentChunkCoords (updateScene false elapsed s)).y) := by
    rw [updateScene_false_eq_refreshLast]
    intro chunk hmem
    rw [updateSceneRefreshLast_drawBorder false elapsed s chunk hmem, inBounds_iff,
      getCurrentChunkCoords_floor]
  refine ⟨hall, ?_⟩
  have hc := hl (getCurrentChunkCoords (updateScene false elapsed s)).x
    (getCurrentChunkCoords (updateScene false elapsed s)).y
  rw [cameraInWindow, ← hc, highlightCount, chunkCount]
  apply List.countP_congr
  intro chunk hmem
  rw [decide_eq_true_eq]
  exact hall chunk hmem

/-- The constants, the camera and the window right after the displacement of a tick, for
a scene with the constants of the constructor. -/
theorem moveCamera_view (elapsed : ℚ) (s : TestScene) (halfWidth halfHeight : ℚ)
    (h : constants s
      = (25, ⟨halfWidth - 25, halfHeight - 25⟩, 1000, 64, 64, 4, halfWidth, halfHeight)) :
    constants (moveCamera elapsed s)
        = (25, ⟨halfWidth - 25, halfHeight - 25⟩, 1000, 64, 64, 4, halfWidth, halfHeight)
    ∧ (moveCamera elapsed s)._camera = viewMove elapsed (view s)
    ∧ window (moveCamera elapsed s) = (view s).window
    ∧ getCurrentChunkCoords (moveCamera elapsed s) = cameraChunk (viewMove elapsed (view s)) := by
  have hspeed : s._cameraSpeed = 1000 := by
    simp only [constants, Prod.mk.injEq] at h
    exact h.2.2.1
  have hcam : (moveCamera elapsed s)._camera = viewMove elapsed (view s) := by
    rw [moveCamera_eq]
    simp only [viewMove, view, flags, hspeed]
  have hm : constants (moveCamera elapsed s) = constants s := by
    obtain ⟨c, hc⟩ := moveCamera_frame elapsed s
    rw [hc]
    rfl
  have hw : window (moveCamera elapsed s) = (view s).window := by
    obtain ⟨c, hc⟩ := moveCamera_frame elapsed s
    rw [hc]
    rfl
  refine ⟨hm.trans h, hcam, hw, ?_⟩
  rw [getCurrentChunkCoords_eq _ halfWidth halfHeight (hm.trans h), hcam]

theorem constants_rightPressed (border0 : Bool) :
    constants (rightPressed border0) = (25, ⟨400 - 25, 300 - 25⟩, 1000, 64, 64, 4, 400, 300) :=
  (step_constants border0 (Step.event (Event.keyPressed Key.D)) _).trans
    (constants_new border0 400 300)

theorem view_rightPressed (border0 : Bool) :
    view (rightPressed border0) = ⟨⟨0, 0⟩, (false, false, false, true), ⟨-1, 1, -1, 1⟩⟩ := by
  have h := view_step border0 (Step.event (Event.keyPressed Key.D)) _ 400 300
    (constants_new border0 400 300)
  rw [view_new] at h
  exact h

theorem Lattice_rightPressed (border0 : Bool) : Lattice (rightPressed border0) :=
  Lattice_step border0 (Step.event (Event.keyPressed Key.D)) _ (Lattice_new border0 400 300)

theorem getCameraChunkCoords_updateScene (border0 : Bool) (elapsed : ℚ) (s : TestScene) :
    getCameraChunkCoords (updateScene border0 elapsed s)
      = getCameraChunkCoords (moveCamera elapsed s) := by
  obtain ⟨l, h⟩ := updateScene_frame border0 elapsed s
  obtain ⟨c, hc⟩ := moveCamera_frame elapsed s
  rw [h, hc]
  rfl

/-- After a tick a chunk is either refreshed for the displaced camera or was created by
the slide of this tick and carries the flag of the constructor. -/
theorem updateScene_drawBorder (border0 : Bool) (elapsed : ℚ) (s : TestScene) (chunk : Chunk)
    (h : chunk ∈ (updateScene border0 elapsed s)._chunks) :
    chunk.drawBorder = chunk.inBounds (getCameraChunkCoords (updateScene border0 elapsed s)).x
        (getCameraChunkCoords (updateScene border0 elapsed s)).y
    ∨ (chunk ∈ createdBySlide border0 (moveCamera elapsed s)
          (getCurrentChunkCoords (moveCamera elapsed s))
        ∧ chunk.drawBorder = border0) := by
  rw [getCameraChunkCoords_updateScene]
  rw [updateScene_chunks] at h
  split_ifs at h
  · rcases List.mem_append.mp (List.mem_filter.mp h).1 with hm | hm
    · obtain ⟨a, _, rfl⟩ := List.mem_map.mp hm
      exact Or.inl rfl
    · exact Or.inr ⟨hm, (createdBySlide_mem border0 _ _ chunk hm).1⟩
  · obtain ⟨a, _, rfl⟩ := List.mem_map.mp h
    exact Or.inl rfl

/-- With the right key held in the constructed scene, a tick of 0.128 s takes the camera
into chunk `(1, 0)`, on the right edge of the window `[-1, 1] × [-1, 1]`. -/
theorem rightPressed_tick (border0 : Bool) :
    getCurrentChunkCoords (moveCamera (16 / 125) (rightPressed border0)) = ⟨1, 0⟩
    ∧ getCameraChunkCoords (moveCamera (16 / 125) (rightPressed border0)) = ⟨1, 1 / 2⟩
    ∧ window (moveCamera (16 / 125) (rightPressed border0)) = ⟨-1, 1, -1, 1⟩
    ∧ (moveCamera (16 / 125) (rightPressed border0))._chunkWidth = 64
    ∧ (moveCamera (16 / 125) (rightPressed border0))._chunkHeight = 64
    ∧ (moveCamera (16 / 125) (rightPressed border0))._chunkScale = 4 := by
  obtain ⟨hc, hcam, hw, hchunk⟩ :=
    moveCamera_view (16 / 125) (rightPressed border0) 400 300 (constants_rightPressed border0)
  rw [view_rightPressed] at hcam hw hchunk
  simp only [constants, Prod.mk.injEq] at hc
  obtain ⟨h1, h2, h3, h4, h5, h6, h7, h8⟩ := hc
  refine ⟨?_, ?_, hw, h4, h5, h6⟩
  · rw [hchunk]
    norm_num [viewMove, flagValue, cameraChunk]
  · simp only [getCameraChunkCoords, getChunkCoords, getWorldCoords, hcam, h1, h2, h4, h5, h6,
      h7, h8]
    norm_num [viewMove, flagValue]

/-! ## Moving right by one chunk width -/

theorem mem_chunkCount_pos (l : List Chunk) (chunk : Chunk) (h : chunk ∈ l) :
    0 < chunkCount l chunk.x chunk.y := by
  rw [chunkCount, List.countP_pos_iff]
  exact ⟨chunk, h, by simp⟩

/-! ## Window invariants of every run -/

/-- C1 (window-lattice invariant): in every state the constructed scene reaches by a
sequence of events and `updateScene` calls with arbitrary elapsed times, every integer
point inside the window `[minColumn, maxColumn] × [minRow, maxRow]` is the coordinate of
exactly one materialized chunk and every point outside of it of none: no gaps, no
extras, no duplicates. -/
theorem window_lattice_invariant (border0 : Bool) (halfWidth halfHeight : ℚ)
    (steps : List Step) (x y : Int) :
    chunkCount (run border0 steps (TestScene.new border0 halfWidth halfHeight))._chunks x y
      = if (run border0 steps (TestScene.new border0 halfWidth halfHeight))._minChunkColumn ≤ x
            ∧ x ≤ (run border0 steps (TestScene.new border0 halfWidth halfHeight))._maxChunkColumn
            ∧ (run border0 steps (TestScene.new border0 halfWidth halfHeight))._minChunkRow ≤ y
            ∧ y ≤ (run border0 steps (TestScene.new border0 halfWidth halfHeight))._maxChunkRow
        then 1 else 0 := by
  have h := Lattice_run border0 steps _ (Lattice_new border0 halfWidth halfHeight) x y
  simpa only [inWindow, decide_eq_true_eq] using h

/-- C2 (window-size invariant): an `updateScene` call leaves `maxColumn - minColumn + 1`
and `maxRow - minRow + 1` of any scene as they were, and after every sequence of events
and `updateScene` calls from the constructed scene both are 3 and exactly 9 chunks are
materialized. -/
theorem window_size_invariant (border0 : Bool) (halfWidth halfHeight : ℚ)
    (steps : List Step) (elapsed : ℚ) (s : TestScene) :
    (windowWidth (updateScene border0 elapsed s) = windowWidth s
      ∧ windowHeight (updateScene border0 elapsed s) = windowHeight s)
    ∧ (run border0 steps (TestScene.new border0 halfWidth halfHeight))._maxChunkColumn
        - (run border0 steps (TestScene.new border0 halfWidth halfHeight))._minChunkColumn + 1 = 3
    ∧ (run border0 steps (TestScene.new border0 halfWidth halfHeight))._maxChunkRow
        - (run border0 steps (TestScene.new border0 halfWidth halfHeight))._minChunkRow + 1 = 3
    ∧ (run border0 steps (TestScene.new border0 halfWidth halfHeight))._chunks.length = 9 := by
  have hr := windowSize_run border0 steps (TestScene.new border0 halfWidth halfHeight)
  have hn := windowSize_new border0 halfWidth halfHeight
  have hw : windowWidth (run border0 steps (TestScene.new border0 halfWidth halfHeight)) = 3 :=
    hr.1.trans hn.1
  have hh : windowHeight (run border0 steps (TestScene.new border0 halfWidth halfHeight)) = 3 :=
    hr.2.trans hn.2
  refine ⟨windowSize_updateScene border0 elapsed s, hw, hh, ?_⟩
  rw [Lattice.length_eq _ (Lattice_run border0 steps _ (Lattice_new border0 halfWidth halfHeight)),
    hw, hh]
  rfl

/-! ## The camera and the window -/

/-- A tick that moves the camera's chunk on one axis by at most one keeps a centred
window centred. -/
theorem windowCentred_updateScene (border0 : Bool) (elapsed : ℚ) (s : TestScene)
    (hc : windowCentred s = true)
    (hm : movesOnOneAxis (getCurrentChunkCoords s)
      (getCurrentChunkCoords (updateScene border0 elapsed s)) = true) :
    windowCentred (updateScene border0 elapsed s) = true := by
  simp only [windowCentred, movesOnOneAxis, decide_eq_true_eq, updateScene_window] at hc hm ⊢
  rw [updateScene_chunkCoords] at hm ⊢
  rw [hc]
  generalize getCurrentChunkCoords (moveCamera elapsed s) = c1 at hm ⊢
  generalize getCurrentChunkCoords s = c0 at hm ⊢
  obtain ⟨x1, y1⟩ := c1
  obtain ⟨x0, y0⟩ := c0
  simp only [slideWindow] at hm ⊢
  split_ifs <;> simp only [Window.mk.injEq] <;> omega

theorem windowCentred_step_event (border0 : Bool) (e : Event) (s : TestScene) :
    windowCentred (step border0 (Step.event e) s) = windowCentred s := by
  obtain ⟨kd, ku, kl, kr, he⟩ := processSceneEvents_frame e s
  simp only [step, he]
  rfl

theorem windowCentred_run (border0 : Bool) (steps : List Step) (s : TestScene)
    (hc : windowCentred s = true) (hm : everyTick border0 movesOnOneAxis steps s = true) :
    windowCentred (run border0 steps s) = true := by
  induction steps generalizing s with
  | nil => exact hc
  | cons st rest ih =>
    cases st with
    | event e =>
      simp only [everyTick] at hm
      exact ih _ ((windowCentred_step_event border0 e s).trans hc) hm
    | tick elapsed =>
      simp only [everyTick, Bool.and_eq_true] at hm
      exact ih _ (windowCentred_updateScene border0 elapsed s hc hm.1) hm.2

theorem windowCentred_new (border0 : Bool) (halfWidth halfHeight : ℚ) :
    windowCentred (TestScene.new border0 halfWidth halfHeight) = true := by
  have hv := view_new border0 halfWidth halfHeight
  have hw : window (TestScene.new border0 halfWidth halfHeight) = ⟨-1, 1, -1, 1⟩ :=
    congrArg View.window hv
  have hcam : (TestScene.new border0 halfWidth halfHeight)._camera = ⟨0, 0⟩ :=
    congrArg View.camera hv
  rw [windowCentred, getCurrentChunkCoords_eq _ halfWidth halfHeight
    (constants_new border0 halfWidth halfHeight), hw, hcam]
  norm_num [cameraChunk]

theorem cameraInWindow_of_windowCentred (s : TestScene) (hc : windowCentred s = true) :
    cameraInWindow s = true := by
  rw [cameraInWindow_eq]
  simp only [windowCentred, decide_eq_true_eq] at hc ⊢
  rw [hc]
  simp

theorem everyTick_take (border0 : Bool) (ok : Vector2i → Vector2i → Bool) (steps : List Step)
    (s : TestScene) (k : Nat) (h : everyTick border0 ok steps s = true) :
    everyTick border0 ok (steps.take k) s = true := by
  induction steps generalizing s k with
  | nil => simp [everyTick]
  | cons st rest ih =>
    cases k with
    | zero => simp [everyTick]
    | succ k =>
      cases st with
      | event e =>
        simp only [everyTick, List.take_succ_cons] at h ⊢
        exact ih _ k h
      | tick elapsed =>
        simp only [everyTick, List.take_succ_cons, Bool.and_eq_true] at h ⊢
        exact ⟨h.1, ih _ k h.2⟩

/-- C3, as the code has it: one slide per tick keeps the camera's chunk inside the window
when every tick moves the camera's current chunk coordinate on at most one axis, and
there by at most one.  In every run from the constructed scene with such ticks the
camera's current chunk lies inside the window after every step: after the first `k`
steps, for every `k`. -/
theorem single_slide_sufficient_on_one_axis (border0 : Bool) (halfWidth halfHeight : ℚ)
    (steps : List Step)
    (h : everyTick border0 movesOnOneAxis steps (TestScene.new border0 halfWidth halfHeight) = true)
    (k : Nat) :
    cameraInWindow (run border0 (steps.take k) (TestScene.new border0 halfWidth halfHeight))
      = true :=
  cameraInWindow_of_windowCentred _
    (windowCentred_run border0 (steps.take k) _ (windowCentred_new border0 halfWidth halfHeight)
      (everyTick_take border0 movesOnOneAxis steps _ k h))

/-- The hypothesis of `single_slide_sufficient_on_one_axis` holds of the run `rightTwice`:
the camera's chunk lies inside the window after its three steps. -/
theorem single_slide_sufficient_on_one_axis_witness :
    everyTick false movesOnOneAxis rightTwice (TestScene.new false 400 300) = true
    ∧ cameraInWindow (run false (rightTwice.take 3) (TestScene.new false 400 300)) = true :=
  ⟨by
    rw [everyTick_view false _ _ _ 400 300 (constants_new false 400 300), view_new]
    norm_num [rightTwice, viewEveryTick, viewStep, viewMove, eventFlags, initialView, flagValue,
      slideWindow, cameraChunk, movesOnOneAxis],
   single_slide_sufficient_on_one_axis false 400 300 rightTwice (by
    rw [everyTick_view false _ _ _ 400 300 (constants_new false 400 300), view_new]
    norm_num [rightTwice, viewEveryTick, viewStep, viewMove, eventFlags, initialView, flagValue,
      slideWindow, cameraChunk, movesOnOneAxis]) 3⟩

/-- C3 as stated fails: in the run `diagonalThenDown` every tick moves the camera's
current chunk coordinate by at most one column and at most one row, yet after it the
camera's chunk `(1, 2)` lies below the window `[0, 2] × [-1, 1]`. -/
theorem single_slide_insufficient_after_diagonal :
    everyTick false movesAtMostOne diagonalThenDown (TestScene.new false 400 300) = true
    ∧ cameraInWindow (run false diagonalThenDown (TestScene.new false 400 300)) = false := by
  constructor
  · rw [everyTick_view false _ _ _ 400 300 (constants_new false 400 300), view_new]
    norm_num [diagonalThenDown, viewEveryTick, viewStep, viewMove, eventFlags, initialView,
      flagValue, slideWindow, cameraChunk, movesAtMostOne]
  · have hv := view_run_new false 400 300 diagonalThenDown
    rw [cameraInWindow_eq, hv.2, show window _ = (view _).window from rfl, hv.1,
      viewRun_diagonalThenDown]
    norm_num [cameraChunk]

/-! ## The highlight and the order of a tick -/

/-- C4, as the code has it: with a `Chunk` constructor that clears the highlight flag,
after every `updateScene` call from a reachable state a materialized chunk is
highlighted exactly when its column and row are the camera's current chunk coordinate;
so exactly one chunk is highlighted when the camera's current chunk lies inside the
window, and none when the camera has left the window. -/
theorem single_highlight_inside_window (halfWidth halfHeight : ℚ) (steps : List Step)
    (elapsed : ℚ) :
    (∀ chunk ∈ (updateScene false elapsed
          (run false steps (TestScene.new false halfWidth halfHeight)))._chunks,
        (chunk.drawBorder = true
          ↔ chunk.x = (getCurrentChunkCoords (updateScene false elapsed
                (run false steps (TestScene.new false halfWidth halfHeight)))).x
            ∧ chunk.y = (getCurrentChunkCoords (updateScene false elapsed
                (run false steps (TestScene.new false halfWidth halfHeight)))).y))
    ∧ highlightCount (updateScene false elapsed
          (run false steps (TestScene.new false halfWidth halfHeight)))._chunks
        = if cameraInWindow (updateScene false elapsed
          (run false steps (TestScene.new false halfWidth halfHeight))) then 1 else 0 :=
  highlightCount_updateScene_false elapsed _
    (Lattice_run false steps _ (Lattice_new false halfWidth halfHeight))

/-- C4 as stated fails: with the right key held, a tick of one second moves the camera
1000 units, into chunk `(4, 0)`; no edge of the window `[-1, 1] × [-1, 1]` matches, no
chunk is created, and after the call no materialized chunk is highlighted. -/
theorem no_highlight_after_long_tick :
    highlightCount (updateScene false 1 (rightPressed false))._chunks = 0 := by
  have h := (highlightCount_updateScene_false 1 _ (Lattice_rightPressed false)).2
  have hm := moveCamera_view 1 (rightPressed false) 400 300 (constants_rightPressed false)
  rw [h, cameraInWindow_eq, updateScene_chunkCoords, updateScene_window, hm.2.2.2,
    show window (rightPressed false) = (view (rightPressed false)).window from rfl,
    view_rightPressed]
  norm_num [viewMove, flagValue, cameraChunk, slideWindow]

/-- C6 (slide postcondition of `checkChunkBoundaries`): with `c` the camera's current
chunk, the edges are tested in the order left, right, top, bottom.  If `c.x = minColumn`
both column bounds go down by one and the chunks `(minColumn - 1, r)` for `r` in
`[minRow, maxRow]` are appended; else if `c.x = maxColumn` both column bounds go up by one
and the chunks `(maxColumn + 1, r)` are appended; else if `c.y = minRow` both row bounds
go down by one and the chunks `(x, minRow - 1)` for `x` in `[minColumn, maxColumn]` are
appended; else if `c.y = maxRow` both row bounds go up by one and the chunks
`(x, maxRow + 1)` are appended.  The result is `true` exactly when one of the four
equalities holds; otherwise the scene is left as it was. -/
theorem slide_postcondition (border0 : Bool) (s : TestScene) :
    ((getCurrentChunkCoords s).x = s._minChunkColumn →
      checkChunkBoundaries border0 s = (true, { s with
        _minChunkColumn := s._minChunkColumn - 1
        _maxChunkColumn := s._maxChunkColumn - 1
        _chunks := s._chunks ++ (intRange s._minChunkRow s._maxChunkRow).map (fun r =>
          Chunk.create border0 (s._minChunkColumn - 1) r s._chunkWidth s._chunkHeight s._chunkScale) }))
    ∧ ((getCurrentChunkCoords s).x ≠ s._minChunkColumn →
        (getCurrentChunkCoords s).x = s._maxChunkColumn →
      checkChunkBoundaries border0 s = (true, { s with
        _minChunkColumn := s._minChunkColumn + 1
        _maxChunkColumn := s._maxChunkColumn + 1
        _chunks := s._chunks ++ (intRange s._minChunkRow s._maxChunkRow).map (fun r =>
          Chunk.create border0 (s._maxChunkColumn + 1) r s._chunkWidth s._chunkHeight s._chunkScale) }))
    ∧ ((getCurrentChunkCoords s).x ≠ s._minChunkColumn →
        (getCurrentChunkCoords s).x ≠ s._maxChunkColumn →
        (getCurrentChunkCoords s).y = s._minChunkRow →
      checkChunkBoundaries border0 s = (true, { s with
        _minChunkRow := s._minChunkRow - 1
        _maxChunkRow := s._maxChunkRow - 1
        _chunks := s._chunks ++ (intRange s._minChunkColumn s._maxChunkColumn).map (fun x =>
          Chunk.create border0 x (s._minChunkRow - 1) s._chunkWidth s._chunkHeight s._chunkScale) }))
    ∧ ((getCurrentChunkCoords s).x ≠ s._minChunkColumn →
        (getCurrentChunkCoords s).x ≠ s._maxChunkColumn →
        (getCurrentChunkCoords s).y ≠ s._minChunkRow →
        (getCurrentChunkCoords s).y = s._maxChunkRow →
      checkChunkBoundaries border0 s = (true, { s with
        _minChunkRow := s._minChunkRow + 1
        _maxChunkRow := s._maxChunkRow + 1
        _chunks := s._chunks ++ (intRange s._minChunkColumn s._maxChunkColumn).map (fun x =>
          Chunk.create border0 x (s._maxChunkRow + 1) s._chunkWidth s._chunkHeight s._chunkScale) }))
    ∧ ((checkChunkBoundaries border0 s).1 = true ↔
        ((getCurrentChunkCoords s).x = s._minChunkColumn
          ∨ (getCurrentChunkCoords s).x = s._maxChunkColumn
          ∨ (getCurrentChunkCoords s).y = s._minChunkRow
          ∨ (getCurrentChunkCoords s).y = s._maxChunkRow))
    ∧ ((checkChunkBoundaries border0 s).1 = false → (checkChunkBoundaries border0 s).2 = s) := by
  refine ⟨?_, ?_, ?_, ?_, ?_, ?_⟩
  · intro h1
    rw [checkChunkBoundaries_left border0 s h1, rowMajor_column]
  · intro h1 h2
    rw [checkChunkBoundaries_right border0 s h1 h2, rowMajor_column]
  · intro h1 h2 h3
    rw [checkChunkBoundaries_top border0 s h1 h2 h3, rowMajor_row]
  · intro h1 h2 h3 h4
    rw [checkChunkBoundaries_bottom border0 s h1 h2 h3 h4, rowMajor_row]
  · rw [checkChunkBoundaries_eq]
    simp only [onEdge, window, decide_eq_true_eq]
  · intro h
    rw [checkChunkBoundaries_eq] at h ⊢
    simp only at h ⊢
    rw [createdBySlide_of_not_onEdge border0 s _ (by rw [h]; decide),
      slideWindow_of_not_onEdge _ _ (by rw [h]; decide), List.append_nil]
    rfl

/-- The right-edge case of `slide_postcondition` at the scene `rightPressed false` once its
camera has moved 128 units right, into chunk `(1, 0)`. -/
theorem slide_postcondition_witness :
    (getCurrentChunkCoords (moveCamera (16 / 125) (rightPressed false))).x
        ≠ (moveCamera (16 / 125) (rightPressed false))._minChunkColumn
    ∧ (getCurrentChunkCoords (moveCamera (16 / 125) (rightPressed false))).x
        = (moveCamera (16 / 125) (rightPressed false))._maxChunkColumn
    ∧ window (checkChunkBoundaries false (moveCamera (16 / 125) (rightPressed false))).2
        = ⟨0, 2, -1, 1⟩ := by
  obtain ⟨hc, hp, hw, h4, h5, h6⟩ := rightPressed_tick false
  simp only [window, Window.mk.injEq] at hw
  obtain ⟨w1, w2, w3, w4⟩ := hw
  have h1 : (getCurrentChunkCoords (moveCamera (16 / 125) (rightPressed false))).x
      ≠ (moveCamera (16 / 125) (rightPressed false))._minChunkColumn := by
    rw [hc, w1]
    decide
  have h2 : (getCurrentChunkCoords (moveCamera (16 / 125) (rightPressed false))).x
      = (moveCamera (16 / 125) (rightPressed false))._maxChunkColumn := by
    rw [hc, w2]
  refine ⟨h1, h2, ?_⟩
  rw [(slide_postcondition false (moveCamera (16 / 125) (rightPressed false))).2.1 h1 h2]
  simp only [window, w1, w2, w3, w4]
  decide

/-- C7 (at most one slide per tick): an `updateScene` call on any scene leaves the window
as it is or moves the two bounds of one axis by one unit in the same direction and
leaves the other axis alone.  With the window `[-1, 1] × [-1, 1]` and the camera in chunk
`(1, 1)` the call yields columns `[0, 2]` and rows still `[-1, 1]`; with the window
`[0, 2] × [-1, 1]` and the camera still in chunk `(1, 1)` the call yields rows `[0, 2]`
and columns still `[0, 2]`. -/
theorem one_slide_per_tick (border0 : Bool) (elapsed : ℚ) (s : TestScene) :
    (window (updateScene border0 elapsed s) = window s
      ∨ window (updateScene border0 elapsed s) = { window s with
          minColumn := s._minChunkColumn - 1, maxColumn := s._maxChunkColumn - 1 }
      ∨ window (updateScene border0 elapsed s) = { window s with
          minColumn := s._minChunkColumn + 1, maxColumn := s._maxChunkColumn + 1 }
      ∨ window (updateScene border0 elapsed s) = { window s with
          minRow := s._minChunkRow - 1, maxRow := s._maxChunkRow - 1 }
      ∨ window (updateScene border0 elapsed s) = { window s with
          minRow := s._minChunkRow + 1, maxRow := s._maxChunkRow + 1 })
    ∧ (window s = ⟨-1, 1, -1, 1⟩ →
        getCurrentChunkCoords (updateScene border0 elapsed s) = ⟨1, 1⟩ →
        window (updateScene border0 elapsed s) = ⟨0, 2, -1, 1⟩)
    ∧ (window s = ⟨0, 2, -1, 1⟩ →
        getCurrentChunkCoords (updateScene border0 elapsed s) = ⟨1, 1⟩ →
        window (updateScene border0 elapsed s) = ⟨0, 2, 0, 2⟩) := by
  refine ⟨?_, ?_, ?_⟩
  · rw [updateScene_window]
    simp only [slideWindow, window]
    split_ifs
    · exact Or.inr (Or.inl rfl)
    · exact Or.inr (Or.inr (Or.inl rfl))
    · exact Or.inr (Or.inr (Or.inr (Or.inl rfl)))
    · exact Or.inr (Or.inr (Or.inr (Or.inr rfl)))
    · exact Or.inl rfl
  · intro hw hc
    rw [updateScene_chunkCoords] at hc
    rw [updateScene_window, hw, hc]
    decide
  · intro hw hc
    rw [updateScene_chunkCoords] at hc
    rw [updateScene_window, hw, hc]
    decide

/-- Scenario B from the constructed scene: right and down are held, a tick of 0.128 s
takes the camera into chunk `(1, 1)` and slides the columns only; a further tick in
which the camera stays put slides the rows. -/
theorem one_slide_per_tick_witness :
    window (run false diagonalTick (TestScene.new false 400 300)) = ⟨0, 2, -1, 1⟩
    ∧ window (run false diagonalTickThenRest (TestScene.new false 400 300)) = ⟨0, 2, 0, 2⟩ := by
  have h0 := (view_run_new false 400 300 rightAndDownPressed).1
  have h1 := (view_run_new false 400 300 diagonalTick).2
  have h2 := (view_run_new false 400 300 diagonalTickThenRest).2
  have e1 : viewRun rightAndDownPressed initialView
      = ⟨⟨0, 0⟩, (true, false, false, true), ⟨-1, 1, -1, 1⟩⟩ := by
    simp [rightAndDownPressed, viewRun, viewStep, eventFlags, initialView]
  have e2 : cameraChunk (viewRun diagonalTick initialView).camera = ⟨1, 1⟩ := by
    norm_num [diagonalTick, viewRun, viewStep, viewMove, eventFlags, initialView, flagValue,
      cameraChunk]
  have e3 : cameraChunk (viewRun diagonalTickThenRest initialView).camera = ⟨1, 1⟩ := by
    norm_num [diagonalTickThenRest, viewRun, viewStep, viewMove, eventFlags, initialView,
      flagValue, cameraChunk]
  rw [e1] at h0
  rw [e2] at h1
  rw [e3] at h2
  have w1 : window (run false diagonalTick (TestScene.new false 400 300)) = ⟨0, 2, -1, 1⟩ :=
    (one_slide_per_tick false (16 / 125)
      (run false rightAndDownPressed (TestScene.new false 400 300))).2.1
      (congrArg View.window h0) h1
  exact ⟨w1, (one_slide_per_tick false 0
    (run false diagonalTick (TestScene.new false 400 300))).2.2 w1 h2⟩

/-- C9: `createChunks(minX, maxX, minY, maxY)` leaves the chunks already in the list where
they are and appends one chunk for every integer point of the inclusive rectangle and no
other, in row-major order (rows ascending, columns ascending within a row).  It adds
`(maxX - minX + 1) * (maxY - minY + 1)` chunks when `minX ≤ maxX` and `minY ≤ maxY` and
none when a range is empty.  It does not look at what the list holds: the count of every
point of the rectangle goes up by one, also when a chunk is there already. -/
theorem createChunks_appends_rectangle (border0 : Bool) (minX maxX minY maxY : Int)
    (s : TestScene) :
    createChunks border0 minX maxX minY maxY s
      = { s with _chunks := s._chunks ++
            rowMajor border0 s._chunkWidth s._chunkHeight s._chunkScale minX maxX minY maxY }
    ∧ (∀ x y : Int,
        chunkCount (rowMajor border0 s._chunkWidth s._chunkHeight s._chunkScale minX maxX minY maxY) x y
          = if minX ≤ x ∧ x ≤ maxX ∧ minY ≤ y ∧ y ≤ maxY then 1 else 0)
    ∧ (rowMajor border0 s._chunkWidth s._chunkHeight s._chunkScale minX maxX minY maxY).Pairwise
        rowMajorBefore
    ∧ (minX ≤ maxX → minY ≤ maxY →
        ((createChunks border0 minX maxX minY maxY s)._chunks.length : Int)
          = s._chunks.length + (maxX - minX + 1) * (maxY - minY + 1))
    ∧ (maxX < minX ∨ maxY < minY →
        (createChunks border0 minX maxX minY maxY s)._chunks = s._chunks)
    ∧ (∀ x y : Int, chunkCount (createChunks border0 minX maxX minY maxY s)._chunks x y
        = chunkCount s._chunks x y + if minX ≤ x ∧ x ≤ maxX ∧ minY ≤ y ∧ y ≤ maxY then 1 else 0) := by
  refine ⟨createChunks_eq border0 minX maxX minY maxY s, chunkCount_rowMajor _ _ _ _ _ _ _ _,
    pairwise_rowMajor _ _ _ _ _ _ _ _, ?_, ?_, ?_⟩
  · intro hx hy
    rw [createChunks_eq]
    simp only [List.length_append, length_rowMajor, Nat.cast_add, Nat.cast_mul]
    rw [Int.toNat_of_nonneg (by omega), Int.toNat_of_nonneg (by omega)]
    ring
  · intro h
    rw [createChunks_eq]
    have hl : (rowMajor border0 s._chunkWidth s._chunkHeight s._chunkScale minX maxX minY maxY).length
        = 0 := by
      rw [length_rowMajor]
      rcases h with h | h
      · rw [Int.toNat_of_nonpos (by omega : maxX + 1 - minX ≤ 0), Nat.mul_zero]
      · rw [Int.toNat_of_nonpos (by omega : maxY + 1 - minY ≤ 0), Nat.zero_mul]
    simp only [List.length_eq_zero.mp hl, List.append_nil]
  · intro x y
    rw [createChunks_eq]
    simp only [chunkCount_append, chunkCount_rowMajor]

/-- C9 at the constructed scene and the rectangle `[0, 1] × [0, 1]`: four chunks are added
to the nine, and the point `(0, 0)`, materialized before, is materialized twice. -/
theorem createChunks_appends_rectangle_witness :
    ((createChunks false 0 1 0 1 (TestScene.new false 400 300))._chunks.length : Int)
        = (TestScene.new false 400 300)._chunks.length + (1 - 0 + 1) * (1 - 0 + 1)
    ∧ chunkCount (createChunks false 0 1 0 1 (TestScene.new false 400 300))._chunks 0 0 = 2 := by
  have h := createChunks_appends_rectangle false 0 1 0 1 (TestScene.new false 400 300)
  refine ⟨h.2.2.2.1 (by decide) (by decide), ?_⟩
  rw [h.2.2.2.2.2 0 0, Lattice_new false 400 300 0 0]
  simp only [TestScene.new, createChunks_eq, inWindow]
  decide

/-- C10: `cleanupChunks` removes exactly the chunks outside the window.  The resulting
list is the original one filtered by `minColumn ≤ x ≤ maxColumn` and
`minRow ≤ y ≤ maxRow`: every surviving chunk is inside, every chunk inside survives as
often as it occurred, the survivors keep their relative order, and the window is
unchanged. -/
theorem cleanupChunks_filters_window (s : TestScene) :
    cleanupChunks s
      = { s with _chunks := s._chunks.filter (fun chunk =>
            decide (s._minChunkColumn ≤ chunk.x ∧ chunk.x ≤ s._maxChunkColumn
              ∧ s._minChunkRow ≤ chunk.y ∧ chunk.y ≤ s._maxChunkRow)) }
    ∧ (∀ chunk ∈ (cleanupChunks s)._chunks,
        s._minChunkColumn ≤ chunk.x ∧ chunk.x ≤ s._maxChunkColumn
          ∧ s._minChunkRow ≤ chunk.y ∧ chunk.y ≤ s._maxChunkRow)
    ∧ (∀ chunk : Chunk,
        s._minChunkColumn ≤ chunk.x ∧ chunk.x ≤ s._maxChunkColumn
          ∧ s._minChunkRow ≤ chunk.y ∧ chunk.y ≤ s._maxChunkRow →
        List.count chunk (cleanupChunks s)._chunks = List.count chunk s._chunks)
    ∧ (cleanupChunks s)._chunks.Sublist s._chunks
    ∧ window (cleanupChunks s) = window s := by
  have heq := cleanupChunks_eq s
  refine ⟨heq, ?_, ?_, ?_, rfl⟩
  · intro chunk hmem
    rw [heq] at hmem
    have h := (List.mem_filter.mp hmem).2
    simpa only [insideWindow, window, decide_eq_true_eq] using h
  · intro chunk hin
    rw [heq]
    apply List.count_filter
    simpa only [insideWindow, window, decide_eq_true_eq] using hin
  · rw [heq]
    exact List.filter_sublist _

/-- C10 at the constructed scene with its window narrowed to `[0, 1] × [0, 1]`: the
chunk `(0, 0)` survives the cleanup once, as it occurred. -/
theorem cleanupChunks_filters_window_witness :
    List.count (Chunk.create false 0 0 64 64 4) (cleanupChunks { TestScene.new false 400 300 with
        _minChunkColumn := 0, _minChunkRow := 0 })._chunks
      = List.count (Chunk.create false 0 0 64 64 4) (TestScene.new false 400 300)._chunks :=
  (cleanupChunks_filters_window { TestScene.new false 400 300 with
    _minChunkColumn := 0, _minChunkRow := 0 }).2.2.1 (Chunk.create false 0 0 64 64 4)
    (by simp only [Chunk.create, TestScene.new, createChunks_eq]; decide)

/-! ## Centring and the conditional cleanup -/

/-- C15 (the window stays centred under single-axis movement): in every run from the
constructed scene in which every tick moves the camera's current chunk coordinate on at
most one axis, and there by at most one, the window is centred on the camera's chunk
`(cx, cy)` after every step: `minColumn = cx - 1`, `maxColumn = cx + 1`,
`minRow = cy - 1`, `maxRow = cy + 1` after the first `k` steps, for every `k`. -/
theorem window_centred_on_one_axis_moves (border0 : Bool) (halfWidth halfHeight : ℚ)
    (steps : List Step)
    (h : everyTick border0 movesOnOneAxis steps (TestScene.new border0 halfWidth halfHeight) = true)
    (k : Nat) :
    (run border0 (steps.take k) (TestScene.new border0 halfWidth halfHeight))._minChunkColumn
        = (getCurrentChunkCoords
            (run border0 (steps.take k) (TestScene.new border0 halfWidth halfHeight))).x - 1
    ∧ (run border0 (steps.take k) (TestScene.new border0 halfWidth halfHeight))._maxChunkColumn
        = (getCurrentChunkCoords
            (run border0 (steps.take k) (TestScene.new border0 halfWidth halfHeight))).x + 1
    ∧ (run border0 (steps.take k) (TestScene.new border0 halfWidth halfHeight))._minChunkRow
        = (getCurrentChunkCoords
            (run border0 (steps.take k) (TestScene.new border0 halfWidth halfHeight))).y - 1
    ∧ (run border0 (steps.take k) (TestScene.new border0 halfWidth halfHeight))._maxChunkRow
        = (getCurrentChunkCoords
            (run border0 (steps.take k) (TestScene.new border0 halfWidth halfHeight))).y + 1 := by
  have hc := windowCentred_run border0 (steps.take k) _
    (windowCentred_new border0 halfWidth halfHeight)
    (everyTick_take border0 movesOnOneAxis steps _ k h)
  simp only [windowCentred, window, decide_eq_true_eq, Window.mk.injEq] at hc
  exact hc

/-- The hypothesis of `window_centred_on_one_axis_moves` holds of the run `rightThenDown`,
which ends with the camera in chunk `(1, 1)` and the window `[0, 2] × [0, 2]`. -/
theorem window_centred_on_one_axis_moves_witness :
    everyTick false movesOnOneAxis rightThenDown (TestScene.new false 400 300) = true
    ∧ getCurrentChunkCoords (run false rightThenDown (TestScene.new false 400 300)) = ⟨1, 1⟩
    ∧ (run false (rightThenDown.take 5) (TestScene.new false 400 300))._minChunkColumn
        = (getCurrentChunkCoords
            (run false (rightThenDown.take 5) (TestScene.new false 400 300))).x - 1 := by
  have he : everyTick false movesOnOneAxis rightThenDown (TestScene.new false 400 300) = true := by
    rw [everyTick_view false _ _ _ 400 300 (constants_new false 400 300), view_new]
    norm_num [rightThenDown, viewEveryTick, viewStep, viewMove, eventFlags, initialView,
      flagValue, slideWindow, cameraChunk, movesOnOneAxis]
  refine ⟨he, ?_, (window_centred_on_one_axis_moves false 400 300 rightThenDown he 5).1⟩
  rw [(view_run_new false 400 300 rightThenDown).2]
  norm_num [rightThenDown, viewRun, viewStep, viewMove, eventFlags, initialView, flagValue,
    slideWindow, cameraChunk]

theorem checkChunkBoundaries_of_not_onEdge (border0 : Bool) (s : TestScene)
    (h : ¬ onEdge (window s) (getCurrentChunkCoords s) = true) :
    checkChunkBoundaries border0 s = (false, s) := by
  rw [checkChunkBoundaries_eq, createdBySlide_of_not_onEdge border0 s _ h,
    slideWindow_of_not_onEdge _ _ h, List.append_nil, Bool.not_eq_true _ |>.mp h]
  rfl

/-- The cleanup of a scene whose chunks form the lattice of its window changes nothing. -/
theorem cleanupChunks_of_Lattice (s : TestScene) (h : Lattice s) : cleanupChunks s = s := by
  rw [cleanupChunks_eq]
  have hf : s._chunks.filter (insideWindow (window s)) = s._chunks := by
    rw [List.filter_eq_self]
    intro chunk hmem
    have hpos := mem_chunkCount_pos _ chunk hmem
    rw [h chunk.x chunk.y] at hpos
    by_cases hin : inWindow s chunk.x chunk.y = true
    · exact hin
    · rw [if_neg hin] at hpos
      exact absurd hpos (by decide)
  rw [hf]

theorem cleanupChunks_idempotent (s : TestScene) :
    cleanupChunks (cleanupChunks s) = cleanupChunks s := by
  rw [cleanupChunks_eq (cleanupChunks s), cleanupChunks_eq s]
  simp only [window, List.filter_filter, Bool.and_self]

theorem Lattice_updateChunkBorder_moveCamera (elapsed : ℚ) (s : TestScene) (h : Lattice s) :
    Lattice (updateChunkBorder (moveCamera elapsed s)) := by
  intro x y
  obtain ⟨c, hc⟩ := moveCamera_frame elapsed s
  rw [chunkCount_updateChunkBorder, hc]
  exact h x y

/-- On a scene whose chunks form the lattice of its window the tick and the tick with an
unconditional cleanup give the same scene. -/
theorem updateScene_eq_alwaysCleanup (border0 : Bool) (elapsed : ℚ) (s : TestScene)
    (h : Lattice s) :
    updateScene border0 elapsed s = updateSceneAlwaysCleanup border0 elapsed s := by
  unfold updateScene updateSceneAlwaysCleanup
  simp only
  by_cases he : onEdge (window (updateChunkBorder (moveCamera elapsed s)))
      (getCurrentChunkCoords (updateChunkBorder (moveCamera elapsed s))) = true
  · rw [checkChunkBoundaries_eq, if_pos he]
  · rw [checkChunkBoundaries_of_not_onEdge border0 _ he]
    simp only [Bool.false_eq_true, if_false]
    exact (cleanupChunks_of_Lattice _ (Lattice_updateChunkBorder_moveCamera elapsed s h)).symm

/-- C17 (the conditional cleanup is a pure optimisation): `cleanupChunks` is idempotent; on
a scene that satisfies the window-lattice invariant it changes nothing; and in every
state reached from the constructed scene `updateScene`, which cleans up only when the
boundary check returned true, gives the same scene as the variant that calls
`cleanupChunks` on every tick. -/
theorem conditional_cleanup_is_optimisation (border0 : Bool) (halfWidth halfHeight : ℚ)
    (steps : List Step) (elapsed : ℚ) (s : TestScene) :
    cleanupChunks (cleanupChunks s) = cleanupChunks s
    ∧ (Lattice s → cleanupChunks s = s)
    ∧ updateScene border0 elapsed (run border0 steps (TestScene.new border0 halfWidth halfHeight))
        = updateSceneAlwaysCleanup border0 elapsed
            (run border0 steps (TestScene.new border0 halfWidth halfHeight)) :=
  ⟨cleanupChunks_idempotent s, cleanupChunks_of_Lattice s,
    updateScene_eq_alwaysCleanup border0 elapsed _
      (Lattice_run border0 steps _ (Lattice_new border0 halfWidth halfHeight))⟩

/-- C17 at the constructed scene: it satisfies the lattice invariant, and the cleanup
leaves it as it is. -/
theorem conditional_cleanup_is_optimisation_witness :
    Lattice (TestScene.new false 400 300)
    ∧ cleanupChunks (TestScene.new false 400 300) = TestScene.new false 400 300 :=
  ⟨Lattice_new false 400 300,
    (conditional_cleanup_is_optimisation false 400 300 [] 0 (TestScene.new false 400 300)).2.1
      (Lattice_new false 400 300)⟩

/-! ## The slide and the camera's chunk -/

theorem window_atCheck (border0 : Bool) (halfWidth halfHeight : ℚ) (steps : List Step)
    (elapsed : ℚ) :
    window (atCheck border0 halfWidth halfHeight steps elapsed)
        = window (run border0 steps (TestScene.new border0 halfWidth halfHeight))
    ∧ (atCheck border0 halfWidth halfHeight steps elapsed)._maxChunkColumn
        = (atCheck border0 halfWidth halfHeight steps elapsed)._minChunkColumn + 2
    ∧ (atCheck border0 halfWidth halfHeight steps elapsed)._maxChunkRow
        = (atCheck border0 halfWidth halfHeight steps elapsed)._minChunkRow + 2 := by
  have hw : window (atCheck border0 halfWidth halfHeight steps elapsed)
      = window (run border0 steps (TestScene.new border0 halfWidth halfHeight)) := by
    obtain ⟨c, hc⟩ := moveCamera_frame elapsed
      (run border0 steps (TestScene.new border0 halfWidth halfHeight))
    simp only [atCheck, hc]
    rfl
  have hr := windowSize_run border0 steps (TestScene.new border0 halfWidth halfHeight)
  have hn := windowSize_new border0 halfWidth halfHeight
  rw [hn.1] at hr
  rw [hn.2] at hr
  simp only [windowWidth, windowHeight] at hr
  simp only [window, Window.mk.injEq] at hw
  obtain ⟨h1, h2, h3, h4⟩ := hw
  refine ⟨by simp only [window, h1, h2, h3, h4], ?_, ?_⟩
  · rw [h1, h2]
    omega
  · rw [h3, h4]
    omega

/-- A slide of a window of three columns and three rows keeps a chunk coordinate that
was inside the window inside. -/
theorem slideWindow_keeps_inside (w : Window) (c : Vector2i)
    (hw : w.maxColumn = w.minColumn + 2) (hh : w.maxRow = w.minRow + 2)
    (hin : w.minColumn ≤ c.x ∧ c.x ≤ w.maxColumn ∧ w.minRow ≤ c.y ∧ c.y ≤ w.maxRow) :
    (slideWindow c w).minColumn ≤ c.x ∧ c.x ≤ (slideWindow c w).maxColumn
      ∧ (slideWindow c w).minRow ≤ c.y ∧ c.y ≤ (slideWindow c w).maxRow := by
  simp only [slideWindow]
  split_ifs <;> refine ⟨?_, ?_, ?_, ?_⟩ <;> dsimp only <;> omega

/-- C16 (a slide never evicts the chunk under the camera): in a tick that follows any run
from the constructed scene, when `checkChunkBoundaries` matches a column edge the
camera's chunk column `cx` is the middle one of the columns after the slide,
`[cx - 1, cx + 1]`, and the rows stay; when it matches a row edge (no column edge
matching) the camera's chunk row `cy` is the middle one of the rows after the slide and
the columns stay.  So a camera chunk that was materialized before the tick is
materialized, once, after the tick with its cleanup. -/
theorem slide_keeps_camera_chunk (border0 : Bool) (halfWidth halfHeight : ℚ)
    (steps : List Step) (elapsed : ℚ) :
    ((getCurrentChunkCoords (atCheck border0 halfWidth halfHeight steps elapsed)).x
          = (atCheck border0 halfWidth halfHeight steps elapsed)._minChunkColumn
        ∨ (getCurrentChunkCoords (atCheck border0 halfWidth halfHeight steps elapsed)).x
          = (atCheck border0 halfWidth halfHeight steps elapsed)._maxChunkColumn →
      (checkChunkBoundaries border0 (atCheck border0 halfWidth halfHeight steps elapsed)).1 = true
      ∧ window (checkChunkBoundaries border0 (atCheck border0 halfWidth halfHeight steps elapsed)).2
        = ⟨(getCurrentChunkCoords (atCheck border0 halfWidth halfHeight steps elapsed)).x - 1,
           (getCurrentChunkCoords (atCheck border0 halfWidth halfHeight steps elapsed)).x + 1,
           (atCheck border0 halfWidth halfHeight steps elapsed)._minChunkRow,
           (atCheck border0 halfWidth halfHeight steps elapsed)._maxChunkRow⟩)
    ∧ ((getCurrentChunkCoords (atCheck border0 halfWidth halfHeight steps elapsed)).x
          ≠ (atCheck border0 halfWidth halfHeight steps elapsed)._minChunkColumn →
        (getCurrentChunkCoords (atCheck border0 halfWidth halfHeight steps elapsed)).x
          ≠ (atCheck border0 halfWidth halfHeight steps elapsed)._maxChunkColumn →
        (getCurrentChunkCoords (atCheck border0 halfWidth halfHeight steps elapsed)).y
            = (atCheck border0 halfWidth halfHeight steps elapsed)._minChunkRow
          ∨ (getCurrentChunkCoords (atCheck border0 halfWidth halfHeight steps elapsed)).y
            = (atCheck border0 halfWidth halfHeight steps elapsed)._maxChunkRow →
      (checkChunkBoundaries border0 (atCheck border0 halfWidth halfHeight steps elapsed)).1 = true
      ∧ window (checkChunkBoundaries border0 (atCheck border0 halfWidth halfHeight steps elapsed)).2
        = ⟨(atCheck border0 halfWidth halfHeight steps elapsed)._minChunkColumn,
           (atCheck border0 halfWidth halfHeight steps elapsed)._maxChunkColumn,
           (getCurrentChunkCoords (atCheck border0 halfWidth halfHeight steps elapsed)).y - 1,
           (getCurrentChunkCoords (atCheck border0 halfWidth halfHeight steps elapsed)).y + 1⟩)
    ∧ (0 < chunkCount (run border0 steps (TestScene.new border0 halfWidth halfHeight))._chunks
          (getCurrentChunkCoords (atCheck border0 halfWidth halfHeight steps elapsed)).x
          (getCurrentChunkCoords (atCheck border0 halfWidth halfHeight steps elapsed)).y →
      chunkCount (updateScene border0 elapsed
            (run border0 steps (TestScene.new border0 halfWidth halfHeight)))._chunks
          (getCurrentChunkCoords (atCheck border0 halfWidth halfHeight steps elapsed)).x
          (getCurrentChunkCoords (atCheck border0 halfWidth halfHeight steps elapsed)).y = 1) := by
  obtain ⟨hwin, hw, hh⟩ := window_atCheck border0 halfWidth halfHeight steps elapsed
  have hr : (checkChunkBoundaries border0 (atCheck border0 halfWidth halfHeight steps elapsed)).1
        = onEdge (window (atCheck border0 halfWidth halfHeight steps elapsed))
            (getCurrentChunkCoords (atCheck border0 halfWidth halfHeight steps elapsed))
      ∧ window (checkChunkBoundaries border0 (atCheck border0 halfWidth halfHeight steps elapsed)).2
        = slideWindow (getCurrentChunkCoords (atCheck border0 halfWidth halfHeight steps elapsed))
            (window (atCheck border0 halfWidth halfHeight steps elapsed)) := by
    rw [checkChunkBoundaries_eq]
    exact ⟨rfl, rfl⟩
  refine ⟨?_, ?_, ?_⟩
  · intro hc
    rw [hr.1, hr.2]
    simp only [onEdge, window, slideWindow, decide_eq_true_eq]
    refine ⟨by tauto, ?_⟩
    split_ifs <;> rw [Window.mk.injEq] <;> refine ⟨?_, ?_, ?_, ?_⟩ <;> omega
  · intro h1 h2 hc
    rw [hr.1, hr.2]
    simp only [onEdge, window, slideWindow, decide_eq_true_eq]
    refine ⟨by tauto, ?_⟩
    split_ifs <;> rw [Window.mk.injEq] <;> refine ⟨?_, ?_, ?_, ?_⟩ <;> omega
  · intro hpos
    have hl := Lattice_run border0 steps _ (Lattice_new border0 halfWidth halfHeight)
    have hl2 := Lattice_updateScene border0 elapsed _ hl
    rw [hl _ _] at hpos
    have hin : inWindow (run border0 steps (TestScene.new border0 halfWidth halfHeight))
        (getCurrentChunkCoords (atCheck border0 halfWidth halfHeight steps elapsed)).x
        (getCurrentChunkCoords (atCheck border0 halfWidth halfHeight steps elapsed)).y = true := by
      by_contra hn
      rw [if_neg hn] at hpos
      exact absurd hpos (by decide)
    rw [hl2 _ _, if_pos]
    have hk := slideWindow_keeps_inside (window (atCheck border0 halfWidth halfHeight steps elapsed))
      (getCurrentChunkCoords (atCheck border0 halfWidth halfHeight steps elapsed)) hw hh (by
        rw [hwin]
        simpa only [inWindow, window, decide_eq_true_eq] using hin)
    have hwu := updateScene_window border0 elapsed
      (run border0 steps (TestScene.new border0 halfWidth halfHeight))
    rw [hwin] at hk
    have hcc : getCurrentChunkCoords (atCheck border0 halfWidth halfHeight steps elapsed)
        = getCurrentChunkCoords (moveCamera elapsed
            (run border0 steps (TestScene.new border0 halfWidth halfHeight))) := rfl
    rw [← hcc] at hwu
    rw [← hwu] at hk
    simpa only [inWindow, window, decide_eq_true_eq] using hk

/-- C16 at the constructed scene with the right key held and a tick of 0.128 s: the camera's
chunk `(1, 0)` is on the right edge, and its column is the middle one of the columns
`[0, 2]` after the slide. -/
theorem slide_keeps_camera_chunk_witness :
    (getCurrentChunkCoords (atCheck false 400 300 pressRight (16 / 125))).x
        = (atCheck false 400 300 pressRight (16 / 125))._maxChunkColumn
    ∧ window (checkChunkBoundaries false (atCheck false 400 300 pressRight (16 / 125))).2
        = ⟨0, 2, -1, 1⟩ := by
  obtain ⟨hc, _, hw, _⟩ := rightPressed_tick false
  have hc2 : getCurrentChunkCoords (atCheck false 400 300 pressRight (16 / 125)) = ⟨1, 0⟩ := hc
  have hw2 : window (atCheck false 400 300 pressRight (16 / 125)) = ⟨-1, 1, -1, 1⟩ := hw
  simp only [window, Window.mk.injEq] at hw2
  obtain ⟨w1, w2, w3, w4⟩ := hw2
  have hmax : (getCurrentChunkCoords (atCheck false 400 300 pressRight (16 / 125))).x
      = (atCheck false 400 300 pressRight (16 / 125))._maxChunkColumn := by
    rw [hc2, w2]
  refine ⟨hmax, ?_⟩
  rw [((slide_keeps_camera_chunk false 400 300 pressRight (16 / 125)).1 (Or.inr hmax)).2, hc2,
    w3, w4]
  decide

/-! ## Skipping a chunk -/

/-- A tick after which the camera's chunk column is on neither column edge leaves the
column bounds alone; the same for rows. -/
theorem updateScene_bounds_unchanged (border0 : Bool) (elapsed : ℚ) (s : TestScene) :
    ((getCurrentChunkCoords (updateScene border0 elapsed s)).x ≠ s._minChunkColumn →
      (getCurrentChunkCoords (updateScene border0 elapsed s)).x ≠ s._maxChunkColumn →
      (updateScene border0 elapsed s)._minChunkColumn = s._minChunkColumn
        ∧ (updateScene border0 elapsed s)._maxChunkColumn = s._maxChunkColumn)
    ∧ ((getCurrentChunkCoords (updateScene border0 elapsed s)).y ≠ s._minChunkRow →
      (getCurrentChunkCoords (updateScene border0 elapsed s)).y ≠ s._maxChunkRow →
      (updateScene border0 elapsed s)._minChunkRow = s._minChunkRow
        ∧ (updateScene border0 elapsed s)._maxChunkRow = s._maxChunkRow) := by
  have hw := updateScene_window border0 elapsed s
  rw [← updateScene_chunkCoords border0 elapsed s] at hw
  simp only [window, slideWindow] at hw
  constructor
  · intro h1 h2
    rw [if_neg h1, if_neg h2] at hw
    split_ifs at hw <;> rw [Window.mk.injEq] at hw <;> exact ⟨hw.1, hw.2.1⟩
  · intro h1 h2
    split_ifs at hw <;> rw [Window.mk.injEq] at hw <;> exact ⟨hw.2.2.1, hw.2.2.2⟩

theorem step_event_window (border0 : Bool) (e : Event) (s : TestScene) :
    window (step border0 (Step.event e) s) = window s := by
  obtain ⟨kd, ku, kl, kr, he⟩ := processSceneEvents_frame e s
  simp only [step, he]
  rfl

/-- The column bounds stay as they are through every run in which the camera's chunk
column is strictly outside of them after every tick. -/
theorem columns_unchanged_run (border0 : Bool) (lo hi : Int) (steps : List Step) (s : TestScene)
    (hle : lo ≤ hi) (h1 : s._minChunkColumn = lo) (h2 : s._maxChunkColumn = hi)
    (h : everyTickAt border0 (columnOutside lo hi) steps s = true) :
    (run border0 steps s)._minChunkColumn = lo ∧ (run border0 steps s)._maxChunkColumn = hi := by
  induction steps generalizing s with
  | nil => exact ⟨h1, h2⟩
  | cons st rest ih =>
    cases st with
    | event e =>
      simp only [everyTickAt] at h
      have hw := step_event_window border0 e s
      simp only [window, Window.mk.injEq] at hw
      exact ih _ (hw.1.trans h1) (hw.2.1.trans h2) h
    | tick elapsed =>
      simp only [everyTickAt, Bool.and_eq_true, columnOutside, decide_eq_true_eq] at h
      obtain ⟨hc, hrest⟩ := h
      have hb := (updateScene_bounds_unchanged border0 elapsed s).1
        (by simp only [step] at hc; omega) (by simp only [step] at hc; omega)
      exact ih _ (hb.1.trans h1) (hb.2.trans h2) hrest

/-- The row bounds stay as they are through every run in which the camera's chunk row is
strictly outside of them after every tick. -/
theorem rows_unchanged_run (border0 : Bool) (lo hi : Int) (steps : List Step) (s : TestScene)
    (hle : lo ≤ hi) (h1 : s._minChunkRow = lo) (h2 : s._maxChunkRow = hi)
    (h : everyTickAt border0 (rowOutside lo hi) steps s = true) :
    (run border0 steps s)._minChunkRow = lo ∧ (run border0 steps s)._maxChunkRow = hi := by
  induction steps generalizing s with
  | nil => exact ⟨h1, h2⟩
  | cons st rest ih =>
    cases st with
    | event e =>
      simp only [everyTickAt] at h
      have hw := step_event_window border0 e s
      simp only [window, Window.mk.injEq] at hw
      exact ih _ (hw.2.2.1.trans h1) (hw.2.2.2.trans h2) h
    | tick elapsed =>
      simp only [everyTickAt, Bool.and_eq_true, rowOutside, decide_eq_true_eq] at h
      obtain ⟨hc, hrest⟩ := h
      have hb := (updateScene_bounds_unchanged border0 elapsed s).2
        (by simp only [step] at hc; omega) (by simp only [step] at hc; omega)
      exact ih _ (hb.1.trans h1) (hb.2.trans h2) hrest

/-- The camera's chunk of a scene whose chunks form the lattice of its window is not
materialized when it lies outside the window. -/
theorem chunkCount_zero_of_outside (s : TestScene) (h : Lattice s)
    (hout : cameraInWindow s = false) :
    chunkCount s._chunks (getCurrentChunkCoords s).x (getCurrentChunkCoords s).y = 0 := by
  rw [h _ _]
  rw [cameraInWindow] at hout
  rw [hout]
  rfl

/-- C14 (desynchronisation when a chunk is skipped): from every scene whose columns are
centred on the camera's chunk column `cx` (`minColumn = cx - 1`, `maxColumn = cx + 1`), a
tick that moves the camera's chunk column by two or more slides no column, leaves the
camera's chunk outside the window, and, when the chunks formed the lattice of the
window, unmaterialized; the column bounds then stay as they are through every further
run in which the camera's chunk column is strictly outside `[minColumn, maxColumn]`
after every tick.  The same holds for the rows. -/
theorem skipped_chunk_desynchronises (border0 : Bool) (elapsed : ℚ) (s : TestScene)
    (steps : List Step) :
    (s._minChunkColumn = (getCurrentChunkCoords s).x - 1 →
      s._maxChunkColumn = (getCurrentChunkCoords s).x + 1 →
      ((getCurrentChunkCoords (updateScene border0 elapsed s)).x ≤ (getCurrentChunkCoords s).x - 2
        ∨ (getCurrentChunkCoords s).x + 2 ≤ (getCurrentChunkCoords (updateScene border0 elapsed s)).x) →
      ((updateScene border0 elapsed s)._minChunkColumn = s._minChunkColumn
        ∧ (updateScene border0 elapsed s)._maxChunkColumn = s._maxChunkColumn)
      ∧ cameraInWindow (updateScene border0 elapsed s) = false
      ∧ (Lattice s →
          chunkCount (updateScene border0 elapsed s)._chunks
            (getCurrentChunkCoords (updateScene border0 elapsed s)).x
            (getCurrentChunkCoords (updateScene border0 elapsed s)).y = 0)
      ∧ (everyTickAt border0 (columnOutside s._minChunkColumn s._maxChunkColumn) steps
            (updateScene border0 elapsed s) = true →
          (run border0 steps (updateScene border0 elapsed s))._minChunkColumn = s._minChunkColumn
          ∧ (run border0 steps (updateScene border0 elapsed s))._maxChunkColumn
              = s._maxChunkColumn))
    ∧ (s._minChunkRow = (getCurrentChunkCoords s).y - 1 →
      s._maxChunkRow = (getCurrentChunkCoords s).y + 1 →
      ((getCurrentChunkCoords (updateScene border0 elapsed s)).y ≤ (getCurrentChunkCoords s).y - 2
        ∨ (getCurrentChunkCoords s).y + 2 ≤ (getCurrentChunkCoords (updateScene border0 elapsed s)).y) →
      ((updateScene border0 elapsed s)._minChunkRow = s._minChunkRow
        ∧ (updateScene border0 elapsed s)._maxChunkRow = s._maxChunkRow)
      ∧ cameraInWindow (updateScene border0 elapsed s) = false
      ∧ (Lattice s →
          chunkCount (updateScene border0 elapsed s)._chunks
            (getCurrentChunkCoords (updateScene border0 elapsed s)).x
            (getCurrentChunkCoords (updateScene border0 elapsed s)).y = 0)
      ∧ (everyTickAt border0 (rowOutside s._minChunkRow s._maxChunkRow) steps
            (updateScene border0 elapsed s) = true →
          (run border0 steps (updateScene border0 elapsed s))._minChunkRow = s._minChunkRow
          ∧ (run border0 steps (updateScene border0 elapsed s))._maxChunkRow = s._maxChunkRow)) := by
  constructor
  · intro h1 h2 hskip
    have hb := (updateScene_bounds_unchanged border0 elapsed s).1 (by omega) (by omega)
    have hout : cameraInWindow (updateScene border0 elapsed s) = false := by
      rw [cameraInWindow_eq, decide_eq_false_iff_not]
      simp only [window]
      rw [hb.1, hb.2]
      omega
    refine ⟨hb, hout, ?_, ?_⟩
    · intro hl
      exact chunkCount_zero_of_outside _ (Lattice_updateScene border0 elapsed s hl) hout
    · intro hrun
      exact columns_unchanged_run border0 _ _ steps _ (by omega) hb.1 hb.2 hrun
  · intro h1 h2 hskip
    have hb := (updateScene_bounds_unchanged border0 elapsed s).2 (by omega) (by omega)
    have hout : cameraInWindow (updateScene border0 elapsed s) = false := by
      rw [cameraInWindow_eq, decide_eq_false_iff_not]
      simp only [window]
      rw [hb.1, hb.2]
      omega
    refine ⟨hb, hout, ?_, ?_⟩
    · intro hl
      exact chunkCount_zero_of_outside _ (Lattice_updateScene border0 elapsed s hl) hout
    · intro hrun
      exact rows_unchanged_run border0 _ _ steps _ (by omega) hb.1 hb.2 hrun

/-- C14 from the constructed scene: with the right key held a tick of one second takes the
camera from chunk `(0, 0)` to chunk `(4, 0)`; the camera is outside the window, and after
a further tick of 0.1 s the columns are still `[-1, 1]`. -/
theorem skipped_chunk_desynchronises_witness :
    getCurrentChunkCoords (run false pressRight (TestScene.new false 400 300)) = ⟨0, 0⟩
    ∧ getCurrentChunkCoords (run false rightFar (TestScene.new false 400 300)) = ⟨4, 0⟩
    ∧ cameraInWindow (run false rightFar (TestScene.new false 400 300)) = false
    ∧ (run false rightFarThenOn (TestScene.new false 400 300))._minChunkColumn = -1
    ∧ (run false rightFarThenOn (TestScene.new false 400 300))._maxChunkColumn = 1 := by
  obtain ⟨hv0, hc0⟩ := view_run_new false 400 300 pressRight
  have hc1 := (view_run_new false 400 300 rightFar).2
  have hc2 := (view_run_new false 400 300 rightFarThenOn).2
  have e0 : viewRun pressRight initialView
      = ⟨⟨0, 0⟩, (false, false, false, true), ⟨-1, 1, -1, 1⟩⟩ := by
    simp [pressRight, viewRun, viewStep, eventFlags, initialView]
  have e1 : cameraChunk (viewRun rightFar initialView).camera = ⟨4, 0⟩ := by
    norm_num [rightFar, viewRun, viewStep, viewMove, eventFlags, initialView, flagValue,
      cameraChunk]
  have e2 : cameraChunk (viewRun rightFarThenOn initialView).camera = ⟨4, 0⟩ := by
    norm_num [rightFarThenOn, viewRun, viewStep, viewMove, eventFlags, initialView, flagValue,
      cameraChunk]
  rw [e0] at hv0 hc0
  rw [e1] at hc1
  rw [e2] at hc2
  have hc0' : getCurrentChunkCoords (run false pressRight (TestScene.new false 400 300))
      = ⟨0, 0⟩ := by
    rw [hc0]
    norm_num [cameraChunk]
  have hw0 := congrArg View.window hv0
  simp only [view, window, Window.mk.injEq] at hw0
  obtain ⟨w1, w2, w3, w4⟩ := hw0
  have hthm := (skipped_chunk_desynchronises false 1
    (run false pressRight (TestScene.new false 400 300)) [Step.tick (1 / 10)]).1
    (by rw [w1, hc0']; decide) (by rw [w2, hc0']; decide)
    (Or.inr (by
      rw [hc0', show updateScene false 1 (run false pressRight (TestScene.new false 400 300))
        = run false rightFar (TestScene.new false 400 300) from rfl, hc1]
      decide))
  obtain ⟨_, hout, _, hlater⟩ := hthm
  have hl := hlater (by
    simp only [everyTickAt, Bool.and_true]
    rw [show step false (Step.tick (1 / 10))
        (updateScene false 1 (run false pressRight (TestScene.new false 400 300)))
      = run false rightFarThenOn (TestScene.new false 400 300) from rfl, hc2, w1, w2]
    decide)
  rw [w1, w2] at hl
  exact ⟨hc0', hc1, hout, hl.1, hl.2⟩

/-! ## Coordinate transforms in exact arithmetic -/

/-- The bind of a value that is there, as a rewriting rule that is not checked by unfolding. -/
theorem some_bind_eq {α β : Type} (a : α) (f : α → Option β) : (some a).bind f = f a := by
  rw [Option.some_bind]

theorem roundHalfEven_intCast (n : Int) : roundHalfEven (n : ℚ) = n := by
  simp [roundHalfEven]

theorem le_roundHalfEven (y : ℚ) (n : Int) (h : (n : ℚ) ≤ y) : n ≤ roundHalfEven y := by
  have hf : n ≤ Int.floor y := Int.le_floor.mpr h
  unfold roundHalfEven
  split_ifs <;> omega

theorem roundHalfEven_le (y : ℚ) (n : Int) (h : y ≤ (n : ℚ)) : roundHalfEven y ≤ n := by
  have hf : Int.floor y ≤ n := Int.cast_le.mp ((Int.floor_le y).trans h)
  by_cases hlt : y - Int.floor y < 1 / 2
  · unfold roundHalfEven
    rw [if_pos hlt]
    exact hf
  · have hne : Int.floor y ≠ n := by
      intro he
      rw [he] at hlt
      apply hlt
      linarith
    have hf1 : Int.floor y + 1 ≤ n := by omega
    unfold roundHalfEven
    split_ifs <;> omega

/-- The value evaluates by its two neighbours. -/
theorem roundHalfEven_of_lt (y : ℚ) (f : Int) (h1 : (f : ℚ) ≤ y) (h2 : y < f + 1 / 2) :
    roundHalfEven y = f := by
  have hf : Int.floor y = f := Int.floor_eq_iff.mpr ⟨h1, by linarith⟩
  unfold roundHalfEven
  rw [hf, if_pos (by linarith)]

theorem roundHalfEven_of_gt (y : ℚ) (f : Int) (h1 : (f : ℚ) + 1 / 2 < y) (h2 : y < f + 1) :
    roundHalfEven y = f + 1 := by
  have hf : Int.floor y = f := Int.floor_eq_iff.mpr ⟨by linarith, h2⟩
  unfold roundHalfEven
  rw [hf, if_neg (by linarith), if_pos (by linarith)]

theorem roundHalfEven_tie (f : Int) :
    roundHalfEven ((f : ℚ) + 1 / 2) = if f % 2 = 0 then f else f + 1 := by
  have hf : Int.floor ((f : ℚ) + 1 / 2) = f :=
    Int.floor_eq_iff.mpr ⟨by linarith, by linarith⟩
  unfold roundHalfEven
  rw [hf, if_neg (by norm_num), if_neg (by norm_num)]

theorem lt_two_zpow_log (x : ℚ) : |x| < (2 : ℚ) ^ (Int.log 2 |x| + 1) := by
  have := Int.lt_zpow_succ_log_self (b := 2) (by norm_num) |x|
  exact_mod_cast this

theorem log_eq_of_binade (x : ℚ) (e : Int) (h1 : (2 : ℚ) ^ e ≤ |x|) (h2 : |x| < (2 : ℚ) ^ (e + 1)) :
    Int.log 2 |x| = e := by
  have hpos : 0 < |x| := lt_of_lt_of_le (by positivity) h1
  have a : e ≤ Int.log 2 |x| := (Int.zpow_le_iff_le_log (b := 2) (by norm_num) hpos).mp (by exact_mod_cast h1)
  have b : Int.log 2 |x| < e + 1 := (Int.lt_zpow_iff_log_lt (b := 2) (by norm_num) hpos).mp (by exact_mod_cast h2)
  omega


theorem ulpExponent_le_of_dyadic (m k : Int) (hm0 : m ≠ 0) (hm : |m| < 2 ^ 24) (hk : -149 ≤ k) :
    ulpExponent ((m : ℚ) * 2 ^ k) ≤ k := by
  have hpos : (0 : ℚ) < |(m : ℚ) * 2 ^ k| := by
    apply abs_pos.mpr
    exact mul_ne_zero (by exact_mod_cast hm0) (by positivity)
  have hlt : |(m : ℚ) * 2 ^ k| < (2 : ℚ) ^ (k + 24) := by
    rw [abs_mul, abs_of_pos (show (0 : ℚ) < 2 ^ k by positivity), zpow_add₀ (by norm_num), mul_comm]
    apply mul_lt_mul_of_pos_left _ (by positivity)
    have : ((|m| : Int) : ℚ) < ((2 ^ 24 : Int) : ℚ) := by exact_mod_cast hm
    rw [Int.cast_abs] at this
    calc |(m : ℚ)| < ((2 ^ 24 : Int) : ℚ) := this
      _ = 2 ^ (24 : Int) := by norm_num
  have hlog : Int.log 2 |(m : ℚ) * 2 ^ k| < k + 24 :=
    (Int.lt_zpow_iff_log_lt (b := 2) (by norm_num) hpos).mp (by exact_mod_cast hlt)
  unfold ulpExponent
  rcases max_cases (Int.log 2 |(m : ℚ) * 2 ^ k|) (-126) with ⟨h, _⟩ | ⟨h, _⟩ <;> rw [h] <;> omega

theorem roundNearest_of_multiple (x : ℚ) (n : Int) (h : x = (n : ℚ) * 2 ^ ulpExponent x) :
    roundNearest x = x := by
  unfold roundNearest
  have hq : x / 2 ^ ulpExponent x = (n : ℚ) := by
    rw [div_eq_iff (by positivity)]
    exact h
  rw [hq, roundHalfEven_intCast, ← h]

theorem roundNearest_dyadic (m k : Int) (hm : |m| < 2 ^ 24) (hk : -149 ≤ k) :
    roundNearest ((m : ℚ) * 2 ^ k) = (m : ℚ) * 2 ^ k := by
  by_cases hm0 : m = 0
  · subst hm0
    simp [roundNearest, roundHalfEven]
  · have hE := ulpExponent_le_of_dyadic m k hm0 hm hk
    obtain ⟨j, hj⟩ := Int.eq_ofNat_of_zero_le (sub_nonneg.mpr hE)
    apply roundNearest_of_multiple _ (m * 2 ^ j)
    have hk2 : k = (j : Int) + ulpExponent ((m : ℚ) * 2 ^ k) := by omega
    conv_lhs => rw [hk2]
    rw [zpow_add₀ (by norm_num), zpow_natCast]
    push_cast
    ring

theorem roundToFloat_dyadic (m k : Int) (hm : |m| < 2 ^ 24) (hk : -149 ≤ k)
    (hb : |(m : ℚ) * 2 ^ k| < 2 ^ 128) :
    roundToFloat ((m : ℚ) * 2 ^ k) = some ((m : ℚ) * 2 ^ k) := by
  unfold roundToFloat
  rw [roundNearest_dyadic m k hm hk, if_pos hb]

/-- Whole numbers below `2^24` are binary32 values. -/
theorem roundToFloat_intCast (n : Int) (hn : |n| < 2 ^ 24) :
    roundToFloat (n : ℚ) = some (n : ℚ) := by
  have h := roundToFloat_dyadic n 0 hn (by norm_num) (by
    rw [zpow_zero, mul_one]
    have : ((|n| : Int) : ℚ) < ((2 ^ 24 : Int) : ℚ) := by exact_mod_cast hn
    rw [Int.cast_abs] at this
    calc |(n : ℚ)| < ((2 ^ 24 : Int) : ℚ) := this
      _ < 2 ^ 128 := by norm_num)
  rwa [zpow_zero, mul_one] at h


theorem roundNearest_zero : roundNearest 0 = 0 := by
  simp [roundNearest, roundHalfEven]

theorem roundToFloat_zero : roundToFloat 0 = some 0 := by
  simp [roundToFloat, roundNearest_zero]

theorem roundNearest_dyadic_le (m k : Int) (hm : |m| ≤ 2 ^ 24) (hk : -149 ≤ k) :
    roundNearest ((m : ℚ) * 2 ^ k) = (m : ℚ) * 2 ^ k := by
  rcases lt_or_eq_of_le hm with h | h
  · exact roundNearest_dyadic m k h hk
  · have e : (m : ℚ) * 2 ^ k = ((m / 2 : Int) : ℚ) * 2 ^ (k + 1) := by
      have hm2 : m = 2 * (m / 2) := by
        rcases abs_cases m with ⟨h1, _⟩ | ⟨h1, _⟩ <;> omega
      rw [zpow_add₀ (by norm_num), zpow_one]
      conv_lhs => rw [hm2]
      push_cast
      ring
    rw [e]
    apply roundNearest_dyadic
    · rcases abs_cases m with ⟨h1, _⟩ | ⟨h1, _⟩ <;>
        rcases abs_cases (m / 2) with ⟨h2, _⟩ | ⟨h2, _⟩ <;> omega
    · omega

theorem abs_roundHalfEven_le (y : ℚ) (N : Int) (h : |y| ≤ (N : ℚ)) : |roundHalfEven y| ≤ N := by
  rw [abs_le] at h ⊢
  exact ⟨le_roundHalfEven y (-N) (by push_cast; exact h.1), roundHalfEven_le y N h.2⟩

/-- What rounding returns is a multiple of the unit in the last place with a mantissa of
at most 24 bits. -/
theorem roundNearest_repr (z : ℚ) :
    ∃ n : Int, roundNearest z = (n : ℚ) * 2 ^ ulpExponent z ∧ |n| ≤ 2 ^ 24 := by
  refine ⟨roundHalfEven (z / 2 ^ ulpExponent z), rfl, ?_⟩
  apply abs_roundHalfEven_le
  by_cases hz : z = 0
  · subst hz
    simp
  · have h1 := lt_two_zpow_log z
    have hE : Int.log 2 |z| + 1 ≤ ulpExponent z + 24 := by
      unfold ulpExponent
      have := le_max_left (Int.log 2 |z|) (-126)
      omega
    have h2 : |z| < (2 : ℚ) ^ (ulpExponent z + 24) :=
      lt_of_lt_of_le h1 (zpow_le_zpow_right₀ (by norm_num) hE)
    rw [abs_div, abs_of_pos (show (0 : ℚ) < 2 ^ ulpExponent z by positivity),
      div_le_iff₀ (by positivity)]
    rw [zpow_add₀ (by norm_num)] at h2
    push_cast
    have e : (2 : ℚ) ^ (24 : Int) = 16777216 := by norm_num
    rw [e] at h2
    linarith

theorem roundNearest_of_IsBinary32 (x : ℚ) (hx : IsBinary32 x) : roundNearest x = x := by
  unfold IsBinary32 roundToFloat at hx
  split_ifs at hx
  exact Option.some.inj hx

theorem abs_lt_of_roundToFloat (z a : ℚ) (h : roundToFloat z = some a) :
    a = roundNearest z ∧ |a| < 2 ^ 128 := by
  unfold roundToFloat at h
  split_ifs at h with hb
  have := Option.some.inj h
  subst this
  exact ⟨rfl, hb⟩

theorem roundToFloat_eq_some_iff (z a : ℚ) :
    roundToFloat z = some a ↔ a = roundNearest z ∧ |a| < 2 ^ 128 := by
  constructor
  · exact abs_lt_of_roundToFloat z a
  · rintro ⟨rfl, hb⟩
    unfold roundToFloat
    rw [if_pos hb]

/-- A binary32 value `x` whose sum with 128 is below `2^-118` in magnitude is `-128`. -/
theorem add_128_eq_zero_of_tiny (x : ℚ) (hx : IsBinary32 x)
    (h : ulpExponent (x + 128) < -141) : x + 128 = 0 := by
  by_contra hz
  have hlog : Int.log 2 |x + 128| + 1 ≤ -118 := by
    unfold ulpExponent at h
    have := le_max_left (Int.log 2 |x + 128|) (-126)
    omega
  have hzlt : |x + 128| < (2 : ℚ) ^ (-118 : Int) :=
    lt_of_lt_of_le (lt_two_zpow_log (x + 128)) (zpow_le_zpow_right₀ (by norm_num) hlog)
  have hsmall : (2 : ℚ) ^ (-118 : Int) < 1 := by norm_num
  obtain ⟨h1, h2⟩ := abs_lt.mp hzlt
  have hxneg : x < -64 := by linarith
  have hx0 : x ≠ 0 := by
    intro h0
    rw [h0] at hxneg
    norm_num at hxneg
  have hxabs : (2 : ℚ) ^ (6 : Int) ≤ |x| := by
    rw [abs_of_neg (by linarith)]
    norm_num
    linarith
  have hlx : 6 ≤ Int.log 2 |x| :=
    (Int.zpow_le_iff_le_log (b := 2) (by norm_num) (abs_pos.mpr hx0)).mp (by exact_mod_cast hxabs)
  have hEx : 0 ≤ ulpExponent x + 17 := by
    unfold ulpExponent
    have := le_max_left (Int.log 2 |x|) (-126)
    omega
  obtain ⟨j, hj⟩ := Int.eq_ofNat_of_zero_le hEx
  have hxr := roundNearest_of_IsBinary32 x hx
  unfold roundNearest at hxr
  have hE : ulpExponent x = (j : Int) + (-17) := by omega
  rw [hE, zpow_add₀ (by norm_num), zpow_natCast] at hxr
  generalize roundHalfEven (x / (2 ^ j * 2 ^ (-17 : Int))) = n at hxr
  have hz17 : (x + 128) * 2 ^ (17 : Int) = ((n * 2 ^ j + 2 ^ 24 : Int) : ℚ) := by
    rw [← hxr]
    push_cast
    norm_num
    ring
  have habs : |((n * 2 ^ j + 2 ^ 24 : Int) : ℚ)| < 1 := by
    rw [← hz17, abs_mul, abs_of_pos (show (0 : ℚ) < 2 ^ (17 : Int) by positivity)]
    calc |x + 128| * 2 ^ (17 : Int) < 2 ^ (-118 : Int) * 2 ^ (17 : Int) :=
          mul_lt_mul_of_pos_right hzlt (by positivity)
      _ < 1 := by norm_num
  have hint : n * 2 ^ j + 2 ^ 24 = 0 := by
    have : |n * 2 ^ j + 2 ^ 24| < 1 := by exact_mod_cast habs
    rw [abs_lt] at this
    omega
  rw [hint] at hz17
  apply hz
  have h17 : (2 : ℚ) ^ (17 : Int) ≠ 0 := by positivity
  simpa [h17] using hz17

/-- Dividing the rounded sum of a binary32 value and 128 by 256 is exact. -/
theorem roundToFloat_div_256 (x a : ℚ) (hx : IsBinary32 x)
    (ha : roundToFloat (x + 128) = some a) : roundToFloat (a / 256) = some (a / 256) := by
  obtain ⟨har, hab⟩ := abs_lt_of_roundToFloat _ _ ha
  obtain ⟨n, hn, hnb⟩ := roundNearest_repr (x + 128)
  by_cases hE : -141 ≤ ulpExponent (x + 128)
  · have e : a / 256 = (n : ℚ) * 2 ^ (ulpExponent (x + 128) - 8) := by
      rw [har, hn, zpow_sub₀ (by norm_num)]
      norm_num
      ring
    rw [roundToFloat_eq_some_iff]
    constructor
    · rw [e, roundNearest_dyadic_le n _ hnb (by omega)]
    · rw [abs_div]
      norm_num
      linarith [abs_nonneg a]
  · have hz := add_128_eq_zero_of_tiny x hx (by omega)
    rw [hz, roundNearest_zero] at har
    rw [har]
    simpa using roundToFloat_zero

/-- Rounding in the binade `[2^e, 2^(e+1))` of a normal magnitude. -/
theorem roundNearest_of_binade (x : ℚ) (e : Int) (h1 : (2 : ℚ) ^ e ≤ |x|)
    (h2 : |x| < (2 : ℚ) ^ (e + 1)) (he : -126 ≤ e) :
    roundNearest x = (roundHalfEven (x / 2 ^ (e - 23)) : ℚ) * 2 ^ (e - 23) := by
  have hE : ulpExponent x = e - 23 := by
    unfold ulpExponent
    rw [log_eq_of_binade x e h1 h2, max_eq_left he]
  unfold roundNearest
  rw [hE]

theorem roundToFloat_of_binade (x : ℚ) (e n : Int) (h1 : (2 : ℚ) ^ e ≤ |x|)
    (h2 : |x| < (2 : ℚ) ^ (e + 1)) (he : -126 ≤ e)
    (hn : roundHalfEven (x / 2 ^ (e - 23)) = n) (hb : |(n : ℚ) * 2 ^ (e - 23)| < 2 ^ 128) :
    roundToFloat x = some ((n : ℚ) * 2 ^ (e - 23)) := by
  rw [roundToFloat_eq_some_iff, roundNearest_of_binade x e h1 h2 he, hn]
  exact ⟨rfl, hb⟩

/-- Rounding down in the binade `[2^e, 2^(e+1))` of a positive normal value. -/
theorem roundToFloat_down (x r : ℚ) (e f : Int) (h1 : (2 : ℚ) ^ e ≤ x)
    (h2 : x < (2 : ℚ) ^ (e + 1)) (he : -126 ≤ e) (hf1 : (f : ℚ) ≤ x / 2 ^ (e - 23))
    (hf2 : x / 2 ^ (e - 23) < (f : ℚ) + 1 / 2) (hr : r = (f : ℚ) * 2 ^ (e - 23))
    (hb : |r| < 2 ^ 128) : roundToFloat x = some r := by
  have hpos : 0 < x := lt_of_lt_of_le (by positivity) h1
  rw [hr] at hb ⊢
  exact roundToFloat_of_binade x e f (by rw [abs_of_pos hpos]; exact h1)
    (by rw [abs_of_pos hpos]; exact h2) he (roundHalfEven_of_lt _ _ hf1 hf2) hb

/-- Rounding up in the binade `[2^e, 2^(e+1))` of a positive normal value. -/
theorem roundToFloat_up (x r : ℚ) (e f : Int) (h1 : (2 : ℚ) ^ e ≤ x)
    (h2 : x < (2 : ℚ) ^ (e + 1)) (he : -126 ≤ e) (hf1 : (f : ℚ) + 1 / 2 < x / 2 ^ (e - 23))
    (hf2 : x / 2 ^ (e - 23) < (f : ℚ) + 1) (hr : r = ((f + 1 : Int) : ℚ) * 2 ^ (e - 23))
    (hb : |r| < 2 ^ 128) : roundToFloat x = some r := by
  have hpos : 0 < x := lt_of_lt_of_le (by positivity) h1
  rw [hr] at hb ⊢
  exact roundToFloat_of_binade x e (f + 1) (by rw [abs_of_pos hpos]; exact h1)
    (by rw [abs_of_pos hpos]; exact h2) he (roundHalfEven_of_gt _ _ hf1 hf2) hb

/-! ## The coordinate transform in binary32 -/

theorem roundToFloat_256 : roundToFloat 256 = some 256 := by
  have h := roundToFloat_intCast 256 (by decide)
  exact_mod_cast h

theorem roundToFloat_128 : roundToFloat 128 = some 128 := by
  have h := roundToFloat_intCast 128 (by decide)
  exact_mod_cast h

theorem chunkSizeF32 (w sc : Int) (h : w * sc = 256) :
    (mulInt w sc).bind intToFloat = some 256 := by
  unfold mulInt
  rw [h, if_pos (by decide), some_bind_eq, intToFloat]
  exact_mod_cast roundToFloat_256

theorem getChunkCoordsF32_of_centred (s : TestScene)
    (hW : s._chunkWidth * s._chunkScale = 256) (hH : s._chunkHeight * s._chunkScale = 256)
    (hx : IsBinary32 s._camera.x) (hy : IsBinary32 s._camera.y) :
    getChunkCoordsF32 s s.halfWidth s.halfHeight
      = (roundToFloat (s._camera.x + 128)).bind (fun a =>
          (roundToFloat (s._camera.y + 128)).bind (fun b => some ⟨a / 256, b / 256⟩)) := by
  unfold IsBinary32 at hx hy
  have e0 : divFloat 256 2 = some 128 := by
    rw [divFloat, if_neg (by norm_num)]
    norm_num
    exact roundToFloat_128
  have e1 : ∀ a : ℚ, divFloat a 256 = roundToFloat (a / 256) := by
    intro a
    rw [divFloat, if_neg (by norm_num)]
  simp only [getChunkCoordsF32, getWorldCoordsF32, subFloat, addFloat, sub_self, roundToFloat_zero,
    add_zero, hx, hy, chunkSizeF32 _ _ hW, chunkSizeF32 _ _ hH, e0, e1, Option.bind_eq_bind,
    some_bind_eq, Option.pure_def]
  cases ha : roundToFloat (s._camera.x + 128) with
  | none => rfl
  | some a =>
    rw [some_bind_eq, some_bind_eq, roundToFloat_div_256 _ a hx ha, some_bind_eq]
    cases hb : roundToFloat (s._camera.y + 128) with
    | none => rfl
    | some b => rw [some_bind_eq, some_bind_eq, roundToFloat_div_256 _ b hy hb, some_bind_eq]

/-- With the camera shape centred on the screen the two transforms of the camera position
come to the rounded sums of the camera coordinates and half a chunk, divided by the chunk
size. -/
theorem getCameraChunkCoordsF32_of_centred (s : TestScene)
    (hW : s._chunkWidth * s._chunkScale = 256) (hH : s._chunkHeight * s._chunkScale = 256)
    (hsx : addFloat s._cameraShapePosition.x s._cameraRadius = some s.halfWidth)
    (hsy : addFloat s._cameraShapePosition.y s._cameraRadius = some s.halfHeight)
    (hx : IsBinary32 s._camera.x) (hy : IsBinary32 s._camera.y) :
    getCameraChunkCoordsF32 s
      = (roundToFloat (s._camera.x + 128)).bind (fun a =>
          (roundToFloat (s._camera.y + 128)).bind (fun b => some ⟨a / 256, b / 256⟩)) := by
  simp only [getCameraChunkCoordsF32, hsx, hsy, Option.bind_eq_bind, Option.some_bind]
  exact getChunkCoordsF32_of_centred s hW hH hx hy

theorem getCurrentChunkCoordsF32_of_centred (s : TestScene)
    (hW : s._chunkWidth * s._chunkScale = 256) (hH : s._chunkHeight * s._chunkScale = 256)
    (hsx : addFloat s._cameraShapePosition.x s._cameraRadius = some s.halfWidth)
    (hsy : addFloat s._cameraShapePosition.y s._cameraRadius = some s.halfHeight)
    (hx : IsBinary32 s._camera.x) (hy : IsBinary32 s._camera.y) :
    getCurrentChunkCoordsF32 s
      = (roundToFloat (s._camera.x + 128)).bind (fun a =>
          (roundToFloat (s._camera.y + 128)).bind (fun b =>
            (floorToInt (a / 256)).bind (fun cx =>
              (floorToInt (b / 256)).bind (fun cy => some ⟨cx, cy⟩)))) := by
  simp only [getCurrentChunkCoordsF32, hsx, hsy, Option.bind_eq_bind, Option.some_bind,
    getChunkCoordsF32_of_centred s hW hH hx hy, Option.pure_def]
  cases roundToFloat (s._camera.x + 128) with
  | none => rfl
  | some a =>
    cases roundToFloat (s._camera.y + 128) with
    | none => rfl
    | some b => rfl

theorem floorToInt_eq_some_iff (q : ℚ) (c : Int) :
    floorToInt (q / 256) = some c
      ↔ (c : ℚ) * 256 ≤ q ∧ q < ((c : ℚ) + 1) * 256 ∧ -2 ^ 31 ≤ c ∧ c < 2 ^ 31 := by
  unfold floorToInt
  constructor
  · intro h
    split_ifs at h with hr
    have hc := Option.some.inj h
    rw [hc] at hr
    rw [Int.floor_eq_iff, le_div_iff₀ (by norm_num), div_lt_iff₀ (by norm_num)] at hc
    exact ⟨hc.1, hc.2, hr.1, hr.2⟩
  · rintro ⟨h1, h2, h3, h4⟩
    have hc : Int.floor (q / 256) = c := by
      rw [Int.floor_eq_iff, le_div_iff₀ (by norm_num), div_lt_iff₀ (by norm_num)]
      exact ⟨h1, h2⟩
    rw [hc, if_pos ⟨h3, h4⟩]

/-- One axis of the current chunk: the rounded sum, divided and floored, is `c` exactly
when the rounded sum lies in `[c * 256, (c + 1) * 256)` and `c` fits an `int`. -/
theorem chunkAxisF32_iff (z : ℚ) (c : Int) :
    (roundToFloat z).bind (fun a => floorToInt (a / 256)) = some c
      ↔ (c : ℚ) * 256 ≤ roundNearest z ∧ roundNearest z < ((c : ℚ) + 1) * 256
        ∧ -2 ^ 31 ≤ c ∧ c < 2 ^ 31 := by
  cases ha : roundToFloat z with
  | none =>
    simp only [Option.none_bind, false_iff, reduceCtorEq]
    rintro ⟨h1, h2, h3, h4⟩
    unfold roundToFloat at ha
    split_ifs at ha with hb
    apply hb
    have c1 : (c : ℚ) < 2 ^ 31 := by exact_mod_cast h4
    have c2 : (-2 ^ 31 : ℚ) ≤ (c : ℚ) := by exact_mod_cast h3
    rw [abs_lt]
    constructor
    · calc (-(2 : ℚ) ^ 128) < -2 ^ 31 * 256 := by norm_num
        _ ≤ (c : ℚ) * 256 := by linarith
        _ ≤ roundNearest z := h1
    · calc roundNearest z < ((c : ℚ) + 1) * 256 := h2
        _ ≤ (2 ^ 31 + 1) * 256 := by linarith
        _ < 2 ^ 128 := by norm_num
  | some a =>
    obtain ⟨har, _⟩ := abs_lt_of_roundToFloat z a ha
    rw [Option.some_bind, floorToInt_eq_some_iff, har]

theorem bind_axes_eq_some_iff (ox oy : Option ℚ) (f g : ℚ → Option Int) (cx cy : Int) :
    ox.bind (fun a => oy.bind (fun b => (f a).bind (fun x => (g b).bind (fun y =>
        some (Vector2i.mk x y))))) = some ⟨cx, cy⟩
      ↔ ox.bind f = some cx ∧ oy.bind g = some cy := by
  cases ox with
  | none => simp
  | some a =>
    cases oy with
    | none => simp
    | some b =>
      cases hf : f a with
      | none => simp [hf]
      | some x =>
        cases hg : g b with
        | none => simp [hg]
        | some y => simp [hf, hg]

theorem IsBinary32_intCast (n : Int) (hn : |n| < 2 ^ 24) : IsBinary32 (n : ℚ) :=
  roundToFloat_intCast n hn

theorem IsBinary32_zero : IsBinary32 0 :=
  roundToFloat_zero

theorem constants_cameraAt (x y : ℚ) :
    constants (cameraAt x y) = (25, ⟨400 - 25, 300 - 25⟩, 1000, 64, 64, 4, 400, 300) :=
  constants_new false 400 300

/-- The current chunk of a camera at binary32 coordinates, by the rounded sums of the
coordinates and half a chunk. -/
theorem getCurrentChunkCoordsF32_iff (s : TestScene) (cx cy : Int)
    (hW : s._chunkWidth * s._chunkScale = 256) (hH : s._chunkHeight * s._chunkScale = 256)
    (hsx : addFloat s._cameraShapePosition.x s._cameraRadius = some s.halfWidth)
    (hsy : addFloat s._cameraShapePosition.y s._cameraRadius = some s.halfHeight)
    (hx : IsBinary32 s._camera.x) (hy : IsBinary32 s._camera.y) :
    getCurrentChunkCoordsF32 s = some ⟨cx, cy⟩ ↔
      ((cx : ℚ) * 256 ≤ roundNearest (s._camera.x + 128)
        ∧ roundNearest (s._camera.x + 128) < ((cx : ℚ) + 1) * 256
        ∧ -2 ^ 31 ≤ cx ∧ cx < 2 ^ 31)
      ∧ ((cy : ℚ) * 256 ≤ roundNearest (s._camera.y + 128)
        ∧ roundNearest (s._camera.y + 128) < ((cy : ℚ) + 1) * 256
        ∧ -2 ^ 31 ≤ cy ∧ cy < 2 ^ 31) := by
  rw [getCurrentChunkCoordsF32_of_centred s hW hH hsx hsy hx hy, bind_axes_eq_some_iff,
    chunkAxisF32_iff, chunkAxisF32_iff]

theorem roundToFloat_400 : roundToFloat 400 = some 400 := by
  have h := roundToFloat_intCast 400 (by decide)
  exact_mod_cast h

theorem roundToFloat_300 : roundToFloat 300 = some 300 := by
  have h := roundToFloat_intCast 300 (by decide)
  exact_mod_cast h

/-- A scene with the constants of the constructed scene of an 800 by 600 screen has chunks
of 256 by 256 units and its camera shape centred on the screen, in binary32 too. -/
theorem centred_of_constants (s : TestScene)
    (h : constants s = (25, ⟨400 - 25, 300 - 25⟩, 1000, 64, 64, 4, 400, 300)) :
    s._chunkWidth * s._chunkScale = 256
    ∧ s._chunkHeight * s._chunkScale = 256
    ∧ addFloat s._cameraShapePosition.x s._cameraRadius = some s.halfWidth
    ∧ addFloat s._cameraShapePosition.y s._cameraRadius = some s.halfHeight := by
  simp only [constants, Prod.mk.injEq] at h
  obtain ⟨h1, h2, h3, h4, h5, h6, h7, h8⟩ := h
  refine ⟨by rw [h4, h6]; decide, by rw [h5, h6]; decide, ?_, ?_⟩
  · rw [h2, h1, h7]
    simp only [addFloat]
    norm_num
    exact roundToFloat_400
  · rw [h2, h1, h8]
    simp only [addFloat]
    norm_num
    exact roundToFloat_300

theorem chunk_facts_cameraAt (x y : ℚ) :
    (cameraAt x y)._chunkWidth * (cameraAt x y)._chunkScale = 256
    ∧ (cameraAt x y)._chunkHeight * (cameraAt x y)._chunkScale = 256
    ∧ addFloat (cameraAt x y)._cameraShapePosition.x (cameraAt x y)._cameraRadius
        = some (cameraAt x y).halfWidth
    ∧ addFloat (cameraAt x y)._cameraShapePosition.y (cameraAt x y)._cameraRadius
        = some (cameraAt x y).halfHeight
    ∧ (cameraAt x y)._camera = ⟨x, y⟩ := by
  obtain ⟨h1, h2, h3, h4⟩ := centred_of_constants _ (constants_cameraAt x y)
  exact ⟨h1, h2, h3, h4, rfl⟩

/-- C11, as the code has it in binary32: with `W = H = 256`, the constructor's
`width * scale`, the camera shape centred on the screen and a camera position `(x, y)` of
binary32 values, `getCurrentChunkCoords` returns `(cx, cy)` exactly when the rounded sum
`fl(x + W / 2)` lies in `[cx * W, (cx + 1) * W)`, the rounded sum `fl(y + H / 2)` in
`[cy * H, (cy + 1) * H)`, and `cx` and `cy` fit an `int`.  Where the two sums are binary32
values themselves, and so are not rounded, this is `cx * W - W / 2 ≤ x < cx * W + W / 2`
and `cy * H - H / 2 ≤ y < cy * H + H / 2`.  A camera at the origin has the fractional chunk
coordinate `(1/2, 1/2)` and the current chunk `(0, 0)`. -/
theorem current_chunk_of_rounded_sum (s : TestScene) (cx cy : Int)
    (hW : s._chunkWidth * s._chunkScale = 256) (hH : s._chunkHeight * s._chunkScale = 256)
    (hsx : addFloat s._cameraShapePosition.x s._cameraRadius = some s.halfWidth)
    (hsy : addFloat s._cameraShapePosition.y s._cameraRadius = some s.halfHeight)
    (hx : IsBinary32 s._camera.x) (hy : IsBinary32 s._camera.y) :
    (getCurrentChunkCoordsF32 s = some ⟨cx, cy⟩ ↔
      ((cx : ℚ) * 256 ≤ roundNearest (s._camera.x + 128)
        ∧ roundNearest (s._camera.x + 128) < ((cx : ℚ) + 1) * 256
        ∧ -2 ^ 31 ≤ cx ∧ cx < 2 ^ 31)
      ∧ ((cy : ℚ) * 256 ≤ roundNearest (s._camera.y + 128)
        ∧ roundNearest (s._camera.y + 128) < ((cy : ℚ) + 1) * 256
        ∧ -2 ^ 31 ≤ cy ∧ cy < 2 ^ 31))
    ∧ (IsBinary32 (s._camera.x + 128) → IsBinary32 (s._camera.y + 128) →
        (getCurrentChunkCoordsF32 s = some ⟨cx, cy⟩ ↔
          ((cx : ℚ) * 256 - 256 / 2 ≤ s._camera.x ∧ s._camera.x < (cx : ℚ) * 256 + 256 / 2
            ∧ -2 ^ 31 ≤ cx ∧ cx < 2 ^ 31)
          ∧ ((cy : ℚ) * 256 - 256 / 2 ≤ s._camera.y ∧ s._camera.y < (cy : ℚ) * 256 + 256 / 2
            ∧ -2 ^ 31 ≤ cy ∧ cy < 2 ^ 31)))
    ∧ (s._camera = ⟨0, 0⟩ →
        getCameraChunkCoordsF32 s = some ⟨1 / 2, 1 / 2⟩
        ∧ getCurrentChunkCoordsF32 s = some ⟨0, 0⟩) := by
  have hiff := getCurrentChunkCoordsF32_iff s cx cy hW hH hsx hsy hx hy
  refine ⟨hiff, ?_, ?_⟩
  · intro hxs hys
    rw [hiff, roundNearest_of_IsBinary32 _ hxs, roundNearest_of_IsBinary32 _ hys]
    constructor
    · rintro ⟨⟨h1, h2, h3, h4⟩, h5, h6, h7, h8⟩
      exact ⟨⟨by linarith, by linarith, h3, h4⟩, by linarith, by linarith, h7, h8⟩
    · rintro ⟨⟨h1, h2, h3, h4⟩, h5, h6, h7, h8⟩
      exact ⟨⟨by linarith, by linarith, h3, h4⟩, by linarith, by linarith, h7, h8⟩
  · intro hcam
    have e : roundToFloat ((0 : ℚ) + 128) = some 128 := by
      rw [zero_add]
      exact roundToFloat_128
    rw [getCameraChunkCoordsF32_of_centred s hW hH hsx hsy hx hy,
      getCurrentChunkCoordsF32_of_centred s hW hH hsx hsy hx hy, hcam]
    simp only [e, Option.some_bind]
    constructor
    · norm_num
    · have hf : floorToInt ((128 : ℚ) / 256) = some 0 := by
        rw [floorToInt_eq_some_iff]
        norm_num
      rw [hf]
      rfl


/-- C11 at a negative position: with the camera 129 units left of the origin the current
chunk is `(-1, 0)`, the floor and not the truncation of `-1/256`. -/
theorem current_chunk_of_rounded_sum_witness :
    getCurrentChunkCoordsF32 (cameraAt (-129) 0) = some ⟨-1, 0⟩ := by
  obtain ⟨hW, hH, hsx, hsy, hcam⟩ := chunk_facts_cameraAt (-129) 0
  have e1 : IsBinary32 (-129 : ℚ) := by
    have h := IsBinary32_intCast (-129) (by decide)
    exact_mod_cast h
  have e2 : IsBinary32 (-129 + 128 : ℚ) := by
    have h := IsBinary32_intCast (-1) (by decide)
    norm_num
    exact_mod_cast h
  have e3 : IsBinary32 ((0 : ℚ) + 128) := by
    rw [zero_add]
    exact roundToFloat_128
  apply ((current_chunk_of_rounded_sum (cameraAt (-129) 0) (-1) 0 hW hH hsx hsy
    (by rw [hcam]; exact e1) (by rw [hcam]; exact IsBinary32_zero)).2.1
    (by rw [hcam]; exact e2) (by rw [hcam]; exact e3)).mpr
  rw [hcam]
  norm_num

/-! ## The displacement in binary32 -/

/-- The displacement in closed form: one product, then the two statements of each axis. -/
theorem moveCameraF32_eq (elapsed : ℚ) (s : TestScene) :
    moveCameraF32 elapsed s
      = if s._isArrowKeyUp || s._isArrowKeyDown || s._isArrowKeyLeft || s._isArrowKeyRight then
          (mulFloat s._cameraSpeed elapsed).bind (fun d =>
            (displaceF32 s._isArrowKeyUp s._isArrowKeyDown s._camera.y d).bind (fun y =>
              (displaceF32 s._isArrowKeyLeft s._isArrowKeyRight s._camera.x d).bind (fun x =>
                some { s with _camera := ⟨x, y⟩ })))
        else some s := by
  unfold moveCameraF32 displaceF32
  cases hu : s._isArrowKeyUp <;> cases hd : s._isArrowKeyDown <;> cases hl : s._isArrowKeyLeft <;>
    cases hr : s._isArrowKeyRight <;>
    simp only [Bool.or_false, Bool.or_true, Bool.true_or, Bool.false_or, if_true, if_false,
      Bool.false_eq_true, Option.bind_eq_bind, Option.pure_def, Option.some_bind, hu, hd, hl, hr] <;>
    cases mulFloat s._cameraSpeed elapsed <;>
    simp only [Option.some_bind, Option.none_bind, Option.bind_assoc]

theorem moveCameraF32_frame (elapsed : ℚ) (s s1 : TestScene)
    (h : moveCameraF32 elapsed s = some s1) : ∃ c : Vector2f, s1 = { s with _camera := c } := by
  rw [moveCameraF32_eq] at h
  split_ifs at h
  · cases hd : mulFloat s._cameraSpeed elapsed with
    | none => rw [hd] at h; exact absurd h (by simp)
    | some d =>
      rw [hd, Option.some_bind] at h
      cases hy : displaceF32 s._isArrowKeyUp s._isArrowKeyDown s._camera.y d with
      | none => rw [hy] at h; exact absurd h (by simp)
      | some y =>
        rw [hy, Option.some_bind] at h
        cases hx : displaceF32 s._isArrowKeyLeft s._isArrowKeyRight s._camera.x d with
        | none => rw [hx] at h; exact absurd h (by simp)
        | some x =>
          rw [hx, Option.some_bind] at h
          exact ⟨⟨x, y⟩, (Option.some.inj h).symm⟩
  · exact ⟨s._camera, (Option.some.inj h).symm⟩

theorem updateChunkBorderF32_frame (s s1 : TestScene) (h : updateChunkBorderF32 s = some s1) :
    ∃ l : List Chunk, s1 = { s with _chunks := l } := by
  unfold updateChunkBorderF32 at h
  cases hp : getCameraChunkCoordsF32 s with
  | none => rw [hp] at h; exact absurd h (by simp)
  | some p =>
    rw [hp] at h
    exact ⟨_, (Option.some.inj h).symm⟩

theorem checkChunkBoundariesF32_frame (border0 : Bool) (s : TestScene) (r : Bool × TestScene)
    (h : checkChunkBoundariesF32 border0 s = some r) :
    ∃ (l : List Chunk) (w : Window), r.2 = { s with
        _chunks := l
        _minChunkColumn := w.minColumn
        _maxChunkColumn := w.maxColumn
        _minChunkRow := w.minRow
        _maxChunkRow := w.maxRow } := by
  unfold checkChunkBoundariesF32 at h
  cases hc : getCurrentChunkCoordsF32 s with
  | none => rw [hc] at h; exact absurd h (by simp)
  | some c =>
    rw [hc] at h
    simp only [Option.bind_eq_bind, Option.some_bind, Option.pure_def, createChunks_eq] at h
    split_ifs at h <;> rw [← Option.some.inj h]
    · exact ⟨_, ⟨_, _, _, _⟩, rfl⟩
    · exact ⟨_, ⟨_, _, _, _⟩, rfl⟩
    · exact ⟨_, ⟨_, _, _, _⟩, rfl⟩
    · exact ⟨_, ⟨_, _, _, _⟩, rfl⟩
    · exact ⟨s._chunks, ⟨s._minChunkColumn, s._maxChunkColumn, s._minChunkRow, s._maxChunkRow⟩, rfl⟩

/-- A tick in binary32 that returns has moved the camera as `moveCameraF32` does and left
the flags and the constants as they were. -/
theorem updateSceneF32_frame (border0 : Bool) (elapsed : ℚ) (s s2 : TestScene)
    (h : updateSceneF32 border0 elapsed s = some s2) :
    ∃ s1 : TestScene, moveCameraF32 elapsed s = some s1 ∧ s2._camera = s1._camera
      ∧ flags s2 = flags s ∧ constants s2 = constants s := by
  unfold updateSceneF32 at h
  cases h1 : moveCameraF32 elapsed s with
  | none => rw [h1] at h; exact absurd h (by simp)
  | some s1 =>
    rw [h1] at h
    simp only [Option.bind_eq_bind, Option.some_bind] at h
    cases h2 : updateChunkBorderF32 s1 with
    | none => rw [h2] at h; exact absurd h (by simp)
    | some sb =>
      rw [h2, Option.some_bind] at h
      cases h3 : checkChunkBoundariesF32 border0 sb with
      | none => rw [h3] at h; exact absurd h (by simp)
      | some r =>
        rw [h3, Option.some_bind] at h
        obtain ⟨c, hc⟩ := moveCameraF32_frame elapsed s s1 h1
        obtain ⟨l, hl⟩ := updateChunkBorderF32_frame s1 sb h2
        obtain ⟨l2, w, hr⟩ := checkChunkBoundariesF32_frame border0 sb r h3
        obtain ⟨b, r2⟩ := r
        have hs2 := (Option.some.inj h).symm
        simp only at hr hs2
        subst hr hl hc
        refine ⟨_, rfl, ?_⟩
        cases b
        · rw [hs2]
          exact ⟨rfl, rfl, rfl⟩
        · rw [hs2]
          exact ⟨rfl, rfl, rfl⟩

/-- A tick in binary32 returns when the displacement and the two transforms of the
displaced camera do. -/
theorem updateSceneF32_isSome (border0 : Bool) (elapsed : ℚ) (s s1 : TestScene) (p : Vector2f)
    (c : Vector2i) (h1 : moveCameraF32 elapsed s = some s1)
    (h2 : getCameraChunkCoordsF32 s1 = some p) (h3 : getCurrentChunkCoordsF32 s1 = some c) :
    ∃ s2 : TestScene, updateSceneF32 border0 elapsed s = some s2 := by
  have h4 : ∀ l : List Chunk, getCurrentChunkCoordsF32 { s1 with _chunks := l } = some c :=
    fun _ => h3
  unfold updateSceneF32
  simp only [h1, Option.bind_eq_bind, Option.some_bind, updateChunkBorderF32, h2, Option.pure_def,
    checkChunkBoundariesF32, h4]
  split_ifs <;> exact ⟨_, rfl⟩


/-- The two transforms of a camera at binary32 coordinates return when the rounded sums
of the coordinates and half a chunk are of magnitude below `2^39`. -/
theorem transforms_isSome (s : TestScene)
    (h : constants s = (25, ⟨400 - 25, 300 - 25⟩, 1000, 64, 64, 4, 400, 300))
    (hx : IsBinary32 s._camera.x) (hy : IsBinary32 s._camera.y) (a b : ℚ)
    (ha : roundToFloat (s._camera.x + 128) = some a) (hb : roundToFloat (s._camera.y + 128) = some b)
    (ha2 : |a| < 2 ^ 39) (hb2 : |b| < 2 ^ 39) :
    getCameraChunkCoordsF32 s = some ⟨a / 256, b / 256⟩
    ∧ getCurrentChunkCoordsF32 s = some ⟨Int.floor (a / 256), Int.floor (b / 256)⟩ := by
  obtain ⟨hW, hH, hsx, hsy⟩ := centred_of_constants s h
  have hfloor : ∀ q : ℚ, |q| < 2 ^ 39 → floorToInt (q / 256) = some (Int.floor (q / 256)) := by
    intro q hq
    obtain ⟨q1, q2⟩ := abs_lt.mp hq
    unfold floorToInt
    rw [if_pos]
    constructor
    · apply Int.le_floor.mpr
      rw [le_div_iff₀ (by norm_num)]
      push_cast
      linarith
    · apply Int.floor_lt.mpr
      rw [div_lt_iff₀ (by norm_num)]
      push_cast
      linarith
  rw [getCameraChunkCoordsF32_of_centred s hW hH hsx hsy hx hy,
    getCurrentChunkCoordsF32_of_centred s hW hH hsx hsy hx hy, ha, hb]
  simp only [Option.some_bind, hfloor a ha2, hfloor b hb2, and_self]

theorem displaceF32_none (c d : ℚ) : displaceF32 false false c d = some c := by
  simp [displaceF32]

theorem displaceF32_plus (c d : ℚ) : displaceF32 false true c d = addFloat c d := by
  simp [displaceF32]

theorem displaceF32_minus (c d : ℚ) : displaceF32 true false c d = subFloat c d := by
  simp [displaceF32]

theorem displaceF32_both (c d : ℚ) :
    displaceF32 true true c d = (subFloat c d).bind (fun c1 => addFloat c1 d) := by
  simp [displaceF32]

/-- The displacement of a scene whose flags, speed and camera are known. -/
theorem moveCameraF32_of_flags (elapsed : ℚ) (s : TestScene) (down up left right : Bool)
    (d x y : ℚ) (hf : flags s = (down, up, left, right))
    (hany : (up || down || left || right) = true)
    (hd : mulFloat s._cameraSpeed elapsed = some d)
    (hy : displaceF32 up down s._camera.y d = some y)
    (hx : displaceF32 left right s._camera.x d = some x) :
    moveCameraF32 elapsed s = some { s with _camera := ⟨x, y⟩ } := by
  simp only [flags, Prod.mk.injEq] at hf
  obtain ⟨f1, f2, f3, f4⟩ := hf
  rw [moveCameraF32_eq, f1, f2, f3, f4, if_pos hany, hd, some_bind_eq, hy, some_bind_eq, hx,
    some_bind_eq]

/-- A tick in binary32 of a scene with the constants of the constructed scene of an 800 by
600 screen, by the camera the displacement gives. -/
theorem updateSceneF32_tick (border0 : Bool) (elapsed : ℚ) (s : TestScene) (cam : Vector2f)
    (a b : ℚ) (hc : constants s = (25, ⟨400 - 25, 300 - 25⟩, 1000, 64, 64, 4, 400, 300))
    (hm : moveCameraF32 elapsed s = some { s with _camera := cam })
    (hx : IsBinary32 cam.x) (hy : IsBinary32 cam.y)
    (ha : roundToFloat (cam.x + 128) = some a) (hb : roundToFloat (cam.y + 128) = some b)
    (ha2 : |a| < 2 ^ 39) (hb2 : |b| < 2 ^ 39) :
    ∃ s2 : TestScene, updateSceneF32 border0 elapsed s = some s2 ∧ s2._camera = cam
      ∧ flags s2 = flags s
      ∧ constants s2 = (25, ⟨400 - 25, 300 - 25⟩, 1000, 64, 64, 4, 400, 300) := by
  obtain ⟨h2, h3⟩ := transforms_isSome { s with _camera := cam } hc hx hy a b ha hb ha2 hb2
  obtain ⟨s2, hs2⟩ := updateSceneF32_isSome border0 elapsed s _ _ _ hm h2 h3
  obtain ⟨s1, h4, h5, h6, h7⟩ := updateSceneF32_frame border0 elapsed s s2 hs2
  rw [hm] at h4
  refine ⟨s2, hs2, ?_, h6, h7.trans hc⟩
  rw [h5, ← Option.some.inj h4]

/-- Where the product and the sums of the displacement are binary32 values, so that no
operation rounds, the displacement in binary32 is the exact one. -/
theorem moveCameraF32_exact (elapsed : ℚ) (s : TestScene)
    (hd : IsBinary32 (s._cameraSpeed * elapsed))
    (hy1 : IsBinary32 (s._camera.y - s._cameraSpeed * elapsed * flagValue s._isArrowKeyUp))
    (hy2 : IsBinary32 (s._camera.y - s._cameraSpeed * elapsed * flagValue s._isArrowKeyUp
      + s._cameraSpeed * elapsed * flagValue s._isArrowKeyDown))
    (hx1 : IsBinary32 (s._camera.x - s._cameraSpeed * elapsed * flagValue s._isArrowKeyLeft))
    (hx2 : IsBinary32 (s._camera.x - s._cameraSpeed * elapsed * flagValue s._isArrowKeyLeft
      + s._cameraSpeed * elapsed * flagValue s._isArrowKeyRight)) :
    moveCameraF32 elapsed s = some (moveCamera elapsed s) := by
  rw [moveCameraF32_eq, moveCamera_eq]
  unfold IsBinary32 at hd hy1 hy2 hx1 hx2
  cases hu : s._isArrowKeyUp <;> cases hdn : s._isArrowKeyDown <;>
    cases hl : s._isArrowKeyLeft <;> cases hr : s._isArrowKeyRight <;>
    simp only [hu, hdn, hl, hr, flagValue, Bool.false_eq_true, if_false, if_true, mul_zero, mul_one,
      sub_zero, add_zero, sub_add_cancel] at hy1 hy2 hx1 hx2 <;>
    simp [displaceF32, mulFloat, subFloat, addFloat, hd, hy1, hy2, hx1, hx2, flagValue, hu, hdn,
      hl, hr] <;>
    first
      | rfl
      | ring1
      | (constructor <;> ring1)
      | (cases s; simp_all)

/-- C13, as the code has it in binary32: with `d = fl(speed * elapsed)`, a tick with a
direction flag set takes the camera's `y` to `fl(y - d)` when the up flag is set and then to
`fl(y + d)` when the down flag is set, and its `x` to `fl(x - d)` when the left flag is set
and then to `fl(x + d)` when the right flag is set: both axes change on diagonal input,
neither is normalised, and with opposite flags set a coordinate `c` becomes
`fl(fl(c - d) + d)`.  With no flag set the camera stays where it is.  Where the product
and the sums are binary32 values, so that no operation rounds, the camera moves by exactly
`speed * elapsed * (right - left)` and `speed * elapsed * (down - up)`.  A tick that returns
has the camera of the displacement and the flags it started with; it returns when the
displacement and the two transforms of the displaced camera do.  The boundary check
with its slide, the cleanup and the highlight refresh change neither the camera position
nor the flags. -/
theorem displacement_in_binary32 (border0 : Bool) (elapsed : ℚ) (s : TestScene) :
    (moveCameraF32 elapsed s
        = if s._isArrowKeyUp || s._isArrowKeyDown || s._isArrowKeyLeft || s._isArrowKeyRight then
            (mulFloat s._cameraSpeed elapsed).bind (fun d =>
              (displaceF32 s._isArrowKeyUp s._isArrowKeyDown s._camera.y d).bind (fun y =>
                (displaceF32 s._isArrowKeyLeft s._isArrowKeyRight s._camera.x d).bind (fun x =>
                  some { s with _camera := ⟨x, y⟩ })))
          else some s)
    ∧ (∀ c d : ℚ, displaceF32 false false c d = some c
        ∧ displaceF32 true false c d = subFloat c d
        ∧ displaceF32 false true c d = addFloat c d
        ∧ displaceF32 true true c d = (subFloat c d).bind (fun c1 => addFloat c1 d))
    ∧ (flags s = (false, false, false, false) → moveCameraF32 elapsed s = some s)
    ∧ (IsBinary32 (s._cameraSpeed * elapsed) →
        IsBinary32 (s._camera.y - s._cameraSpeed * elapsed * flagValue s._isArrowKeyUp) →
        IsBinary32 (s._camera.y - s._cameraSpeed * elapsed * flagValue s._isArrowKeyUp
          + s._cameraSpeed * elapsed * flagValue s._isArrowKeyDown) →
        IsBinary32 (s._camera.x - s._cameraSpeed * elapsed * flagValue s._isArrowKeyLeft) →
        IsBinary32 (s._camera.x - s._cameraSpeed * elapsed * flagValue s._isArrowKeyLeft
          + s._cameraSpeed * elapsed * flagValue s._isArrowKeyRight) →
        moveCameraF32 elapsed s = some { s with _camera :=
          ⟨s._camera.x + s._cameraSpeed * elapsed
              * (flagValue s._isArrowKeyRight - flagValue s._isArrowKeyLeft),
           s._camera.y + s._cameraSpeed * elapsed
              * (flagValue s._isArrowKeyDown - flagValue s._isArrowKeyUp)⟩ })
    ∧ (∀ s2 : TestScene, updateSceneF32 border0 elapsed s = some s2 →
        (moveCameraF32 elapsed s).map (fun s1 => s1._camera) = some s2._camera
        ∧ flags s2 = flags s)
    ∧ (∀ (s1 : TestScene) (p : Vector2f) (c : Vector2i), moveCameraF32 elapsed s = some s1 →
        getCameraChunkCoordsF32 s1 = some p → getCurrentChunkCoordsF32 s1 = some c →
        ∃ s2 : TestScene, updateSceneF32 border0 elapsed s = some s2)
    ∧ (∀ r : Bool × TestScene, checkChunkBoundariesF32 border0 s = some r →
        r.2._camera = s._camera ∧ flags r.2 = flags s)
    ∧ ((cleanupChunks s)._camera = s._camera ∧ flags (cleanupChunks s) = flags s)
    ∧ (∀ s1 : TestScene, updateChunkBorderF32 s = some s1 →
        s1._camera = s._camera ∧ flags s1 = flags s) := by
  refine ⟨moveCameraF32_eq elapsed s, ?_, ?_, ?_, ?_, ?_, ?_, ⟨rfl, rfl⟩, ?_⟩
  · intro c d
    simp [displaceF32]
  · intro h
    simp only [flags, Prod.mk.injEq] at h
    obtain ⟨h1, h2, h3, h4⟩ := h
    rw [moveCameraF32_eq, h1, h2, h3, h4]
    rfl
  · intro hd hy1 hy2 hx1 hx2
    rw [moveCameraF32_exact elapsed s hd hy1 hy2 hx1 hx2, moveCamera_eq]
  · intro s2 h
    obtain ⟨s1, h1, h2, h3, _⟩ := updateSceneF32_frame border0 elapsed s s2 h
    rw [h1, Option.map_some', h2]
    exact ⟨rfl, h3⟩
  · intro s1 p c h1 h2 h3
    exact updateSceneF32_isSome border0 elapsed s s1 p c h1 h2 h3
  · intro r h
    obtain ⟨l, w, hr⟩ := checkChunkBoundariesF32_frame border0 s r h
    rw [hr]
    exact ⟨rfl, rfl⟩
  · intro s1 h
    obtain ⟨l, hl⟩ := updateChunkBorderF32_frame s s1 h
    rw [hl]
    exact ⟨rfl, rfl⟩

/-- C13 at a diagonal tick: with the right and the down key held in the constructed scene,
a tick of 0.125 s returns and has moved the camera by 125 units on both axes; the flags
are as before. -/
theorem displacement_in_binary32_witness :
    (updateSceneF32 false (1 / 8) rightAndDownHeld).map (fun s => (s._camera, flags s))
      = some (⟨125, 125⟩, (true, false, false, true)) := by
  obtain ⟨hmove, hdisp, _, _, hframe, hsome, _⟩ := displacement_in_binary32 false (1 / 8) rightAndDownHeld
  have hc : constants rightAndDownHeld = (25, ⟨400 - 25, 300 - 25⟩, 1000, 64, 64, 4, 400, 300) :=
    constants_new false 400 300
  have hspeed : rightAndDownHeld._cameraSpeed = 1000 := by
    simp only [constants, Prod.mk.injEq] at hc
    exact hc.2.2.1
  have e125 : roundToFloat 125 = some 125 := by
    have h := roundToFloat_intCast 125 (by decide)
    exact_mod_cast h
  have e253 : roundToFloat ((125 : ℚ) + 128) = some 253 := by
    have h := roundToFloat_intCast 253 (by decide)
    norm_num
    exact_mod_cast h
  have hmul : mulFloat 1000 (1 / 8) = some 125 := by
    rw [mulFloat]
    norm_num
    exact e125
  have hadd : addFloat 0 125 = some 125 := by
    rw [addFloat, zero_add]
    exact e125
  have h1 : moveCameraF32 (1 / 8) rightAndDownHeld
      = some { rightAndDownHeld with _camera := ⟨125, 125⟩ } := by
    rw [hmove]
    simp only [show rightAndDownHeld._isArrowKeyUp = false from rfl,
      show rightAndDownHeld._isArrowKeyDown = true from rfl,
      show rightAndDownHeld._isArrowKeyLeft = false from rfl,
      show rightAndDownHeld._isArrowKeyRight = true from rfl,
      show rightAndDownHeld._camera = ⟨0, 0⟩ from rfl, hspeed, hmul, (hdisp _ _).2.2.1, hadd,
      some_bind_eq, Bool.or_true, Bool.true_or, if_true]
  obtain ⟨h2, h3⟩ := transforms_isSome { rightAndDownHeld with _camera := ⟨125, 125⟩ } hc
    e125 e125 253 253 e253 e253
    (by rw [abs_of_pos (by norm_num)]; norm_num) (by rw [abs_of_pos (by norm_num)]; norm_num)
  obtain ⟨s2, hs2⟩ := hsome _ _ _ h1 h2 h3
  obtain ⟨h4, h5⟩ := hframe s2 hs2
  rw [h1, Option.map_some'] at h4
  rw [hs2, Option.map_some', h5, ← Option.some.inj h4]
  rfl

theorem roundToFloat_1000 : roundToFloat 1000 = some 1000 := by
  have h := roundToFloat_intCast 1000 (by decide)
  exact_mod_cast h

/-! ## Runs in binary32 -/

/-- An event changes the flags as `eventFlags` says and leaves camera and constants. -/
theorem processSceneEvents_facts (e : Event) (s : TestScene) :
    (processSceneEvents e s)._camera = s._camera
    ∧ flags (processSceneEvents e s) = eventFlags e (flags s)
    ∧ constants (processSceneEvents e s) = constants s := by
  obtain ⟨kd, ku, kl, kr, he⟩ := processSceneEvents_frame e s
  refine ⟨?_, flags_processSceneEvents e s, ?_⟩
  · rw [he]
  · rw [he]
    rfl

/-- The run `rightToBorder` from the constructed scene ends with the camera at
`(128 - 2^-17, 0)`, in a scene with the constants of the constructed one. -/
theorem runF32_rightToBorder :
    ∃ s : TestScene, runF32 false rightToBorder (TestScene.new false 400 300) = some s
      ∧ s._camera = ⟨16777215 / 131072, 0⟩
      ∧ constants s = (25, ⟨400 - 25, 300 - 25⟩, 1000, 64, 64, 4, 400, 300) := by
  have hc0 := constants_rightPressed false
  have hv0 := view_rightPressed false
  have hf0 : flags (rightPressed false) = (false, false, false, true) := congrArg View.flags hv0
  have hcam0 : (rightPressed false)._camera = ⟨0, 0⟩ := congrArg View.camera hv0
  have hspeed0 : (rightPressed false)._cameraSpeed = 1000 := by
    simp only [constants, Prod.mk.injEq] at hc0
    exact hc0.2.2.1
  -- first tick
  have hd1 : mulFloat 1000 (15933255 / 1073741824) = some (15559819 / 1048576) :=
    roundToFloat_down _ _ 3 15559819 (by norm_num) (by norm_num) (by decide) (by norm_num)
      (by norm_num) (by norm_num) (by rw [abs_of_pos (by norm_num)]; norm_num)
  have hb1 : IsBinary32 (15559819 / 1048576 : ℚ) := by
    have h := roundToFloat_dyadic 15559819 (-20) (by decide) (by decide)
      (by rw [abs_of_pos (by norm_num)]; norm_num)
    norm_num at h
    exact h
  have hx1 : addFloat 0 (15559819 / 1048576) = some (15559819 / 1048576) := by
    rw [addFloat, zero_add]
    exact hb1
  have hm1 := moveCameraF32_of_flags (15933255 / 1073741824) (rightPressed false) false false false
    true (15559819 / 1048576) (15559819 / 1048576) 0 hf0 rfl (by rw [hspeed0]; exact hd1)
    (by rw [hcam0]; exact displaceF32_none _ _)
    (by rw [hcam0, displaceF32_plus]; exact hx1)
  have ha1 : roundToFloat ((15559819 / 1048576 : ℚ) + 128) = some (9361097 / 65536) :=
    roundToFloat_up _ _ 7 9361096 (by norm_num) (by norm_num) (by decide) (by norm_num)
      (by norm_num) (by norm_num) (by rw [abs_of_pos (by norm_num)]; norm_num)
  have h128 : roundToFloat ((0 : ℚ) + 128) = some 128 := by
    rw [zero_add]
    exact roundToFloat_128
  obtain ⟨s1, hs1, hcam1, hf1, hc1⟩ := updateSceneF32_tick false (15933255 / 1073741824)
    (rightPressed false) ⟨15559819 / 1048576, 0⟩ (9361097 / 65536) 128 hc0 hm1 hb1 IsBinary32_zero
    ha1 h128 (by rw [abs_of_pos (by norm_num)]; norm_num)
    (by rw [abs_of_pos (by norm_num)]; norm_num)
  -- second tick
  have hspeed1 : s1._cameraSpeed = 1000 := by
    simp only [constants, Prod.mk.injEq] at hc1
    exact hc1.2.2.1
  have hd2 : mulFloat 1000 (3797053 / 33554432) = some (7416119 / 65536) :=
    roundToFloat_down _ _ 6 14832238 (by norm_num) (by norm_num) (by decide) (by norm_num)
      (by norm_num) (by norm_num) (by rw [abs_of_pos (by norm_num)]; norm_num)
  have hx2 : addFloat (15559819 / 1048576) (7416119 / 65536) = some (16777215 / 131072) :=
    roundToFloat_down _ _ 6 16777215 (by norm_num) (by norm_num) (by decide) (by norm_num)
      (by norm_num) (by norm_num) (by rw [abs_of_pos (by norm_num)]; norm_num)
  have hb2 : IsBinary32 (16777215 / 131072 : ℚ) := by
    have h := roundToFloat_dyadic 16777215 (-17) (by decide) (by decide)
      (by rw [abs_of_pos (by norm_num)]; norm_num)
    norm_num at h
    exact h
  have hm2 := moveCameraF32_of_flags (3797053 / 33554432) s1 false false false
    true (7416119 / 65536) (16777215 / 131072) 0 (hf1.trans hf0) rfl (by rw [hspeed1]; exact hd2)
    (by rw [hcam1]; exact displaceF32_none _ _)
    (by rw [hcam1, displaceF32_plus]; exact hx2)
  have ha2 : roundToFloat ((16777215 / 131072 : ℚ) + 128) = some 256 := by
    have hq : ((16777215 / 131072 : ℚ) + 128) / 2 ^ ((7 : Int) - 23)
        = ((16777215 : Int) : ℚ) + 1 / 2 := by norm_num
    have h := roundToFloat_of_binade ((16777215 / 131072 : ℚ) + 128) 7 16777216
      (by rw [abs_of_pos (by norm_num)]; norm_num) (by rw [abs_of_pos (by norm_num)]; norm_num)
      (by decide) (by rw [hq, roundHalfEven_tie]; decide)
      (by rw [abs_of_pos (by norm_num)]; norm_num)
    rw [h]
    norm_num
  obtain ⟨s2, hs2, hcam2, hf2, hc2⟩ := updateSceneF32_tick false (3797053 / 33554432)
    s1 ⟨16777215 / 131072, 0⟩ 256 128 hc1 hm2 hb2 IsBinary32_zero
    ha2 h128 (by rw [abs_of_pos (by norm_num)]; norm_num)
    (by rw [abs_of_pos (by norm_num)]; norm_num)
  refine ⟨s2, ?_, hcam2, hc2⟩
  have hs0 : updateSceneF32 false (15933255 / 1073741824)
      (processSceneEvents (Event.keyPressed Key.D) (TestScene.new false 400 300)) = some s1 := hs1
  simp only [rightToBorder, runF32, stepF32, some_bind_eq, hs0, hs2]

/-- C11 as stated fails: from the constructed scene, with the right key held, two ticks of
14839 and 113161 microseconds take the camera to the binary32 value `x = 128 - 2^-17`,
left of the border `128` between the chunks `(0, 0)` and `(1, 0)`; the sum `x + 128` lies
half way between the binary32 values `256 - 2^-16` and `256` and rounds to `256`, and
`getCurrentChunkCoords` returns `(1, 0)`. -/
theorem current_chunk_rounds_over_border :
    (runF32 false rightToBorder (TestScene.new false 400 300)).map
        (fun s => (s._camera, s._chunkWidth * s._chunkScale, s._chunkHeight * s._chunkScale))
      = some (⟨16777215 / 131072, 0⟩, 256, 256)
    ∧ (runF32 false rightToBorder (TestScene.new false 400 300)).bind getCurrentChunkCoordsF32
      = some ⟨1, 0⟩
    ∧ ¬ ((1 : ℚ) * 256 - 256 / 2 ≤ 16777215 / 131072)
    ∧ IsBinary32 (15933255 / 1073741824) ∧ IsBinary32 (3797053 / 33554432) := by
  obtain ⟨s, hs, hcam, hc⟩ := runF32_rightToBorder
  have t1 : IsBinary32 (15933255 / 1073741824 : ℚ) := by
    have h := roundToFloat_dyadic 15933255 (-30) (by decide) (by decide)
      (by rw [abs_of_pos (by norm_num)]; norm_num)
    norm_num at h
    exact h
  have t2 : IsBinary32 (3797053 / 33554432 : ℚ) := by
    have h := roundToFloat_dyadic 3797053 (-25) (by decide) (by decide)
      (by rw [abs_of_pos (by norm_num)]; norm_num)
    norm_num at h
    exact h
  obtain ⟨hW, hH, hsx, hsy⟩ := centred_of_constants s hc
  have e1 : IsBinary32 (16777215 / 131072 : ℚ) := by
    have h := roundToFloat_dyadic 16777215 (-17) (by decide) (by decide)
      (by rw [abs_of_pos (by norm_num)]; norm_num)
    norm_num at h
    exact h
  have e2 : roundNearest ((16777215 / 131072 : ℚ) + 128) = 256 := by
    have hq : ((16777215 / 131072 : ℚ) + 128) / 2 ^ ((7 : Int) - 23)
        = ((16777215 : Int) : ℚ) + 1 / 2 := by norm_num
    rw [roundNearest_of_binade _ 7 (by rw [abs_of_pos (by norm_num)]; norm_num)
      (by rw [abs_of_pos (by norm_num)]; norm_num) (by decide), hq, roundHalfEven_tie]
    norm_num
  have e3 : roundNearest ((0 : ℚ) + 128) = 128 := by
    rw [zero_add]
    exact roundNearest_of_IsBinary32 128 roundToFloat_128
  refine ⟨?_, ?_, by norm_num, t1, t2⟩
  · rw [hs, Option.map_some', hcam, hW, hH]
  · rw [hs, some_bind_eq, getCurrentChunkCoordsF32_iff _ 1 0 hW hH hsx hsy
      (by rw [hcam]; exact e1) (by rw [hcam]; exact IsBinary32_zero), hcam]
    simp only [e2, e3]
    norm_num

/-- The run `downThenUpAndDown` from the constructed scene ends with the camera at
`(0, 3355443 / 2^25)`, the up and the down flag set, in a scene with the constants of the
constructed one. -/
theorem runF32_downThenUpAndDown :
    ∃ s : TestScene, runF32 false downThenUpAndDown (TestScene.new false 400 300) = some s
      ∧ s._camera = ⟨0, 3355443 / 33554432⟩
      ∧ flags s = (true, true, false, false)
      ∧ constants s = (25, ⟨400 - 25, 300 - 25⟩, 1000, 64, 64, 4, 400, 300) := by
  obtain ⟨hcam0, hf0, hc0⟩ := processSceneEvents_facts (Event.keyPressed Key.S)
    (TestScene.new false 400 300)
  rw [constants_new] at hc0
  have hv := view_new false 400 300
  rw [show flags (TestScene.new false 400 300) = (false, false, false, false) from
    congrArg View.flags hv] at hf0
  rw [show (TestScene.new false 400 300)._camera = ⟨0, 0⟩ from congrArg View.camera hv] at hcam0
  have hspeed0 : (processSceneEvents (Event.keyPressed Key.S)
      (TestScene.new false 400 300))._cameraSpeed = 1000 := by
    simp only [constants, Prod.mk.injEq] at hc0
    exact hc0.2.2.1
  have hd : mulFloat 1000 (13743895 / 137438953472) = some (3355443 / 33554432) :=
    roundToFloat_down _ _ (-4) 13421772 (by norm_num) (by norm_num) (by decide) (by norm_num)
      (by norm_num) (by norm_num) (by rw [abs_of_pos (by norm_num)]; norm_num)
  have hb : IsBinary32 (3355443 / 33554432 : ℚ) := by
    have h := roundToFloat_dyadic 3355443 (-25) (by decide) (by decide)
      (by rw [abs_of_pos (by norm_num)]; norm_num)
    norm_num at h
    exact h
  have hy : addFloat 0 (3355443 / 33554432) = some (3355443 / 33554432) := by
    rw [addFloat, zero_add]
    exact hb
  have hm := moveCameraF32_of_flags (13743895 / 137438953472)
    (processSceneEvents (Event.keyPressed Key.S) (TestScene.new false 400 300)) true false false
    false (3355443 / 33554432) 0 (3355443 / 33554432) hf0 rfl (by rw [hspeed0]; exact hd)
    (by rw [hcam0, displaceF32_plus]; exact hy)
    (by rw [hcam0]; exact displaceF32_none _ _)
  have ha : roundToFloat ((3355443 / 33554432 : ℚ) + 128) = some (4197581 / 32768) :=
    roundToFloat_up _ _ 7 8395161 (by norm_num) (by norm_num) (by decide) (by norm_num)
      (by norm_num) (by norm_num) (by rw [abs_of_pos (by norm_num)]; norm_num)
  have h128 : roundToFloat ((0 : ℚ) + 128) = some 128 := by
    rw [zero_add]
    exact roundToFloat_128
  obtain ⟨s1, hs1, hcam1, hf1, hc1⟩ := updateSceneF32_tick false (13743895 / 137438953472)
    _ ⟨0, 3355443 / 33554432⟩ 128 (4197581 / 32768) hc0 hm IsBinary32_zero hb h128 ha
    (by rw [abs_of_pos (by norm_num)]; norm_num) (by rw [abs_of_pos (by norm_num)]; norm_num)
  obtain ⟨hcam2, hf2, hc2⟩ := processSceneEvents_facts (Event.keyPressed Key.W) s1
  refine ⟨processSceneEvents (Event.keyPressed Key.W) s1, ?_, hcam2.trans hcam1, ?_,
    hc2.trans hc1⟩
  · simp only [downThenUpAndDown, runF32, stepF32, some_bind_eq, hs1]
  · rw [hf2, hf1, hf0]
    rfl

/-- One second with the up and the down key held takes a camera at `y = 3355443 / 2^25` to
`y = 819 / 8192`. -/
theorem updateSceneF32_upAndDown (s : TestScene) (hcam : s._camera = ⟨0, 3355443 / 33554432⟩)
    (hf : flags s = (true, true, false, false))
    (hc : constants s = (25, ⟨400 - 25, 300 - 25⟩, 1000, 64, 64, 4, 400, 300)) :
    (updateSceneF32 false 1 s).map (fun s1 => s1._camera) = some ⟨0, 819 / 8192⟩ := by
  have hspeed : s._cameraSpeed = 1000 := by
    simp only [constants, Prod.mk.injEq] at hc
    exact hc.2.2.1
  have hd : mulFloat 1000 1 = some 1000 := by
    rw [mulFloat, mul_one]
    exact roundToFloat_1000
  have hsub : subFloat (3355443 / 33554432) 1000 = some (-(8191181 / 8192)) := by
    have hq : ((3355443 / 33554432 : ℚ) - 1000) / 2 ^ ((9 : Int) - 23)
        = ((-16382362 : Int) : ℚ) + 819 / 2048 := by norm_num
    have h := roundToFloat_of_binade ((3355443 / 33554432 : ℚ) - 1000) 9 (-16382362)
      (by rw [abs_of_neg (by norm_num)]; norm_num) (by rw [abs_of_neg (by norm_num)]; norm_num)
      (by decide) (by rw [hq]; exact roundHalfEven_of_lt _ _ (by norm_num) (by norm_num))
      (by rw [abs_of_neg (by norm_num)]; norm_num)
    rw [subFloat, h]
    norm_num
  have hy1 : IsBinary32 (819 / 8192 : ℚ) := by
    have h := roundToFloat_dyadic 819 (-13) (by decide) (by decide)
      (by rw [abs_of_pos (by norm_num)]; norm_num)
    norm_num at h
    exact h
  have hadd : addFloat (-(8191181 / 8192)) 1000 = some (819 / 8192) := by
    rw [addFloat]
    norm_num
    exact hy1
  have hm := moveCameraF32_of_flags 1 s true true false false 1000 0 (819 / 8192) hf rfl
    (by rw [hspeed]; exact hd)
    (by rw [hcam, displaceF32_both, hsub, some_bind_eq]; exact hadd)
    (by rw [hcam]; exact displaceF32_none _ _)
  have hb : roundToFloat ((819 / 8192 : ℚ) + 128) = some (1049395 / 8192) := by
    have h := roundToFloat_dyadic 1049395 (-13) (by decide) (by decide)
      (by rw [abs_of_pos (by norm_num)]; norm_num)
    norm_num at h ⊢
    exact h
  have h128 : roundToFloat ((0 : ℚ) + 128) = some 128 := by
    rw [zero_add]
    exact roundToFloat_128
  obtain ⟨s1, hs1, hcam1, _, _⟩ := updateSceneF32_tick false 1 s ⟨0, 819 / 8192⟩ 128
    (1049395 / 8192) hc hm IsBinary32_zero hy1 h128 hb
    (by rw [abs_of_pos (by norm_num)]; norm_num) (by rw [abs_of_pos (by norm_num)]; norm_num)
  rw [hs1, Option.map_some', hcam1]

/-- C13 as stated fails: from the constructed scene, with the down key held, a tick of 100
microseconds takes the camera to the binary32 value `y = 3355443 / 2^25` (0.099999994); with
the up key held as well, a tick of one second computes `y - 1000`, which rounds to
`-999.9000244140625`, and adds 1000, which gives `819 / 8192` (0.0999755859375): the
opposite flags do not cancel, and the camera has not moved by
`speed * dt * (down - up) = 0`. -/
theorem opposite_flags_do_not_cancel :
    (runF32 false downThenUpAndDown (TestScene.new false 400 300)).map
        (fun s => (s._camera, flags s, s._cameraSpeed))
      = some (⟨0, 3355443 / 33554432⟩, (true, true, false, false), 1000)
    ∧ ((runF32 false downThenUpAndDown (TestScene.new false 400 300)).bind
        (updateSceneF32 false 1)).map (fun s => s._camera) = some ⟨0, 819 / 8192⟩
    ∧ (819 / 8192 : ℚ) ≠ 3355443 / 33554432 + 1000 * 1 * (flagValue true - flagValue true)
    ∧ IsBinary32 (13743895 / 137438953472) := by
  obtain ⟨s, hs, hcam, hf, hc⟩ := runF32_downThenUpAndDown
  have t1 : IsBinary32 (13743895 / 137438953472 : ℚ) := by
    have h := roundToFloat_dyadic 13743895 (-37) (by decide) (by decide)
      (by rw [abs_of_pos (by norm_num)]; norm_num)
    norm_num at h
    exact h
  have hspeed : s._cameraSpeed = 1000 := by
    simp only [constants, Prod.mk.injEq] at hc
    exact hc.2.2.1
  refine ⟨?_, ?_, by norm_num [flagValue], t1⟩
  · rw [hs, Option.map_some', hcam, hf, hspeed]
  · rw [hs, some_bind_eq]
    exact updateSceneF32_upAndDown s hcam hf hc

/-! ## The draw origin in binary32 -/

end TerrainProj
